import Mathlib

/-!
# realmd: the process runner of `realm-command.c`

A shallow embedding of `src/service/realm-command.c`: the `GSource` that
multiplexes the three pipes of a child process, the child watch, the
cancellation handler, the known-command front end and the password line
builder.  C state is passed explicitly; what the C code asks of the operating
system and of GLib (results of `read` and `write`, readiness bits, the exit
status, cancellation) arrives as data in the events that drive the model.

Two further parts follow: the string formatter behind
`tests/test-safe-format.c`, and the discovery reply of
`src/service/realm-provider.c`.
-/

namespace Realm

/-- Byte strings: the contents of a `GString`, a `GBytes` or a C buffer. -/
abbrev Bytes := List Nat

/-! ## Constants of the C environment -/

/-- Readiness bit `G_IO_IN` of `GIOCondition`. -/
def G_IO_IN : Nat := 1
/-- Readiness bit `G_IO_OUT` of `GIOCondition`. -/
def G_IO_OUT : Nat := 4
/-- Readiness bit `G_IO_HUP` of `GIOCondition`. -/
def G_IO_HUP : Nat := 16

/-- Linux value of `EINTR`. -/
def EINTR : Nat := 4
/-- Linux value of `EAGAIN`. -/
def EAGAIN : Nat := 11
/-- Linux value of `EPIPE`. -/
def EPIPE : Nat := 32
/-- Linux value of `SIGTERM`. -/
def SIGTERM : Nat := 15

/-- The size of `gchar block[1024]` in `read_output`. -/
def BLOCK_SIZE : Nat := 1024

/-- The macro `WTERMSIG` of `sys/wait.h` (glibc): `status & 0x7f`. -/
def WTERMSIG (status : Nat) : Nat := status &&& 0x7f
/-- The macro `WEXITSTATUS` of `sys/wait.h` (glibc): `(status & 0xff00) >> 8`. -/
def WEXITSTATUS (status : Nat) : Nat := (status &&& 0xff00) >>> 8
/-- The macro `WIFEXITED` of `sys/wait.h` (glibc): `WTERMSIG (status) == 0`. -/
def WIFEXITED (status : Nat) : Bool := WTERMSIG status == 0
/-- The macro `WIFSIGNALED` of `sys/wait.h` (glibc):
`((signed char) ((status & 0x7f) + 1) >> 1) > 0`, that is a termination signal
between 1 and 126. -/
def WIFSIGNALED (status : Nat) : Bool :=
  decide (0 < WTERMSIG status) && decide (WTERMSIG status < 0x7f)

/-! ## Data model -/

/-- The errors that end up in the `GSimpleAsyncResult`. -/
inductive GError where
  /-- `G_IO_ERROR`, `G_IO_ERROR_CANCELLED`: "The operation was cancelled". -/
  | io_cancelled
  /-- `G_SPAWN_ERROR`, `G_SPAWN_ERROR_FAILED`:
  "Process was terminated with signal: %d". -/
  | terminated_with_signal (code : Nat)
  /-- An error reported by `g_spawn_async_with_pipes`. -/
  | spawn (code : Nat)
  deriving DecidableEq, Repr

/-- A `GBytes` made by `g_bytes_new_with_free_func (data, size, ...)`: the
memory block `data` points to and the number of bytes the `GBytes` exposes. -/
structure GBytes where
  buffer : Bytes
  size : Nat
  deriving DecidableEq, Repr

/-- The call `g_bytes_get_data (bytes, &length)`: the exposed bytes and their
count. -/
def g_bytes_get_data (bytes : GBytes) : Bytes × Nat :=
  (bytes.buffer.take bytes.size, bytes.size)

/-- A `GBytes` that exposes the whole of its memory block. -/
def g_bytes_new (data : Bytes) : GBytes :=
  { buffer := data, size := data.length }

/-- The struct `GPollFD`. -/
structure GPollFD where
  fd : Int
  events : Nat
  revents : Nat
  deriving DecidableEq, Repr

/-- The array `polls[NUM_FDS]`, indexed by `FD_INPUT`, `FD_OUTPUT`, `FD_ERROR`. -/
structure Polls where
  fd_input : GPollFD
  fd_output : GPollFD
  fd_error : GPollFD
  deriving DecidableEq, Repr

/-- The struct `CommandClosure` (`invocation` is an opaque handle). -/
structure CommandClosure where
  input : Option GBytes
  input_offset : Nat
  output : Bytes
  source_sig : Nat
  exit_code : Int
  cancelled : Bool
  invocation : Option Nat
  deriving DecidableEq, Repr

/-- The part of `GSimpleAsyncResult` the code uses: the error slot.  Its
`op_res` pointer is the `CommandClosure`, which `ProcessSource.command` aliases;
the embedding keeps that one copy in `ProcessSource.command`. -/
structure GSimpleAsyncResult where
  error : Option GError
  deriving DecidableEq, Repr

/-- The struct `ProcessSource`.  `cancellable` says whether the pointer is
non-NULL. -/
structure ProcessSource where
  polls : Polls
  child_pid : Int
  child_sig : Nat
  res : GSimpleAsyncResult
  command : CommandClosure
  cancellable : Bool
  cancel_sig : Nat
  deriving DecidableEq, Repr

/-- The three `g_warning` calls of the file. -/
inductive Warning where
  /-- "couldn't write output data to process: %s" with `g_strerror (errno)`. -/
  | write_failed (errno : Nat)
  /-- "couldn't read output data from process". -/
  | read_output_failed
  /-- "couldn't read error data from process". -/
  | read_error_failed
  deriving DecidableEq, Repr

/-- One invocation together with its surroundings.

* `ps` is the C state.
* `delivered` records every call of `g_simple_async_result_complete`, with the
  `ProcessSource` as it is at that call.
* `aborted` is set when a `g_assert` fails.
* `source_attached`, `child_watch`, `cancel_handler` are the registrations GLib
  holds: the attached source, the pending child watch, the connected
  "cancelled" handler.
* `kills`, `warnings`, `diag`, `closed` record the calls of `kill`,
  `g_warning`, `realm_diagnostics_info_data` and `close`.
* `received` lists what each successful `read` returned, `written` what the
  `write` calls on the stdin pipe accepted. -/
structure World where
  ps : ProcessSource
  delivered : List ProcessSource
  aborted : Bool
  source_attached : Bool
  child_watch : Bool
  cancel_handler : Bool
  kills : List (Int × Nat)
  warnings : List Warning
  diag : List (Option Nat × Bytes)
  closed : List Int
  received : List Bytes
  written : Bytes
  deriving DecidableEq, Repr

/-- The answer of one `write` call: failure with an `errno`, or a count of
accepted bytes. -/
inductive WriteResult where
  | fail (errno : Nat)
  | wrote (count : Nat)
  deriving DecidableEq, Repr

/-- The answer of one `read` call: failure with an `errno`, or the bytes that
were available. -/
inductive ReadResult where
  | fail (errno : Nat)
  | data (bytes : Bytes)
  deriving DecidableEq, Repr

/-! ## The functions of `realm-command.c` -/

/-- The loops `for (i = 0; i < NUM_FDS; ++i) if (polls[i].fd >= 0) return ...`:
some descriptor is still open. -/
def any_fd_open (polls : Polls) : Bool :=
  decide (0 ≤ polls.fd_input.fd) || decide (0 ≤ polls.fd_output.fd) ||
    decide (0 ≤ polls.fd_error.fd)

/-- The call `g_simple_async_result_set_error`: replaces the error slot. -/
def g_simple_async_result_set_error (w : World) (e : GError) : World :=
  { w with ps := { w.ps with res := { error := some e } } }

/-- The function `complete_source_is_done` (lines 76-95). -/
def complete_source_is_done (w : World) : World :=
  if w.ps.child_sig ≠ 0 then
    { w with aborted := true }
  else
    let w1 :=
      if w.ps.cancel_sig ≠ 0 then
        { w with cancel_handler := false, ps := { w.ps with cancel_sig := 0 } }
      else w
    let w2 := { w1 with ps := { w1.ps with cancellable := false } }
    { w2 with delivered := w2.delivered ++ [w2.ps] }

/-- The function `close_fd` (lines 97-108), on the value `*fd`. -/
def close_fd (w : World) (fd : Int) : World × Int :=
  (if 0 ≤ fd then { w with closed := w.closed ++ [fd] } else w, -1)

/-- The function `close_poll` (lines 110-116), on the value `*poll`. -/
def close_poll (w : World) (poll : GPollFD) : World × GPollFD :=
  let r := close_fd w poll.fd
  (r.1, { poll with fd := r.2, revents := 0 })

/-- The function `on_process_source_prepare` (lines 126-139). -/
def on_process_source_prepare (w : World) : Bool :=
  !any_fd_open w.ps.polls

/-- The function `on_process_source_check` (lines 141-152). -/
def on_process_source_check (w : World) : Bool :=
  (decide (0 ≤ w.ps.polls.fd_input.fd) && w.ps.polls.fd_input.revents != 0) ||
  (decide (0 ≤ w.ps.polls.fd_output.fd) && w.ps.polls.fd_output.revents != 0) ||
  (decide (0 ≤ w.ps.polls.fd_error.fd) && w.ps.polls.fd_error.revents != 0)

/-- The body of the `do ... while (result == sizeof (block))` loop of
`read_output`, one `read` answer per iteration.  A `read` gives at most
`sizeof (block)` bytes.  `continue` jumps to the loop condition, which is false
for `result == -1`, so a transient failure leaves the loop with TRUE.  When the
answers run out, `read` returns 0. -/
def read_output_loop : List ReadResult → World → World × Bool
  | [], w => (w, true)
  | ReadResult.fail errno :: _, w =>
      if errno = EINTR ∨ errno = EAGAIN then (w, true) else (w, false)
  | ReadResult.data bytes :: rest, w =>
      let block := bytes.take BLOCK_SIZE
      let result := block.length
      let w0 := { w with received := w.received ++ [block] }
      let w1 :=
        if 0 < result then
          { w0 with
            diag := w0.diag ++ [(w0.ps.command.invocation, block)],
            ps := { w0.ps with command :=
              { w0.ps.command with output := w0.ps.command.output ++ block } } }
        else w0
      if result = BLOCK_SIZE then read_output_loop rest w1 else (w1, true)

/-- The function `read_output` (lines 170-193); `buffer` is `command->output`
and `invocation` is `command->invocation`. -/
def read_output (w : World) (fd : Int) (reads : List ReadResult) : World × Bool :=
  if fd < 0 then (w, false) else read_output_loop reads w

/-- The statements `g_bytes_unref (command->input); command->input = NULL;`. -/
def drop_input (w : World) : World :=
  { w with ps := { w.ps with command := { w.ps.command with input := none } } }

/-- The tail of `on_process_source_input` (lines 224-230). -/
def on_process_source_input_tail (w : World) (length : Nat) : World × Bool :=
  if length ≤ w.ps.command.input_offset then (drop_input w, false) else (w, true)

/-- The function `on_process_source_input` (lines 195-231).  `answer` is what
the `write` call returns, should the function make it; a `write` accepts at
most the bytes it is offered. -/
def on_process_source_input (w : World) (_fd : Int) (answer : WriteResult) :
    World × Bool :=
  match w.ps.command.input with
  | none => (w, false)
  | some input =>
    let data := (g_bytes_get_data input).1
    let length := (g_bytes_get_data input).2
    if w.ps.command.input_offset < length then
      let slice := (data.drop w.ps.command.input_offset).take
        (length - w.ps.command.input_offset)
      match answer with
      | WriteResult.fail errno =>
        if errno ≠ EINTR ∧ errno ≠ EAGAIN then
          let w1 :=
            if !w.ps.command.cancelled || errno != EPIPE then
              { w with warnings := w.warnings ++ [Warning.write_failed errno] }
            else w
          (drop_input w1, false)
        else on_process_source_input_tail w length
      | WriteResult.wrote count =>
        let result := min count (length - w.ps.command.input_offset)
        let w1 := { w with
          written := w.written ++ slice.take result,
          ps := { w.ps with command := { w.ps.command with
            input_offset := w.ps.command.input_offset + result } } }
        on_process_source_input_tail w1 length
    else on_process_source_input_tail w length

/-- The function `on_process_source_output` (lines 233-244). -/
def on_process_source_output (w : World) (fd : Int) (reads : List ReadResult) :
    World × Bool :=
  let r := read_output w fd reads
  if !r.2 then
    ({ r.1 with warnings := r.1.warnings ++ [Warning.read_output_failed] }, false)
  else (r.1, true)

/-- The function `on_process_source_error` (lines 246-257). -/
def on_process_source_error (w : World) (fd : Int) (reads : List ReadResult) :
    World × Bool :=
  let r := read_output w fd reads
  if !r.2 then
    ({ r.1 with warnings := r.1.warnings ++ [Warning.read_error_failed] }, false)
  else (r.1, true)

/-- Lines 270-278 of `on_process_source_dispatch`: standard input. -/
def dispatch_input (w : World) (answer : WriteResult) : World :=
  let poll := w.ps.polls.fd_input
  if 0 ≤ poll.fd then
    let r1 : World × GPollFD :=
      if poll.revents &&& G_IO_OUT ≠ 0 then
        let r := on_process_source_input w poll.fd answer
        if !r.2 then (r.1, { poll with revents := poll.revents ||| G_IO_HUP })
        else (r.1, poll)
      else (w, poll)
    let r2 : World × GPollFD :=
      if r1.2.revents &&& G_IO_HUP ≠ 0 then close_poll r1.1 r1.2 else r1
    { r2.1 with ps := { r2.1.ps with polls :=
      { r2.1.ps.polls with fd_input := { r2.2 with revents := 0 } } } }
  else w

/-- Lines 280-289 of `on_process_source_dispatch`: standard output. -/
def dispatch_output (w : World) (reads : List ReadResult) : World :=
  let poll := w.ps.polls.fd_output
  if 0 ≤ poll.fd then
    let r1 : World × GPollFD :=
      if poll.revents &&& G_IO_IN ≠ 0 then
        let r := on_process_source_output w poll.fd reads
        if !r.2 then (r.1, { poll with revents := poll.revents ||| G_IO_HUP })
        else (r.1, poll)
      else (w, poll)
    let r2 : World × GPollFD :=
      if r1.2.revents &&& G_IO_HUP ≠ 0 then close_poll r1.1 r1.2 else r1
    { r2.1 with ps := { r2.1.ps with polls :=
      { r2.1.ps.polls with fd_output := { r2.2 with revents := 0 } } } }
  else w

/-- Lines 291-300 of `on_process_source_dispatch`: standard error. -/
def dispatch_error (w : World) (reads : List ReadResult) : World :=
  let poll := w.ps.polls.fd_error
  if 0 ≤ poll.fd then
    let r1 : World × GPollFD :=
      if poll.revents &&& G_IO_IN ≠ 0 then
        let r := on_process_source_error w poll.fd reads
        if !r.2 then (r.1, { poll with revents := poll.revents ||| G_IO_HUP })
        else (r.1, poll)
      else (w, poll)
    let r2 : World × GPollFD :=
      if r1.2.revents &&& G_IO_HUP ≠ 0 then close_poll r1.1 r1.2 else r1
    { r2.1 with ps := { r2.1.ps with polls :=
      { r2.1.ps.polls with fd_error := { r2.2 with revents := 0 } } } }
  else w

/-- Lines 302-313 of `on_process_source_dispatch`: what follows the three
stream blocks. -/
def dispatch_finish (w : World) : World × Bool :=
  if any_fd_open w.ps.polls then (w, true)
  else
    let w1 := { w with ps := { w.ps with command :=
      { w.ps.command with source_sig := 0 } } }
    let w2 := if w1.ps.child_pid = 0 then complete_source_is_done w1 else w1
    (w2, false)

/-- The function `on_process_source_dispatch` (lines 259-314).  `answer` is the
result of the `write` on stdin, `out_reads` and `err_reads` those of the `read`
calls on stdout and stderr.  The Boolean is the return value. -/
def on_process_source_dispatch (w : World) (answer : WriteResult)
    (out_reads err_reads : List ReadResult) : World × Bool :=
  dispatch_finish (dispatch_error (dispatch_output (dispatch_input w answer) out_reads)
    err_reads)

/-- The function `on_unix_process_child_exited` (lines 323-356). -/
def on_unix_process_child_exited (w : World) (status : Nat) : World :=
  let w1 := { w with ps := { w.ps with child_pid := 0, child_sig := 0 } }
  let w2 :=
    if WIFEXITED status then
      { w1 with ps := { w1.ps with command :=
        { w1.ps.command with exit_code := (WEXITSTATUS status : Int) } } }
    else if WIFSIGNALED status then
      if !w1.ps.command.cancelled then
        g_simple_async_result_set_error w1 (GError.terminated_with_signal (WTERMSIG status))
      else w1
    else w1
  if any_fd_open w2.ps.polls then w2 else complete_source_is_done w2

/-- The function `on_cancellable_cancelled` (lines 386-405). -/
def on_cancellable_cancelled (w : World) : World :=
  let w1 := g_simple_async_result_set_error w GError.io_cancelled
  let w2 := { w1 with ps := { w1.ps with command :=
    { w1.ps.command with cancelled := true } } }
  if w2.ps.child_pid ≠ 0 then
    { w2 with kills := w2.kills ++ [(w2.ps.child_pid, SIGTERM)] }
  else w2

/-! ## Starting an invocation and driving it -/

/-- The outcome of `g_spawn_async_with_pipes`. -/
inductive SpawnResult where
  | failed (error : GError)
  | spawned (pid : Int) (input_fd output_fd error_fd : Int)
  deriving DecidableEq, Repr

/-- What `realm_invocation_get_cancellable` returns and what
`g_cancellable_connect` does with it: no cancellable (NULL); a cancellable not
yet cancelled, for which the handler is connected under a handler id; a
cancellable already cancelled, for which `g_cancellable_connect` runs the
callback at once and returns 0. -/
inductive Cancellable where
  | absent
  | pending (handler_id : Nat)
  | cancelled
  deriving DecidableEq, Repr

/-- What `realm_command_runv_async` leaves behind: a result completed in idle
with the spawn error, or a running invocation. -/
inductive Started where
  | spawn_failed (res : GSimpleAsyncResult) (command : CommandClosure)
  | running (w : World)
  deriving DecidableEq, Repr

/-- The closure `g_new0 (CommandClosure, 1)` as filled in lines 477-480. -/
def new_command_closure (input : Option GBytes) (invocation : Option Nat) :
    CommandClosure :=
  { input := input, input_offset := 0, output := [], source_sig := 0, exit_code := 0,
    cancelled := false, invocation := invocation }

/-- Lines 490-535 of `realm_command_runv_async`: the set-up of the source after
a successful spawn.  `source_id` and `watch_id` are the ids `g_source_attach`
and `g_child_watch_add_full` return. -/
def process_source_new (command : CommandClosure) (cancellable : Cancellable)
    (pid input_fd output_fd error_fd : Int) (source_id watch_id : Nat) : World :=
  let polls : Polls :=
    { fd_input := { fd := input_fd, events := if 0 ≤ input_fd then G_IO_HUP ||| G_IO_OUT else 0,
                    revents := 0 },
      fd_output := { fd := output_fd, events := if 0 ≤ output_fd then G_IO_HUP ||| G_IO_IN else 0,
                     revents := 0 },
      fd_error := { fd := error_fd, events := if 0 ≤ error_fd then G_IO_HUP ||| G_IO_IN else 0,
                    revents := 0 } }
  let w0 : World :=
    { ps := { polls := polls, child_pid := pid, child_sig := 0, res := { error := none },
              command := command, cancellable := false, cancel_sig := 0 },
      delivered := [], aborted := false, source_attached := false, child_watch := false,
      cancel_handler := false, kills := [], warnings := [], diag := [], closed := [],
      received := [], written := [] }
  let w1 : World :=
    match cancellable with
    | Cancellable.absent => w0
    | Cancellable.pending handler_id =>
      { w0 with cancel_handler := true,
                ps := { w0.ps with cancellable := true, cancel_sig := handler_id } }
    | Cancellable.cancelled =>
      let w := on_cancellable_cancelled { w0 with ps := { w0.ps with cancellable := true } }
      { w with ps := { w.ps with cancel_sig := 0 } }
  let w2 :=
    if w1.ps.command.source_sig ≠ 0 then { w1 with aborted := true }
    else { w1 with source_attached := true,
                   ps := { w1.ps with command := { w1.ps.command with source_sig := source_id } } }
  if w2.aborted then w2
  else if w2.ps.child_sig ≠ 0 then { w2 with aborted := true }
  else { w2 with child_watch := true, ps := { w2.ps with child_sig := watch_id } }

/-- The function `realm_command_runv_async` (lines 407-538), from the spawn
on.  The environment block and the diagnostics line built before the spawn do
not reach the state and are left out. -/
def realm_command_runv_async (input : Option GBytes) (invocation : Option Nat)
    (cancellable : Cancellable) (spawn : SpawnResult) (source_id watch_id : Nat) :
    Started :=
  let command := new_command_closure input invocation
  match spawn with
  | SpawnResult.failed error => Started.spawn_failed { error := some error } command
  | SpawnResult.spawned pid input_fd output_fd error_fd =>
    Started.running
      (process_source_new command cancellable pid input_fd output_fd error_fd source_id watch_id)

/-- What the main loop and the cancellable can do to a running invocation.

* `dispatch`: `poll` reported the given `revents` for stdin, stdout and stderr
  and GLib calls `on_process_source_dispatch`; the remaining fields are the
  answers of the `write` and `read` calls made during the dispatch.
* `child_exited`: the child watch fires with a wait status.
* `cancel`: the cancellable emits "cancelled". -/
inductive Event where
  | dispatch (rev_in rev_out rev_err : Nat) (answer : WriteResult)
      (out_reads err_reads : List ReadResult)
  | child_exited (status : Nat)
  | cancel
  deriving DecidableEq, Repr

/-- The `revents` that `poll` stores into a registered `GPollFD`; a `GPollFD`
whose descriptor is closed is not registered with the source. -/
def set_revents (poll : GPollFD) (revents : Nat) : GPollFD :=
  if 0 ≤ poll.fd then { poll with revents := revents } else poll

/-- The world after `poll` stored the given `revents`, as a dispatch finds it. -/
def poll_ready (w : World) (rev_in rev_out rev_err : Nat) : World :=
  { w with ps := { w.ps with polls :=
    { fd_input := set_revents w.ps.polls.fd_input rev_in,
      fd_output := set_revents w.ps.polls.fd_output rev_out,
      fd_error := set_revents w.ps.polls.fd_error rev_err } } }

/-- One event, as GLib delivers it: a source is dispatched while it is attached
and is destroyed when its dispatch function returns FALSE; a child watch fires
once; the "cancelled" handler runs while it is connected.  Nothing runs after a
failed `g_assert`. -/
def step (w : World) : Event → World
  | Event.dispatch rev_in rev_out rev_err answer out_reads err_reads =>
    if w.aborted || !w.source_attached then w
    else
      let r := on_process_source_dispatch (poll_ready w rev_in rev_out rev_err)
        answer out_reads err_reads
      { r.1 with source_attached := r.2 }
  | Event.child_exited status =>
    if w.aborted || !w.child_watch then w
    else on_unix_process_child_exited { w with child_watch := false } status
  | Event.cancel =>
    if w.aborted || !w.cancel_handler then w
    else on_cancellable_cancelled w

/-- The invocation after a sequence of events. -/
def run (w : World) (events : List Event) : World :=
  events.foldl step w

/-- The value of `realm_command_run_finish`: the return value, `*output` and
`*error`. -/
structure FinishResult where
  ret : Int
  output : Option Bytes
  error : Option GError
  deriving DecidableEq, Repr

/-- The function `realm_command_run_finish` (lines 605-629) on a result and the
closure it carries; `want_output` says whether `output` is non-NULL. -/
def realm_command_run_finish (res : GSimpleAsyncResult) (command : CommandClosure)
    (want_output : Bool) : FinishResult :=
  match res.error with
  | some e => { ret := -1, output := none, error := some e }
  | none =>
    { ret := command.exit_code,
      output := if want_output then some command.output else none,
      error := none }

/-- The call of `realm_command_run_finish` on a delivered result. -/
def finish_delivered (d : ProcessSource) (want_output : Bool) : FinishResult :=
  realm_command_run_finish d.res d.command want_output

/-! ## The known-command front end -/

/-- The ASCII bytes of a string literal. -/
def ascii (s : String) : Bytes := s.toList.map Char.toNat

/-- The function `is_only_whitespace` (lines 540-550) on the bytes of a C
string; `g_ascii_isspace` is the GLib predicate. -/
def is_only_whitespace (g_ascii_isspace : Nat → Bool) : Bytes → Bool
  | [] => true
  | c :: rest => if !g_ascii_isspace c then false else is_only_whitespace g_ascii_isspace rest

/-- What `realm_command_run_known_async` does: it forwards an argument vector
to `realm_command_runv_async` with the given input, or it completes a result of
its own in idle. -/
inductive KnownRun where
  | forwarded (argv : List Bytes) (input : Option GBytes)
  | synthetic (res : GSimpleAsyncResult) (command : CommandClosure)
  deriving DecidableEq, Repr

/-- The function `realm_command_run_known_async` (lines 552-603).
`realm_settings_value` is the lookup in the "commands" section of the settings,
`g_shell_parse_argv` the GLib parser (`none` when it fails). -/
def realm_command_run_known_async (realm_settings_value : Bytes → Option Bytes)
    (g_ascii_isspace : Nat → Bool) (g_shell_parse_argv : Bytes → Option (List Bytes))
    (known_command : Bytes) : KnownRun :=
  let r : Option Bytes × Int × List Bytes :=
    match realm_settings_value known_command with
    | none => (some (ascii "Configured command not found: " ++ known_command), 127, [])
    | some command_line =>
      if is_only_whitespace g_ascii_isspace command_line then
        (some (ascii "Skipped command: " ++ known_command), 0, [])
      else
        match g_shell_parse_argv command_line with
        | none => (some (ascii "Configured command invalid: " ++ command_line), 127, [])
        | some argv => (none, -1, argv)
  match r.1 with
  | none => KnownRun.forwarded r.2.2 none
  | some message =>
    KnownRun.synthetic { error := none }
      { input := none, input_offset := 0, output := message, source_sig := 0,
        exit_code := r.2.1, cancelled := false, invocation := none }

/-! ## The password line -/

/-- The C function `strlen` on a memory block: the number of bytes before the
first zero byte. -/
def strlen (mem : Bytes) : Nat := (mem.takeWhile (fun b => b != 0)).length

/-- The C function `memset (mem, c, n)`. -/
def memset (mem : Bytes) (c : Nat) (n : Nat) : Bytes :=
  List.replicate (min n mem.length) c ++ mem.drop n

/-- The function `clear_and_free_password` (lines 631-637): the contents of the
memory block when it is handed to `g_free`. -/
def clear_and_free_password (password : Bytes) : Bytes :=
  memset password 0 (strlen password)

/-- The function `realm_command_build_password_line` (lines 639-666).  The
result is the `GBytes` over the block `result`; its free function is
`clear_and_free_password` on that block. -/
def realm_command_build_password_line (password : GBytes) : GBytes :=
  let array : Bytes := []
  let data := (g_bytes_get_data password).1
  let array := array ++ data
  let array := array ++ [10]
  let length := array.length
  let array := array ++ [0]
  { buffer := array, size := length }

/-- The memory block of a password line after the last `g_bytes_unref`, which
runs the free function. -/
def released_password_line (line : GBytes) : Bytes :=
  clear_and_free_password line.buffer

/-! ## The string formatter

`safe-format-string.c` is not among the sources; only its test file is.  The
definitions of this section follow section 4.3 of the specification and the
fixtures of `tests/test-safe-format.c`. -/

/-- One parsed conversion `%[position$][-| ][width][.precision]s`. -/
structure Conversion where
  position : Option Nat
  left : Bool
  width : Option Nat
  precision : Option Nat
  deriving DecidableEq, Repr

/-- A segment of a parsed template: a literal run or a conversion. -/
inductive Segment where
  | literal (text : Bytes)
  | conversion (c : Conversion)
  deriving DecidableEq, Repr

/-- ASCII decimal digit. -/
def is_digit (c : Nat) : Bool := decide (48 ≤ c) && decide (c ≤ 57)

/-- The value of a run of decimal digits. -/
def digits_value (ds : Bytes) : Nat := ds.foldl (fun n c => 10 * n + (c - 48)) 0

/-- Modelled from the spec: the parser of one conversion, absent from the
sources, applied to what follows a percent sign: an optional position (digits
and a dollar sign), flags (minus and space), an optional width, an optional
precision (a dot and digits, possibly none), and the letter s.  Any other shape
is a parse error. -/
def parse_conversion (s : Bytes) : Option (Conversion × Bytes) :=
  let d1 := s.span is_digit
  let p : Option Nat × Bytes :=
    match d1.2 with
    | 36 :: r => if d1.1 ≠ [] then (some (digits_value d1.1), r) else (none, s)
    | _ => (none, s)
  let fl := p.2.span (fun c => c == 45 || c == 32)
  let wd := fl.2.span is_digit
  let pr : Option Nat × Bytes :=
    match wd.2 with
    | 46 :: r => (some (digits_value (r.span is_digit).1), (r.span is_digit).2)
    | _ => (none, wd.2)
  match pr.2 with
  | 115 :: rest =>
    some ({ position := p.1, left := fl.1.contains 45,
            width := if wd.1 = [] then none else some (digits_value wd.1),
            precision := pr.1 }, rest)
  | _ => none

/-- Modelled from the spec: the template parser, absent from the sources:
literal runs, the escape of two percent signs, and conversions.  The first
argument bounds the number of segments; the length of the template plus one
always suffices. -/
def parse_template : Nat → Bytes → Option (List Segment)
  | 0, _ => none
  | _ + 1, [] => some []
  | fuel + 1, 37 :: 37 :: rest =>
    (parse_template fuel rest).map (fun l => Segment.literal [37] :: l)
  | fuel + 1, 37 :: rest =>
    match parse_conversion rest with
    | none => none
    | some r => (parse_template fuel r.2).map (fun l => Segment.conversion r.1 :: l)
  | fuel + 1, c :: rest =>
    (parse_template fuel ((c :: rest).span (fun x => x != 37)).2).map
      (fun l => Segment.literal ((c :: rest).span (fun x => x != 37)).1 :: l)

/-- Modelled from the spec: the text substituted for one conversion applied to
an argument, absent from the sources: the argument cut to the precision, padded
with spaces to the width, on the left unless the minus flag is present. -/
def render_conversion (c : Conversion) (arg : Bytes) : Bytes :=
  let t := match c.precision with
    | none => arg
    | some p => arg.take p
  let pad := List.replicate ((c.width.getD 0) - t.length) 32
  if c.left then t ++ pad else pad ++ t

/-- Modelled from the spec: the pieces emitted for a list of segments, absent
from the sources.  `at_arg` counts the conversions without a position seen so
far; such a conversion takes the next argument.  A position of 0 or beyond the
arguments is an error.  Positions used twice are rejected by the caller,
`safe_format_pieces`, before the segments are rendered. -/
def render_segments (args : List Bytes) : Nat → List Segment → Option (List Bytes)
  | _, [] => some []
  | at_arg, Segment.literal text :: rest =>
    (render_segments args at_arg rest).map (fun l => text :: l)
  | at_arg, Segment.conversion c :: rest =>
    let index : Option Nat :=
      match c.position with
      | some n => if n = 0 then none else some (n - 1)
      | none => some at_arg
    let next := match c.position with
      | some _ => at_arg
      | none => at_arg + 1
    match index with
    | none => none
    | some i =>
      match args.get? i with
      | none => none
      | some arg => (render_segments args next rest).map (fun l => render_conversion c arg :: l)

/-- Modelled from the spec: the positional indices, counted from 1, of the
conversions of a parsed template, in order: the position written in the
conversion, or, for a conversion without one, the next number in left-to-right
order after `at_arg`. -/
def conversion_positions : Nat → List Segment → List Nat
  | _, [] => []
  | at_arg, Segment.literal _ :: rest => conversion_positions at_arg rest
  | at_arg, Segment.conversion c :: rest =>
    match c.position with
    | some n => n :: conversion_positions at_arg rest
    | none => (at_arg + 1) :: conversion_positions (at_arg + 1) rest

/-- The pieces `safe_format_string_cb` hands to its callback, or `none` when it
returns a negative value.

Modelled from the spec: `safe_format_string_cb` of `safe-format-string.c`, which
is absent from the sources.  A template in which two conversions have the same
positional index is rejected before anything is emitted (the duplicate
positional index of the error list of section 4.3).  Arguments that no
conversion refers to are accepted, as the fixtures "Nothing to print" and
"Skipping an argument" of `test-safe-format.c` require. -/
def safe_format_pieces (format : Bytes) (args : List Bytes) : Option (List Bytes) :=
  match parse_template (format.length + 1) format with
  | none => none
  | some segments =>
    if (conversion_positions 0 segments).Nodup then render_segments args 0 segments
    else none

/-- Modelled from the spec: the return value of `safe_format_string_cb`, absent
from the sources: the number of bytes emitted, or -1. -/
def safe_format_string_cb (format : Bytes) (args : List Bytes) : Int :=
  match safe_format_pieces format args with
  | none => -1
  | some pieces => (pieces.flatten.length : Int)

/-- Modelled from the spec: the callback of the bounded mode, absent from the
sources: it copies a piece into the buffer `str` of capacity `len` from offset
`st.2` on, byte by byte, keeping the last place of the buffer for the
terminator, and advances the offset by the length of the piece. -/
def buffer_callback (len : Nat) (st : Bytes × Nat) (piece : Bytes) : Bytes × Nat :=
  piece.foldl (fun s b => (if s.2 + 1 < len then s.1.set s.2 b else s.1, s.2 + 1)) st

/-- Modelled from the spec: `safe_format_string (str, len, format, ...)` of
`safe-format-string.c`, absent from the sources: the bounded mode.  It runs the
streaming formatter with `buffer_callback`, stores the NUL terminator behind the
last byte copied when `len` is positive, and returns the full length.  The
result is the return value and the memory of `str` afterwards. -/
def safe_format_string (str : Bytes) (len : Nat) (format : Bytes) (args : List Bytes) :
    Int × Bytes :=
  match safe_format_pieces format args with
  | none => (-1, str)
  | some pieces =>
    let st := pieces.foldl (buffer_callback len) (str, 0)
    (st.2, if 0 < len then st.1.set (min st.2 (len - 1)) 0 else st.1)

/-- Modelled from the spec: the streaming mode with its sink, absent from the
sources: `safe_format_string_cb (callback, data, format, args, num_args)` hands
each piece to `callback` as it is produced and adds its length to the result;
on failure the result is -1. -/
def safe_format_string_cb_with {σ : Type} (callback : σ → Bytes → σ) (data : σ)
    (format : Bytes) (args : List Bytes) : Int × σ :=
  match safe_format_pieces format args with
  | none => (-1, data)
  | some pieces =>
    pieces.foldl (fun st piece => (st.1 + (piece.length : Int), callback st.2 piece)) (0, data)

/-- The function `callback` of `test-safe-format.c` (lines 29-35):
`g_string_append_len (data, piece, len)`. -/
def callback (data : Bytes) (piece : Bytes) : Bytes := data ++ piece

/-- The array `fixtures` of `test-safe-format.c` (lines 61-156): format,
arguments, and the expected result (`none` for NULL, a negative return). -/
def fixtures : List (Bytes × List Bytes × Option Bytes) :=
  [ (ascii "%s", [ascii "blah"], some (ascii "blah")),
    (ascii "%s", [ascii ""], some (ascii "")),
    (ascii "", [ascii "blah"], some (ascii "")),
    (ascii "%8s", [ascii "blah"], some (ascii "    blah")),
    (ascii "whoop %-8s doo", [ascii "dee"], some (ascii "whoop dee      doo")),
    (ascii "whoop % 8s doo", [ascii "dee"], some (ascii "whoop      dee doo")),
    (ascii "whoop % -8s doo", [ascii "dee"], some (ascii "whoop dee      doo")),
    (ascii "whoop %.3s doo", [ascii "deedle-dee"], some (ascii "whoop dee doo")),
    (ascii "whoop %.10s doo", [ascii "deedle-dee-deedle-do-deedle-dum"],
      some (ascii "whoop deedle-dee doo")),
    (ascii "whoop %.s doo", [ascii "deedle"], some (ascii "whoop  doo")),
    (ascii "space %s %s", [ascii "man", ascii "dances"], some (ascii "space man dances")),
    (ascii "100%% of space folk dance", [], some (ascii "100% of space folk dance")),
    (ascii "space %2$s %1$s", [ascii "dances", ascii "man"], some (ascii "space man dances")),
    (ascii "space %2$s dances", [ascii "dances", ascii "man"],
      some (ascii "space man dances")),
    (ascii "%x", [ascii "blah"], none),
    (ascii "space %55$s dances", [ascii "dances", ascii "man"], none),
    (ascii "space %0$s dances", [ascii "dances", ascii "man"], none),
    (ascii "%s %s dances", [ascii "space"], none) ]

/-- The checks of `test_safe_format_string_cb` (lines 37-59) on one fixture:
with a result, `ret >= 0`, the output equals it and `ret == out->len`; without,
`ret < 0`. -/
def fixture_passes (f : Bytes × List Bytes × Option Bytes) : Bool :=
  let r := safe_format_string_cb_with callback [] f.1 f.2.1
  match f.2.2 with
  | some result => decide (0 ≤ r.1) && decide (r.2 = result) && decide (r.1 = (r.2.length : Int))
  | none => decide (r.1 < 0)

/-- Argument number `i` (counted from 0) is referred to by no conversion. -/
def argument_unused (segments : List Segment) (i : Nat) : Bool :=
  !(conversion_positions 0 segments).contains (i + 1)

/-- The text of an optional precision: a dot and the digits. -/
def precision_text : Option Bytes → Bytes
  | none => []
  | some d => 46 :: d

/-- The conversion a specifier made of flags, width digits and an optional
precision stands for. -/
def conversion_of (flags wd : Bytes) (pd : Option Bytes) : Conversion :=
  { position := none, left := flags.contains 45,
    width := if wd = [] then none else some (digits_value wd),
    precision := pd.map digits_value }

/-- The argument cut to an optional precision: its first `min P (length a)`
bytes, all of it without a precision. -/
def precision_cut (pd : Option Bytes) (a : Bytes) : Bytes :=
  match pd with
  | none => a
  | some d => a.take (min (digits_value d) a.length)

/-- An ASCII letter. -/
def is_letter (c : Nat) : Bool :=
  (decide (65 ≤ c) && decide (c ≤ 90)) || (decide (97 ≤ c) && decide (c ≤ 122))

/-- The text a string conversion puts out, in the words of section 4.3: the
argument cut to the precision, padded with spaces to the length
`max W (length t)`, on the right with the minus flag and on the left
otherwise. -/
def padded_text (flags wd : Bytes) (pd : Option Bytes) (a : Bytes) : Bytes :=
  let t := precision_cut pd a
  let pad := List.replicate (max (digits_value wd) t.length - t.length) 32
  if flags.contains 45 then t ++ pad else pad ++ t

/-- The text of an optional position: the digits and a dollar sign. -/
def position_text : Option Bytes → Bytes
  | none => []
  | some ds => ds ++ [36]

/-- The parts of a conversion specifier in the grammar of section 4.3,
`%[position$][-| ][width][.precision]s`: the digits of the position, the flag
characters, the digits of the width (none for no width) and the digits of the
precision. -/
structure Specifier where
  position : Option Bytes
  flags : Bytes
  wd : Bytes
  pd : Option Bytes
  deriving DecidableEq, Repr

/-- The text of a specifier after its percent sign, with the conversion letter
and what follows it in the template. -/
def specifier_text (s : Specifier) (letter : Nat) (rest : Bytes) : Bytes :=
  position_text s.position ++ (s.flags ++ (s.wd ++ (precision_text s.pd ++ letter :: rest)))

/-- The parts of a specifier are what the grammar allows: a position has at
least one digit and only digits, the flags are minus and space signs, the width
and the precision are digits. -/
def specifier_ok (s : Specifier) : Bool :=
  (match s.position with
   | none => true
   | some ds => !ds.isEmpty && ds.all is_digit) &&
  s.flags.all (fun x => x == 45 || x == 32) && s.wd.all is_digit &&
  (match s.pd with
   | none => true
   | some d => d.all is_digit)

/-- The conversion a specifier stands for. -/
def specifier_conversion (s : Specifier) : Conversion :=
  { position := s.position.map digits_value, left := s.flags.contains 45,
    width := if s.wd = [] then none else some (digits_value s.wd),
    precision := s.pd.map digits_value }

/-- The items of a template in the grammar of section 4.3: a run of literal
text, the escape of two percent signs, and a string conversion. -/
inductive Item where
  | text (t : Bytes)
  | percent
  | conv (s : Specifier)
  deriving DecidableEq, Repr

/-- The text of a template made of the given items. -/
def template_text : List Item → Bytes
  | [] => []
  | Item.text t :: rest => t ++ template_text rest
  | Item.percent :: rest => 37 :: 37 :: template_text rest
  | Item.conv s :: rest => 37 :: specifier_text s 115 (template_text rest)

/-- The list of items begins with a run of literal text. -/
def starts_with_text : List Item → Bool
  | Item.text _ :: _ => true
  | _ => false

/-- The items are what the grammar allows: a run of literal text is not empty,
holds no percent sign and ends where the next item begins, and every specifier
is well formed. -/
def items_ok : List Item → Bool
  | [] => true
  | Item.text t :: rest =>
    !t.isEmpty && t.all (fun x => x != 37) && !starts_with_text rest && items_ok rest
  | Item.percent :: rest => items_ok rest
  | Item.conv s :: rest => specifier_ok s && items_ok rest

/-- The segment an item stands for. -/
def item_segment : Item → Segment
  | Item.text t => Segment.literal t
  | Item.percent => Segment.literal [37]
  | Item.conv s => Segment.conversion (specifier_conversion s)

/-- The pieces a template puts out, in the words of section 4.3: a run of
literal text as it is, one percent sign for the escape, and for a string
conversion the padded text of its argument, the argument being the one at the
position written in the conversion or, without a position, the next one in
left-to-right order after `at_arg`. -/
def expected_pieces (args : List Bytes) : Nat → List Item → List Bytes
  | _, [] => []
  | at_arg, Item.text t :: rest => t :: expected_pieces args at_arg rest
  | at_arg, Item.percent :: rest => [37] :: expected_pieces args at_arg rest
  | at_arg, Item.conv s :: rest =>
    match s.position with
    | some ds =>
      padded_text s.flags s.wd s.pd ((args.get? (digits_value ds - 1)).getD []) ::
        expected_pieces args at_arg rest
    | none =>
      padded_text s.flags s.wd s.pd ((args.get? at_arg).getD []) ::
        expected_pieces args (at_arg + 1) rest

/-! ## The discovery reply of `realm-provider.c` -/

/-- The error domains `return_discover_result` tells apart. -/
inductive ErrorDomain where
  | g_io_error
  | realm_error
  | g_dbus_error
  | other (quark : Nat)
  deriving DecidableEq, Repr

/-- A `GError` handed to `return_discover_result`: its domain and code. -/
structure DiscoverError where
  domain : ErrorDomain
  code : Nat
  deriving DecidableEq, Repr

/-- The value of `G_IO_ERROR_CANCELLED` in `GIOErrorEnum`. -/
def G_IO_ERROR_CANCELLED : Nat := 19

/-- The GLib function `g_error_matches`, FALSE for a NULL error. -/
def g_error_matches (error : Option DiscoverError) (domain : ErrorDomain) (code : Nat) : Bool :=
  match error with
  | none => false
  | some e => e.domain == domain && e.code == code

/-- A realm object: its D-Bus object path and the value of
`realm_kerberos_is_configured`. -/
structure RealmKerberos where
  object_path : Bytes
  configured : Bool
  deriving DecidableEq, Repr

/-- The struct `MethodClosure`, with what the function reads through its
pointers: `realms` is `realm_provider_get_realms (closure->self)`, and
`cancellable` is the cancellable of `closure->invocation` (`none` for NULL,
otherwise whether it is cancelled). -/
structure MethodClosure where
  realms : List RealmKerberos
  cancellable : Option Bool
  string : Option Bytes
  timeout_id : Nat
  deriving DecidableEq, Repr

/-- The replies `return_discover_result` can send on the invocation. -/
inductive Reply where
  /-- `g_dbus_method_invocation_return_value` with the relevance and the
  object paths. -/
  | return_value (relevance : Int) (paths : List Bytes)
  /-- `g_dbus_method_invocation_return_gerror` with the error itself. -/
  | return_gerror (error : DiscoverError)
  /-- `REALM_ERROR_CANCELLED`, "Operation was cancelled.". -/
  | return_error_cancelled
  /-- `REALM_ERROR_FAILED`, "Failed to discover realm. See diagnostics.". -/
  | return_error_failed
  deriving DecidableEq, Repr

/-- What one call of `return_discover_result` does: the replies sent, in
order, the timers removed with `g_source_remove`, `closure->timeout_id` when
`method_closure_free` runs, and whether its `g_assert` fails. -/
structure DiscoverOutcome where
  replies : List Reply
  removed : List Nat
  timeout_id : Nat
  assert_failed : Bool
  deriving DecidableEq, Repr

/-- The function `sort_configured_first` (lines 70-77). -/
def sort_configured_first (a b : RealmKerberos) : Int :=
  (if a.configured then 0 else 1) - (if b.configured then 0 else 1)

/-- The call `g_list_sort (realms, sort_configured_first)`; the GLib sort is
stable. -/
def g_list_sort_configured_first (realms : List RealmKerberos) : List RealmKerberos :=
  realms.insertionSort (fun a b => sort_configured_first a b ≤ 0)

/-- The function `discover_configured` (lines 79-96); `realm_kerberos_matches`
is the matching function of the realm objects. -/
def discover_configured (realm_kerberos_matches : RealmKerberos → Bytes → Bool)
    (realms : List RealmKerberos) (string : Bytes) : List RealmKerberos :=
  realms.foldl
    (fun matched l => if l.configured && realm_kerberos_matches l string then l :: matched
      else matched) []

/-- The function `on_discover_timeout` (lines 218-228) on the closure. -/
def on_discover_timeout (method : MethodClosure) : MethodClosure :=
  { method with timeout_id := 0, cancellable := method.cancellable.map (fun _ => true) }

/-- The function `return_discover_result` (lines 98-168). -/
def return_discover_result (realm_kerberos_matches : RealmKerberos → Bytes → Bool)
    (closure : MethodClosure) (realms : List RealmKerberos) (relevance : Int)
    (error : Option DiscoverError) : DiscoverOutcome :=
  let s1 : Option DiscoverError × Nat × List Nat :=
    if closure.timeout_id = 0 then
      (if g_error_matches error ErrorDomain.g_io_error G_IO_ERROR_CANCELLED then none else error,
        closure.timeout_id, [])
    else
      (match error with
        | none =>
          if closure.cancellable = some true then
            some { domain := ErrorDomain.g_io_error, code := G_IO_ERROR_CANCELLED }
          else none
        | some e => some e,
        0, [closure.timeout_id])
  let s2 : List RealmKerberos × Int :=
    match s1.1, realms, closure.string with
    | none, [], some string =>
      (discover_configured realm_kerberos_matches closure.realms string, 20)
    | _, _, _ => (realms, relevance)
  let replies : List Reply :=
    match s1.1 with
    | none =>
      [Reply.return_value s2.2
        ((g_list_sort_configured_first s2.1).map (fun l => l.object_path))]
    | some e =>
      if e.domain = ErrorDomain.realm_error ∨ e.domain = ErrorDomain.g_dbus_error then
        [Reply.return_gerror e]
      else if g_error_matches (some e) ErrorDomain.g_io_error G_IO_ERROR_CANCELLED then
        [Reply.return_error_cancelled]
      else [Reply.return_error_failed]
  { replies := replies, removed := s1.2.2, timeout_id := s1.2.1,
    assert_failed := decide (s1.2.1 ≠ 0) }

/-- A reply that carries a result. -/
def Reply.is_success : Reply → Bool
  | Reply.return_value _ _ => true
  | _ => false

/-- A closure for the examples: a provider with the configured realm `/r1`, a
request for `example.com`, timer 5 pending, and the given state of the
cancellable. -/
def example_closure (cancelled : Bool) : MethodClosure :=
  { realms := [{ object_path := ascii "/r1", configured := true }],
    cancellable := some cancelled,
    string := some (ascii "example.com"),
    timeout_id := 5 }

/-- The Cancelled error of GIO. -/
def cancelled_error : DiscoverError :=
  { domain := ErrorDomain.g_io_error, code := G_IO_ERROR_CANCELLED }

/-! ## Predicates used in the statements -/

/-- The state of the stdin writer for a payload: the cursor lies within the
payload, the bytes the `write` calls accepted so far are the first `cursor`
bytes of the payload, and the input, while it is kept, exposes the payload. -/
def InputOk (payload : Bytes) (w : World) : Prop :=
  w.ps.command.input_offset ≤ payload.length ∧
  w.written = payload.take w.ps.command.input_offset ∧
  (∀ input, w.ps.command.input = some input →
    g_bytes_get_data input = (payload, payload.length))


/-- The worlds in which a successfully spawned invocation starts: the spawn
gave a child (a non-zero pid) and at least one pipe, and a connected handler has
a non-zero id, as GLib guarantees. -/
def Spawned (w0 : World) : Prop :=
  ∃ (input : Option GBytes) (invocation : Option Nat) (cancellable : Cancellable)
    (pid input_fd output_fd error_fd : Int) (source_id watch_id : Nat),
    pid ≠ 0 ∧ (0 ≤ input_fd ∨ 0 ≤ output_fd ∨ 0 ≤ error_fd) ∧
    (∀ id, cancellable = Cancellable.pending id → id ≠ 0) ∧
    realm_command_runv_async input invocation cancellable
      (SpawnResult.spawned pid input_fd output_fd error_fd) source_id watch_id
      = Started.running w0

/-- All three stream descriptors are closed and the child has been reaped. -/
def Finished (ps : ProcessSource) : Prop :=
  ps.polls.fd_input.fd < 0 ∧ ps.polls.fd_output.fd < 0 ∧ ps.polls.fd_error.fd < 0 ∧
    ps.child_pid = 0

instance (ps : ProcessSource) : Decidable (Finished ps) := by
  unfold Finished
  infer_instance

/-- An invocation used in the examples: child 7 with the pipes 3, 4 and 5, no
input, source id 1 and watch id 2. -/
def example_world (input : Option GBytes) (cancellable : Cancellable) : World :=
  process_source_new (new_command_closure input none) cancellable 7 3 4 5 1 2

/-- A dispatch in which all three streams report a hangup. -/
def hangup_all : Event :=
  Event.dispatch G_IO_HUP G_IO_HUP G_IO_HUP (WriteResult.wrote 0) [] []

/-- A settings table for the examples: `join` is configured with a command
line, `skip` with blanks, `bad` with an unbalanced quote. -/
def example_settings (name : Bytes) : Option Bytes :=
  if name = ascii "join" then some (ascii "net ads join")
  else if name = ascii "skip" then some (ascii "  ")
  else if name = ascii "bad" then some (ascii "net \"ads")
  else none

/-- The space and tab test used in the examples. -/
def example_isspace (c : Nat) : Bool := c == 32 || c == 9

/-- A parser for the examples: it fails on a line with a double quote and
otherwise returns the line as one word. -/
def example_parse (line : Bytes) : Option (List Bytes) :=
  if line.contains 34 then none else some [line]

/-- The output accumulator holds exactly what the `read` calls returned, in
order. -/
def OutputOk (w : World) : Prop :=
  w.ps.command.output = w.received.flatten

/-- A `read` answer that fills the block of `read_output`. -/
def is_full_block : ReadResult → Bool
  | ReadResult.data bytes => decide ((bytes.take BLOCK_SIZE).length = BLOCK_SIZE)
  | ReadResult.fail _ => false

/-- The bytes one `read` answer puts into the block. -/
def block_of : ReadResult → Bytes
  | ReadResult.data bytes => bytes.take BLOCK_SIZE
  | ReadResult.fail _ => []

/-- The chunks one call of `read_output` reads, in the words of the
specification: it keeps reading while the answers are full blocks and stops at
the first answer that is not; that answer is the last chunk when it carries
data. -/
def chunks_read (reads : List ReadResult) : List Bytes :=
  (reads.takeWhile is_full_block).map block_of ++
    (match (reads.dropWhile is_full_block).head? with
     | some (ReadResult.data bytes) => [bytes.take BLOCK_SIZE]
     | _ => [])

/-- The calls of `realm_diagnostics_info_data` made for a list of chunks: one
for each chunk that is not empty, with the invocation and the bytes. -/
def sink_calls (invocation : Option Nat) (chunks : List Bytes) : List (Option Nat × Bytes) :=
  (chunks.filter (fun b => decide (0 < b.length))).map (fun b => (invocation, b))

/-- A sequence of `read` answers that makes `read_output` fail: after any
number of full blocks, a failure with an `errno` other than `EINTR` and
`EAGAIN`. -/
def read_fails : List ReadResult → Bool
  | [] => false
  | ReadResult.fail errno :: _ => !(errno == EINTR || errno == EAGAIN)
  | ReadResult.data bytes :: rest =>
    if (bytes.take BLOCK_SIZE).length = BLOCK_SIZE then read_fails rest else false

/-- The chunks the `read` calls of one event return, computed from the answers
the event carries: a dispatch of an attached source reads stdout when its
descriptor is open and `poll` reported `G_IO_IN` for it, and then stderr
likewise; each of the two reads takes the chunks `chunks_read` describes.  The
other events read nothing. -/
def event_chunks (w : World) : Event → List Bytes
  | Event.dispatch _ rev_out rev_err _ out_reads err_reads =>
    if w.aborted || !w.source_attached then []
    else
      (if 0 ≤ w.ps.polls.fd_output.fd ∧ rev_out &&& G_IO_IN ≠ 0 then chunks_read out_reads
       else []) ++
      (if 0 ≤ w.ps.polls.fd_error.fd ∧ rev_err &&& G_IO_IN ≠ 0 then chunks_read err_reads
       else [])
  | Event.child_exited _ => []
  | Event.cancel => []

/-- The chunks read in the course of a sequence of events, in the order in
which they are read. -/
def run_chunks (w : World) : List Event → List Bytes
  | [] => []
  | e :: rest => event_chunks w e ++ run_chunks (step w e) rest

/-- The chunks one stream gives in a dispatch, in the words of the
specification: none unless the stream is open and `poll` reported it readable,
else the chunks of one call of `read_output`. -/
def stream_chunks (is_open : Bool) (revents : Nat) (reads : List ReadResult) : List Bytes :=
  if is_open = true ∧ revents &&& G_IO_IN ≠ 0 then chunks_read reads else []

/-- Whether a stream is still open after a dispatch: it is closed by a hangup
and by a failed read. -/
def stream_open_after (is_open : Bool) (revents : Nat) (reads : List ReadResult) : Bool :=
  is_open && !(decide (revents &&& G_IO_HUP ≠ 0) ||
    (decide (revents &&& G_IO_IN ≠ 0) && read_fails reads))

/-- The chunks read in the course of a sequence of events, computed from the
events alone: `out_open` and `err_open` say whether stdout and stderr are open
at the start; every dispatch gives the chunks of its stdout answers and then
those of its stderr answers. -/
def chunks_of_events : Bool → Bool → List Event → List Bytes
  | _, _, [] => []
  | out_open, err_open, Event.dispatch _ rev_out rev_err _ out_reads err_reads :: rest =>
    stream_chunks out_open rev_out out_reads ++ (stream_chunks err_open rev_err err_reads ++
      chunks_of_events (stream_open_after out_open rev_out out_reads)
        (stream_open_after err_open rev_err err_reads) rest)
  | out_open, err_open, Event.child_exited _ :: rest => chunks_of_events out_open err_open rest
  | out_open, err_open, Event.cancel :: rest => chunks_of_events out_open err_open rest

/-- Fields that the stream handlers never touch agree in two worlds. -/
structure SameControl (w w' : World) : Prop where
  aborted : w'.aborted = w.aborted
  delivered : w'.delivered = w.delivered
  source_attached : w'.source_attached = w.source_attached
  child_watch : w'.child_watch = w.child_watch
  cancel_handler : w'.cancel_handler = w.cancel_handler
  kills : w'.kills = w.kills
  child_pid : w'.ps.child_pid = w.ps.child_pid
  child_sig : w'.ps.child_sig = w.ps.child_sig
  res : w'.ps.res = w.ps.res
  cancellable : w'.ps.cancellable = w.ps.cancellable
  cancel_sig : w'.ps.cancel_sig = w.ps.cancel_sig
  cancelled : w'.ps.command.cancelled = w.ps.command.cancelled
  exit_code : w'.ps.command.exit_code = w.ps.command.exit_code
  source_sig : w'.ps.command.source_sig = w.ps.command.source_sig
  invocation : w'.ps.command.invocation = w.ps.command.invocation

/-- The invariant of a running invocation. -/
structure Inv (w : World) : Prop where
  not_aborted : w.aborted = false
  watch : w.child_watch = true ↔ w.ps.child_pid ≠ 0
  child_sig : w.ps.child_pid = 0 → w.ps.child_sig = 0
  attached : w.source_attached = any_fd_open w.ps.polls
  source_sig : w.source_attached = false → w.ps.command.source_sig = 0
  handler : w.cancel_handler = true → w.ps.cancel_sig ≠ 0
  done : any_fd_open w.ps.polls = false → w.ps.child_pid = 0 →
    w.delivered = [w.ps] ∧ w.cancel_handler = false ∧ w.ps.cancel_sig = 0 ∧
      w.ps.cancellable = false
  pending : (any_fd_open w.ps.polls = true ∨ w.ps.child_pid ≠ 0) → w.delivered = []
  cancelled : w.ps.command.cancelled = true → w.ps.res.error = some GError.io_cancelled

/-! ## Theorems -/

theorem SameControl.refl (w : World) : SameControl w w := by
  constructor <;> rfl

theorem SameControl.trans {a b c : World} (h1 : SameControl a b) (h2 : SameControl b c) :
    SameControl a c := by
  constructor
  · rw [h2.aborted, h1.aborted]
  · rw [h2.delivered, h1.delivered]
  · rw [h2.source_attached, h1.source_attached]
  · rw [h2.child_watch, h1.child_watch]
  · rw [h2.cancel_handler, h1.cancel_handler]
  · rw [h2.kills, h1.kills]
  · rw [h2.child_pid, h1.child_pid]
  · rw [h2.child_sig, h1.child_sig]
  · rw [h2.res, h1.res]
  · rw [h2.cancellable, h1.cancellable]
  · rw [h2.cancel_sig, h1.cancel_sig]
  · rw [h2.cancelled, h1.cancelled]
  · rw [h2.exit_code, h1.exit_code]
  · rw [h2.source_sig, h1.source_sig]
  · rw [h2.invocation, h1.invocation]

theorem read_output_loop_same (reads : List ReadResult) (w : World) :
    SameControl w (read_output_loop reads w).1 := by
  induction reads generalizing w with
  | nil => exact SameControl.refl w
  | cons r rest ih =>
    cases r with
    | fail errno =>
      simp only [read_output_loop]
      split <;> exact SameControl.refl w
    | data bytes =>
      simp only [read_output_loop]
      split
      · refine SameControl.trans ?_ (ih _)
        split <;> constructor <;> rfl
      · split <;> constructor <;> rfl

theorem read_output_same (w : World) (fd : Int) (reads : List ReadResult) :
    SameControl w (read_output w fd reads).1 := by
  unfold read_output
  split
  · exact SameControl.refl w
  · exact read_output_loop_same reads w

theorem on_process_source_input_same (w : World) (fd : Int) (answer : WriteResult) :
    SameControl w (on_process_source_input w fd answer).1 := by
  unfold on_process_source_input on_process_source_input_tail drop_input
  split
  · exact SameControl.refl w
  · dsimp only
    split
    · split
      · split
        · split <;> constructor <;> rfl
        · split <;> constructor <;> rfl
      · split <;> constructor <;> rfl
    · split <;> constructor <;> rfl

theorem on_process_source_output_same (w : World) (fd : Int) (reads : List ReadResult) :
    SameControl w (on_process_source_output w fd reads).1 := by
  unfold on_process_source_output
  dsimp only
  split
  · exact SameControl.trans (read_output_same w fd reads) (by constructor <;> rfl)
  · exact read_output_same w fd reads

theorem on_process_source_error_same (w : World) (fd : Int) (reads : List ReadResult) :
    SameControl w (on_process_source_error w fd reads).1 := by
  unfold on_process_source_error
  dsimp only
  split
  · exact SameControl.trans (read_output_same w fd reads) (by constructor <;> rfl)
  · exact read_output_same w fd reads

theorem close_poll_same (w : World) (poll : GPollFD) :
    SameControl w (close_poll w poll).1 := by
  unfold close_poll close_fd
  dsimp only
  split <;> constructor <;> rfl

theorem set_polls_same (w : World) (polls : Polls) :
    SameControl w { w with ps := { w.ps with polls := polls } } := by
  constructor <;> rfl

theorem dispatch_input_same (w : World) (answer : WriteResult) :
    SameControl w (dispatch_input w answer) := by
  unfold dispatch_input
  dsimp only
  split
  · refine SameControl.trans ?_ (set_polls_same _ _)
    split
    · split
      · split
        · exact SameControl.trans (on_process_source_input_same _ _ _) (close_poll_same _ _)
        · exact on_process_source_input_same _ _ _
      · split
        · exact SameControl.trans (on_process_source_input_same _ _ _) (close_poll_same _ _)
        · exact on_process_source_input_same _ _ _
    · split
      · exact close_poll_same _ _
      · exact SameControl.refl w
  · exact SameControl.refl w

theorem dispatch_output_same (w : World) (reads : List ReadResult) :
    SameControl w (dispatch_output w reads) := by
  unfold dispatch_output
  dsimp only
  split
  · refine SameControl.trans ?_ (set_polls_same _ _)
    split
    · split
      · split
        · exact SameControl.trans (on_process_source_output_same _ _ _) (close_poll_same _ _)
        · exact on_process_source_output_same _ _ _
      · split
        · exact SameControl.trans (on_process_source_output_same _ _ _) (close_poll_same _ _)
        · exact on_process_source_output_same _ _ _
    · split
      · exact close_poll_same _ _
      · exact SameControl.refl w
  · exact SameControl.refl w

theorem dispatch_error_same (w : World) (reads : List ReadResult) :
    SameControl w (dispatch_error w reads) := by
  unfold dispatch_error
  dsimp only
  split
  · refine SameControl.trans ?_ (set_polls_same _ _)
    split
    · split
      · split
        · exact SameControl.trans (on_process_source_error_same _ _ _) (close_poll_same _ _)
        · exact on_process_source_error_same _ _ _
      · split
        · exact SameControl.trans (on_process_source_error_same _ _ _) (close_poll_same _ _)
        · exact on_process_source_error_same _ _ _
    · split
      · exact close_poll_same _ _
      · exact SameControl.refl w
  · exact SameControl.refl w

/-- The three stream blocks of a dispatch leave the control fields alone. -/
theorem dispatch_streams_same (w : World) (answer : WriteResult)
    (out_reads err_reads : List ReadResult) :
    SameControl w
      (dispatch_error (dispatch_output (dispatch_input w answer) out_reads) err_reads) :=
  SameControl.trans (SameControl.trans (dispatch_input_same w answer)
    (dispatch_output_same _ out_reads)) (dispatch_error_same _ err_reads)

theorem any_fd_open_false {polls : Polls} (h : any_fd_open polls = false) :
    polls.fd_input.fd < 0 ∧ polls.fd_output.fd < 0 ∧ polls.fd_error.fd < 0 := by
  simp only [any_fd_open, Bool.or_eq_false_iff, decide_eq_false_iff_not, not_le] at h
  exact ⟨h.1.1, h.1.2, h.2⟩

theorem inv_start {w0 : World} (h : Spawned w0) : Inv w0 := by
  obtain ⟨input, invocation, cancellable, pid, i, o, e, sid, wid, hpid, hfd, hid, hrun⟩ := h
  have hopen : (decide (0 ≤ i) || decide (0 ≤ o) || decide (0 ≤ e)) = true := by
    simpa [or_assoc] using hfd
  cases cancellable with
  | absent =>
    simp [realm_command_runv_async, process_source_new, new_command_closure] at hrun
    subst hrun
    constructor <;> simp [any_fd_open, hpid, hopen]
  | pending id =>
    have hid0 := hid id rfl
    simp [realm_command_runv_async, process_source_new, new_command_closure] at hrun
    subst hrun
    constructor <;> simp [any_fd_open, hpid, hopen, hid0]
  | cancelled =>
    simp [realm_command_runv_async, process_source_new, new_command_closure, on_cancellable_cancelled,
      g_simple_async_result_set_error, hpid] at hrun
    subst hrun
    constructor <;> simp [any_fd_open, hpid, hopen]

theorem inv_cancel {w : World} (h : Inv w) : Inv (step w Event.cancel) := by
  simp only [step]
  split
  · exact h
  · rename_i hg
    simp only [Bool.or_eq_true, Bool.not_eq_true', not_or, Bool.not_eq_true,
      Bool.not_eq_false] at hg
    have hnd : ¬ (any_fd_open w.ps.polls = false ∧ w.ps.child_pid = 0) := by
      intro hd
      have := (h.done hd.1 hd.2).2.1
      rw [this] at hg
      exact absurd hg.2 (by decide)
    have hdel : w.delivered = [] := by
      apply h.pending
      by_cases ho : any_fd_open w.ps.polls = true
      · exact Or.inl ho
      · right
        intro hp
        exact hnd ⟨by simpa using ho, hp⟩
    obtain ⟨h1, h2, h3, h4, h5, h6, h7, h8, h9⟩ := h
    unfold on_cancellable_cancelled g_simple_async_result_set_error
    dsimp only
    split
    · constructor <;> simp_all
    · constructor <;> simp_all

theorem inv_complete {w : World} (hab : w.aborted = false) (hsig : w.ps.child_sig = 0)
    (hpid : w.ps.child_pid = 0) (hwatch : w.child_watch = false)
    (hclosed : any_fd_open w.ps.polls = false) (hatt : w.source_attached = false)
    (hsrc : w.ps.command.source_sig = 0) (hdel : w.delivered = [])
    (hh : w.cancel_handler = true → w.ps.cancel_sig ≠ 0)
    (hc : w.ps.command.cancelled = true → w.ps.res.error = some GError.io_cancelled) :
    Inv (complete_source_is_done w) := by
  unfold complete_source_is_done
  rw [if_neg (by simp [hsig])]
  dsimp only
  split
  · constructor <;> simp_all
  · rename_i h0
    have hoff : w.cancel_handler = false := by
      cases hx : w.cancel_handler
      · rfl
      · exact absurd (hh hx) h0
    constructor <;> simp_all

theorem inv_child_exited {w : World} (h : Inv w) (status : Nat) :
    Inv (step w (Event.child_exited status)) := by
  simp only [step]
  split
  · exact h
  · rename_i hg
    simp only [Bool.or_eq_true, Bool.not_eq_true', not_or, Bool.not_eq_true,
      Bool.not_eq_false] at hg
    have hpid : w.ps.child_pid ≠ 0 := h.watch.mp hg.2
    have hdel : w.delivered = [] := h.pending (Or.inr hpid)
    obtain ⟨h1, h2, h3, h4, h5, h6, h7, h8, h9⟩ := h
    unfold on_unix_process_child_exited
    dsimp only
    split
    · split
      · constructor <;> simp_all
      · apply inv_complete <;> simp_all
    · split
      · split
        · split
          · constructor <;> simp_all [g_simple_async_result_set_error]
          · apply inv_complete <;> simp_all [g_simple_async_result_set_error]
        · split
          · constructor <;> simp_all
          · apply inv_complete <;> simp_all
      · split
        · constructor <;> simp_all
        · apply inv_complete <;> simp_all

theorem inv_dispatch_finish {w w2 : World} (h : Inv w) (hs : SameControl w w2)
    (hatt : w.source_attached = true) :
    Inv { (dispatch_finish w2).1 with source_attached := (dispatch_finish w2).2 } := by
  have hopen : any_fd_open w.ps.polls = true := by rw [← h.attached]; exact hatt
  have hdel : w.delivered = [] := h.pending (Or.inl hopen)
  obtain ⟨h1, h2, h3, h4, h5, h6, h7, h8, h9⟩ := h
  obtain ⟨s1, s2, s3, s4, s5, s6, s7, s8, s9, s10, s11, s12, s13, s14, s15⟩ := hs
  unfold dispatch_finish
  split
  · rename_i ho
    constructor <;> simp_all
  · rename_i ho
    dsimp only
    split
    · rename_i hp
      have hw : w.child_watch = false := by
        cases hx : w.child_watch
        · rfl
        · exact absurd (s7 ▸ hp) (h2.mp hx)
      have hi := inv_complete (w := { w2 with ps := { w2.ps with command :=
        { w2.ps.command with source_sig := 0 } }, source_attached := false })
        (by simp_all) (by simp_all) (by simp_all) (by simp_all) (by simp_all) rfl rfl
        (by simp_all) (by simp_all) (by simp_all)
      revert hi
      unfold complete_source_is_done
      dsimp only
      split
      · exact id
      · split <;> exact id
    · constructor <;> simp_all

theorem inv_dispatch {w : World} (h : Inv w) (rev_in rev_out rev_err : Nat)
    (answer : WriteResult) (out_reads err_reads : List ReadResult) :
    Inv (step w (Event.dispatch rev_in rev_out rev_err answer out_reads err_reads)) := by
  simp only [step]
  split
  · exact h
  · rename_i hg
    simp only [Bool.or_eq_true, Bool.not_eq_true', not_or, Bool.not_eq_true,
      Bool.not_eq_false] at hg
    unfold on_process_source_dispatch
    exact inv_dispatch_finish h
      (SameControl.trans (set_polls_same w _)
        (dispatch_streams_same (poll_ready w rev_in rev_out rev_err) answer out_reads err_reads))
      hg.2

theorem inv_step {w : World} (h : Inv w) (e : Event) : Inv (step w e) := by
  cases e with
  | dispatch a b c d f g => exact inv_dispatch h a b c d f g
  | child_exited status => exact inv_child_exited h status
  | cancel => exact inv_cancel h

theorem inv_run {w : World} (h : Inv w) (events : List Event) : Inv (run w events) := by
  induction events generalizing w with
  | nil => exact h
  | cons e rest ih => exact ih (inv_step h e)

theorem run_append (w : World) (xs ys : List Event) :
    run w (xs ++ ys) = run (run w xs) ys := by
  simp [run, List.foldl_append]

/-- Once the result is delivered no event changes anything. -/
theorem step_after_delivery {w : World} (h : Inv w) (hd : w.delivered ≠ []) (e : Event) :
    step w e = w := by
  have hclosed : any_fd_open w.ps.polls = false := by
    cases hx : any_fd_open w.ps.polls
    · rfl
    · exact absurd (h.pending (Or.inl hx)) hd
  have hpid : w.ps.child_pid = 0 := by
    by_contra hx
    exact hd (h.pending (Or.inr hx))
  have hatt : w.source_attached = false := by rw [h.attached]; exact hclosed
  have hwatch : w.child_watch = false := by
    cases hx : w.child_watch
    · rfl
    · exact absurd hpid (h.watch.mp hx)
  have hhand : w.cancel_handler = false := (h.done hclosed hpid).2.1
  cases e <;> simp [step, hatt, hwatch, hhand]

theorem run_after_delivery {w : World} (h : Inv w) (hd : w.delivered ≠ [])
    (events : List Event) : run w events = w := by
  induction events with
  | nil => rfl
  | cons e rest ih =>
    show run (step w e) rest = w
    rw [step_after_delivery h hd e]
    exact ih

theorem finished_iff (ps : ProcessSource) :
    Finished ps ↔ (any_fd_open ps.polls = false ∧ ps.child_pid = 0) := by
  unfold Finished
  constructor
  · intro h
    refine ⟨?_, h.2.2.2⟩
    simp only [any_fd_open, Bool.or_eq_false_iff, decide_eq_false_iff_not, not_le]
    exact ⟨⟨h.1, h.2.1⟩, h.2.2.1⟩
  · intro h
    have := any_fd_open_false h.1
    exact ⟨this.1, this.2.1, this.2.2, h.2⟩

theorem inv_delivered_cases {w : World} (h : Inv w) :
    (Finished w.ps ∧ w.delivered = [w.ps]) ∨ (¬ Finished w.ps ∧ w.delivered = []) := by
  by_cases hf : Finished w.ps
  · left
    have := (finished_iff _).mp hf
    exact ⟨hf, (h.done this.1 this.2).1⟩
  · right
    refine ⟨hf, h.pending ?_⟩
    by_cases ho : any_fd_open w.ps.polls = true
    · exact Or.inl ho
    · right
      intro hp
      exact hf ((finished_iff _).mpr ⟨by simpa using ho, hp⟩)

theorem inv_delivered_eq {w : World} (h : Inv w) (d : ProcessSource) (hd : d ∈ w.delivered) :
    d = w.ps ∧ Finished w.ps := by
  rcases inv_delivered_cases h with ⟨hf, he⟩ | ⟨_, he⟩
  · rw [he] at hd
    exact ⟨by simpa using hd, hf⟩
  · rw [he] at hd
    exact absurd hd (by simp)

theorem step_cancel_finished (w : World) :
    Finished (step w Event.cancel).ps ↔ Finished w.ps := by
  simp only [step]
  split
  · exact Iff.rfl
  · unfold on_cancellable_cancelled g_simple_async_result_set_error Finished
    dsimp only
    split <;> exact Iff.rfl

/-- C1: for a successfully spawned invocation and any sequence of dispatch,
child-exit and cancellation events, the terminal result is delivered at most
once, only with all three descriptors closed and the child reaped, and exactly
by the event that makes the second of the two conditions true: that event is a
dispatch or the child exit, never a cancellation, and later events change
nothing. -/
theorem deliver_once_when_both_done (w0 : World) (h0 : Spawned w0) (events : List Event) :
    (run w0 events).delivered.length ≤ 1 ∧
    (∀ d ∈ (run w0 events).delivered, Finished d) ∧
    ((run w0 events).delivered.length = 1 ↔ Finished (run w0 events).ps) ∧
    (∀ e : Event, ¬ Finished (run w0 events).ps → Finished (run w0 (events ++ [e])).ps →
      e ≠ Event.cancel ∧ (run w0 events).delivered = [] ∧
        (run w0 (events ++ [e])).delivered = [(run w0 (events ++ [e])).ps]) ∧
    (∀ e : Event, Finished (run w0 events).ps → run w0 (events ++ [e]) = run w0 events) := by
  have hi : Inv (run w0 events) := inv_run (inv_start h0) events
  refine ⟨?_, ?_, ?_, ?_, ?_⟩
  · rcases inv_delivered_cases hi with ⟨_, he⟩ | ⟨_, he⟩ <;> simp [he]
  · intro d hd
    have := inv_delivered_eq hi d hd
    rw [this.1]
    exact this.2
  · rcases inv_delivered_cases hi with ⟨hf, he⟩ | ⟨hf, he⟩ <;> simp [he, hf]
  · intro e hn hf
    have hi2 : Inv (run w0 (events ++ [e])) := inv_run (inv_start h0) _
    refine ⟨?_, ?_, ?_⟩
    · intro hc
      subst hc
      rw [run_append] at hf
      exact hn ((step_cancel_finished _).mp hf)
    · rcases inv_delivered_cases hi with ⟨hf1, _⟩ | ⟨_, he⟩
      · exact absurd hf1 hn
      · exact he
    · rcases inv_delivered_cases hi2 with ⟨_, he⟩ | ⟨hf2, _⟩
      · exact he
      · exact absurd hf hf2
  · intro e hf
    rw [run_append]
    have hd : (run w0 events).delivered ≠ [] := by
      rcases inv_delivered_cases hi with ⟨_, he⟩ | ⟨hf2, _⟩
      · simp [he]
      · exact absurd hf hf2
    exact run_after_delivery hi hd [e]

/-- The two orders of C1 on the example invocation: hangups first and the child
exit last, and the child exit first and the hangups last; each time the last
event delivers the one result. -/
theorem deliver_once_when_both_done_witness :
    ((run (example_world none Cancellable.absent) [hangup_all]).delivered = [] ∧
      (run (example_world none Cancellable.absent)
        ([hangup_all] ++ [Event.child_exited 0])).delivered.length = 1) ∧
    ((run (example_world none Cancellable.absent) [Event.child_exited 0]).delivered = [] ∧
      (run (example_world none Cancellable.absent)
        ([Event.child_exited 0] ++ [hangup_all])).delivered.length = 1) :=
  ⟨⟨((deliver_once_when_both_done (example_world none Cancellable.absent)
        ⟨none, none, Cancellable.absent, 7, 3, 4, 5, 1, 2, by decide, by decide,
          (by intro id h; cases h), rfl⟩
        [hangup_all]).2.2.2.1 (Event.child_exited 0) (by decide) (by decide)).2.1,
      by decide⟩,
    ⟨((deliver_once_when_both_done (example_world none Cancellable.absent)
        ⟨none, none, Cancellable.absent, 7, 3, 4, 5, 1, 2, by decide, by decide,
          (by intro id h; cases h), rfl⟩
        [Event.child_exited 0]).2.2.2.1 hangup_all (by decide) (by decide)).2.1,
      by decide⟩⟩

theorem complete_source_is_done_keeps (w : World) :
    (complete_source_is_done w).ps.res = w.ps.res ∧
    (complete_source_is_done w).ps.command = w.ps.command ∧
    (complete_source_is_done w).ps.polls = w.ps.polls ∧
    (complete_source_is_done w).ps.child_pid = w.ps.child_pid ∧
    (complete_source_is_done w).received = w.received := by
  unfold complete_source_is_done
  split
  · simp
  · dsimp only
    split <;> simp

theorem dispatch_finish_keeps (w : World) :
    (dispatch_finish w).1.ps.res = w.ps.res ∧
    (dispatch_finish w).1.ps.command.cancelled = w.ps.command.cancelled ∧
    (dispatch_finish w).1.ps.command.exit_code = w.ps.command.exit_code ∧
    (dispatch_finish w).1.ps.command.output = w.ps.command.output ∧
    (dispatch_finish w).1.ps.polls = w.ps.polls ∧
    (dispatch_finish w).1.ps.child_pid = w.ps.child_pid ∧
    (dispatch_finish w).1.received = w.received := by
  unfold dispatch_finish
  split
  · simp
  · dsimp only
    split
    · have h := complete_source_is_done_keeps { w with ps := { w.ps with command :=
        { w.ps.command with source_sig := 0 } } }
      obtain ⟨h1, h2, h3, h4, h5⟩ := h
      simp [h1, h2, h3, h4, h5]
    · simp

/-- What a dispatch event leaves alone: the error slot, the cancelled flag, the
exit code and the pid. -/
theorem step_dispatch_keeps (w : World) (rev_in rev_out rev_err : Nat)
    (answer : WriteResult) (out_reads err_reads : List ReadResult) :
    (step w (Event.dispatch rev_in rev_out rev_err answer out_reads err_reads)).ps.res
      = w.ps.res ∧
    (step w (Event.dispatch rev_in rev_out rev_err answer out_reads err_reads)).ps.command.cancelled
      = w.ps.command.cancelled ∧
    (step w (Event.dispatch rev_in rev_out rev_err answer out_reads err_reads)).ps.command.exit_code
      = w.ps.command.exit_code ∧
    (step w (Event.dispatch rev_in rev_out rev_err answer out_reads err_reads)).ps.child_pid
      = w.ps.child_pid := by
  simp only [step]
  split
  · simp
  · unfold on_process_source_dispatch
    dsimp only
    have hk := dispatch_finish_keeps (dispatch_error (dispatch_output (dispatch_input
      (poll_ready w rev_in rev_out rev_err) answer) out_reads) err_reads)
    have hs : SameControl w (dispatch_error (dispatch_output (dispatch_input
        (poll_ready w rev_in rev_out rev_err) answer) out_reads) err_reads) :=
      SameControl.trans (set_polls_same w _)
        (dispatch_streams_same (poll_ready w rev_in rev_out rev_err) answer out_reads err_reads)
    obtain ⟨k1, k2, k3, _, _, k6, _⟩ := hk
    exact ⟨k1.trans hs.res, k2.trans hs.cancelled, k3.trans hs.exit_code, k6.trans hs.child_pid⟩

theorem complete_res (w : World) : (complete_source_is_done w).ps.res = w.ps.res :=
  (complete_source_is_done_keeps w).1

theorem complete_command (w : World) :
    (complete_source_is_done w).ps.command = w.ps.command :=
  (complete_source_is_done_keeps w).2.1

theorem complete_polls (w : World) : (complete_source_is_done w).ps.polls = w.ps.polls :=
  (complete_source_is_done_keeps w).2.2.1

theorem complete_child_pid (w : World) :
    (complete_source_is_done w).ps.child_pid = w.ps.child_pid :=
  (complete_source_is_done_keeps w).2.2.2.1

theorem complete_received (w : World) :
    (complete_source_is_done w).received = w.received :=
  (complete_source_is_done_keeps w).2.2.2.2

/-- What an effective child exit does to the result: the pid becomes 0, the
cancelled flag stays, and the exit code or the error is recorded according to
the status. -/
theorem child_exited_effect (w : World) (status : Nat) :
    (on_unix_process_child_exited w status).ps.child_pid = 0 ∧
    (on_unix_process_child_exited w status).ps.command.cancelled = w.ps.command.cancelled ∧
    (on_unix_process_child_exited w status).ps.command.output = w.ps.command.output ∧
    (on_unix_process_child_exited w status).received = w.received ∧
    (on_unix_process_child_exited w status).ps.res =
      (if WIFEXITED status then w.ps.res
       else if WIFSIGNALED status then
         (if !w.ps.command.cancelled then
            { error := some (GError.terminated_with_signal (WTERMSIG status)) }
          else w.ps.res)
       else w.ps.res) ∧
    (on_unix_process_child_exited w status).ps.command.exit_code =
      (if WIFEXITED status then (WEXITSTATUS status : Int) else w.ps.command.exit_code) := by
  unfold on_unix_process_child_exited
  dsimp only
  split
  · split
    · simp
    · rename_i h1 h2
      simp [complete_res, complete_command, complete_child_pid, complete_received, h1]
  · rename_i h1
    split
    · rename_i h2
      split
      · rename_i h3
        split
        · simp [g_simple_async_result_set_error, h1, h2, h3]
        · simp [complete_res, complete_command, complete_child_pid, complete_received,
            g_simple_async_result_set_error, h1, h2, h3]
      · rename_i h3
        split
        · simp [h1, h2, h3]
        · simp [complete_res, complete_command, complete_child_pid, complete_received,
            h1, h2, h3]
    · rename_i h2
      split
      · simp [h1, h2]
      · simp [complete_res, complete_command, complete_child_pid, complete_received, h1, h2]

theorem cancelled_effect (w : World) :
    (on_cancellable_cancelled w).ps.res.error = some GError.io_cancelled ∧
    (on_cancellable_cancelled w).ps.command.cancelled = true ∧
    (on_cancellable_cancelled w).ps.child_pid = w.ps.child_pid ∧
    (on_cancellable_cancelled w).ps.command.output = w.ps.command.output ∧
    (on_cancellable_cancelled w).received = w.received := by
  unfold on_cancellable_cancelled g_simple_async_result_set_error
  dsimp only
  split <;> simp

theorem step_keeps_cancelled (w : World) (e : Event)
    (h : w.ps.command.cancelled = true) : (step w e).ps.command.cancelled = true := by
  cases e with
  | dispatch a b c d f g => rw [(step_dispatch_keeps w a b c d f g).2.1]; exact h
  | child_exited status =>
    simp only [step]
    split
    · exact h
    · rw [(child_exited_effect _ status).2.1]; exact h
  | cancel =>
    simp only [step]
    split
    · exact h
    · exact (cancelled_effect w).2.1

theorem run_keeps_cancelled (w : World) (events : List Event)
    (h : w.ps.command.cancelled = true) : (run w events).ps.command.cancelled = true := by
  induction events generalizing w with
  | nil => exact h
  | cons e rest ih => exact ih (step w e) (step_keeps_cancelled w e h)

theorem finish_of_error (d : ProcessSource) (e : GError) (h : d.res.error = some e)
    (want_output : Bool) :
    finish_delivered d want_output = { ret := -1, output := none, error := some e } := by
  simp [finish_delivered, realm_command_run_finish, h]

/-- C2: `on_cancellable_cancelled` records the Cancelled error and sets the
flag; a child exit seen while the flag is set leaves the error slot as it is;
and in every run of a spawned invocation in which the flag has been set at some
point (in particular when the connected handler has run for a cancel event)
`realm_command_run_finish` returns -1 with the Cancelled error on the delivered
result. -/
theorem cancelled_error_is_final (w0 : World) (h0 : Spawned w0) (events : List Event) :
    (∀ w : World, (on_cancellable_cancelled w).ps.res.error = some GError.io_cancelled ∧
      (on_cancellable_cancelled w).ps.command.cancelled = true) ∧
    (∀ (w : World) (status : Nat), w.ps.command.cancelled = true →
      (on_unix_process_child_exited w status).ps.res = w.ps.res) ∧
    (∀ pre post : List Event, events = pre ++ post →
      (run w0 pre).ps.command.cancelled = true →
      ∀ d ∈ (run w0 events).delivered, ∀ want_output : Bool,
        finish_delivered d want_output =
          { ret := -1, output := none, error := some GError.io_cancelled }) ∧
    (∀ pre post : List Event, events = pre ++ Event.cancel :: post →
      (run w0 pre).cancel_handler = true →
      ∀ d ∈ (run w0 events).delivered, ∀ want_output : Bool,
        finish_delivered d want_output =
          { ret := -1, output := none, error := some GError.io_cancelled }) := by
  have key : ∀ pre post : List Event, events = pre ++ post →
      (run w0 pre).ps.command.cancelled = true →
      ∀ d ∈ (run w0 events).delivered, ∀ want_output : Bool,
        finish_delivered d want_output =
          { ret := -1, output := none, error := some GError.io_cancelled } := by
    intro pre post he hc d hd want_output
    have hi : Inv (run w0 events) := inv_run (inv_start h0) events
    have hfin : (run w0 events).ps.command.cancelled = true := by
      rw [he, run_append]
      exact run_keeps_cancelled _ post hc
    have hdeq := (inv_delivered_eq hi d hd).1
    apply finish_of_error
    rw [hdeq]
    exact hi.cancelled hfin
  refine ⟨fun w => ⟨(cancelled_effect w).1, (cancelled_effect w).2.1⟩, ?_, key, ?_⟩
  · intro w status hc
    rw [(child_exited_effect w status).2.2.2.2.1]
    simp [hc]
  · intro pre post he hh
    have hip : Inv (run w0 pre) := inv_run (inv_start h0) pre
    apply key (pre ++ [Event.cancel]) post (by simp [he])
    rw [run_append]
    show (step (run w0 pre) Event.cancel).ps.command.cancelled = true
    simp only [step, hip.not_aborted, hh]
    exact (cancelled_effect _).2.1

/-- The example invocation with a connected handler: a cancel event, then the
child dying of SIGTERM, then the hangups.  One result is delivered, one SIGTERM
was sent to the child, and the result carries the Cancelled error. -/
theorem cancelled_error_is_final_witness :
    (run (example_world none (Cancellable.pending 9))
      [Event.cancel, Event.child_exited SIGTERM, hangup_all]).delivered.length = 1 ∧
    (run (example_world none (Cancellable.pending 9))
      [Event.cancel, Event.child_exited SIGTERM, hangup_all]).kills = [(7, SIGTERM)] ∧
    ∀ d ∈ (run (example_world none (Cancellable.pending 9))
      [Event.cancel, Event.child_exited SIGTERM, hangup_all]).delivered,
      ∀ want_output : Bool, finish_delivered d want_output =
        { ret := -1, output := none, error := some GError.io_cancelled } :=
  ⟨by decide, by decide,
    (cancelled_error_is_final (example_world none (Cancellable.pending 9))
      ⟨none, none, Cancellable.pending 9, 7, 3, 4, 5, 1, 2, by decide, by decide,
        (by intro id h; cases h; decide), rfl⟩
      [Event.cancel, Event.child_exited SIGTERM, hangup_all]).2.2.2
      [] [Event.child_exited SIGTERM, hangup_all] rfl (by decide)⟩

/-- C9: in every run of a spawned invocation no `g_assert` fails; the delivered
result is taken with all three descriptors closed, `child_sig`, `source_sig`
and `cancel_sig` equal to 0 and the cancellable cleared; and once it is
delivered the handler, the child watch and the source are gone, so that no
further event, a cancellation included, changes anything. -/
theorem cleanup_complete_at_delivery (w0 : World) (h0 : Spawned w0) (events : List Event) :
    (run w0 events).aborted = false ∧
    (∀ d ∈ (run w0 events).delivered,
      d.polls.fd_input.fd < 0 ∧ d.polls.fd_output.fd < 0 ∧ d.polls.fd_error.fd < 0 ∧
      d.child_sig = 0 ∧ d.command.source_sig = 0 ∧ d.cancel_sig = 0 ∧
      d.cancellable = false) ∧
    ((run w0 events).delivered ≠ [] →
      (run w0 events).cancel_handler = false ∧ (run w0 events).child_watch = false ∧
      (run w0 events).source_attached = false ∧
      step (run w0 events) Event.cancel = run w0 events ∧
      ∀ more : List Event, run w0 (events ++ more) = run w0 events) := by
  have hi : Inv (run w0 events) := inv_run (inv_start h0) events
  refine ⟨hi.not_aborted, ?_, ?_⟩
  · intro d hd
    obtain ⟨hdeq, hf⟩ := inv_delivered_eq hi d hd
    subst hdeq
    have hc := (finished_iff _).mp hf
    have hatt : (run w0 events).source_attached = false := by rw [hi.attached]; exact hc.1
    exact ⟨hf.1, hf.2.1, hf.2.2.1, hi.child_sig hc.2, hi.source_sig hatt,
      (hi.done hc.1 hc.2).2.2.1, (hi.done hc.1 hc.2).2.2.2⟩
  · intro hd
    have hf : Finished (run w0 events).ps := by
      rcases inv_delivered_cases hi with ⟨hf, _⟩ | ⟨_, he⟩
      · exact hf
      · exact absurd he hd
    have hc := (finished_iff _).mp hf
    refine ⟨(hi.done hc.1 hc.2).2.1, ?_, ?_, step_after_delivery hi hd _, ?_⟩
    · cases hx : (run w0 events).child_watch
      · rfl
      · exact absurd hc.2 (hi.watch.mp hx)
    · rw [hi.attached]; exact hc.1
    · intro more
      rw [run_append]
      exact run_after_delivery hi hd more

/-- The example invocation with a connected handler, delivered after the
hangups and the child exit: the snapshot is clean and a later cancel event is
ignored. -/
theorem cleanup_complete_at_delivery_witness :
    (run (example_world none (Cancellable.pending 9))
      [hangup_all, Event.child_exited 0]).delivered.length = 1 ∧
    (run (example_world none (Cancellable.pending 9))
      [hangup_all, Event.child_exited 0]).cancel_handler = false ∧
    run (example_world none (Cancellable.pending 9))
      ([hangup_all, Event.child_exited 0] ++ [Event.cancel]) =
    run (example_world none (Cancellable.pending 9)) [hangup_all, Event.child_exited 0] :=
  ⟨by decide,
    ((cleanup_complete_at_delivery (example_world none (Cancellable.pending 9))
      ⟨none, none, Cancellable.pending 9, 7, 3, 4, 5, 1, 2, by decide, by decide,
        (by intro id h; cases h; decide), rfl⟩
      [hangup_all, Event.child_exited 0]).2.2 (by decide)).1,
    ((cleanup_complete_at_delivery (example_world none (Cancellable.pending 9))
      ⟨none, none, Cancellable.pending 9, 7, 3, 4, 5, 1, 2, by decide, by decide,
        (by intro id h; cases h; decide), rfl⟩
      [hangup_all, Event.child_exited 0]).2.2 (by decide)).2.2.2.2 [Event.cancel]⟩

theorem build_password_line_buffer (s : Bytes) :
    (realm_command_build_password_line (g_bytes_new s)).buffer = s ++ [10] ++ [0] ∧
    (realm_command_build_password_line (g_bytes_new s)).size = s.length + 1 := by
  simp [realm_command_build_password_line, g_bytes_new, g_bytes_get_data]

theorem strlen_append_zero (s rest : Bytes) (h : ∀ b ∈ s, b ≠ 0) :
    strlen (s ++ 0 :: rest) = s.length := by
  induction s with
  | nil => simp [strlen]
  | cons a t ih =>
    have ha : a ≠ 0 := h a (by simp)
    have := ih (fun b hb => h b (by simp [hb]))
    simp only [strlen] at this
    simp [strlen, List.takeWhile_cons, ha, this]

/-- For a secret without zero bytes the release routine does clear the whole
block of the password line. -/
theorem password_line_cleared_without_zero_bytes (s : Bytes) (h : ∀ b ∈ s, b ≠ 0) :
    released_password_line (realm_command_build_password_line (g_bytes_new s))
      = List.replicate (s.length + 2) 0 := by
  have hb := (build_password_line_buffer s).1
  have hlen : strlen (s ++ [10] ++ [0]) = s.length + 1 := by
    have := strlen_append_zero (s ++ [10]) [] (by
      intro b hb
      rcases List.mem_append.mp hb with h1 | h1
      · exact h b h1
      · simp at h1; omega)
    simpa using this
  unfold released_password_line clear_and_free_password memset
  rw [hb, hlen]
  simp only [List.length_append, List.length_singleton, List.length_cons, List.length_nil]
  rw [show min (s.length + 1) (s.length + 1 + 1) = s.length + 1 by omega]
  rw [show s ++ [10] ++ [0] = (s ++ [10]) ++ [0] from rfl, List.drop_append_of_le_length (by simp)]
  rw [List.drop_of_length_le (by simp)]
  simp [List.replicate_succ', List.replicate_add]

/-- C3 (failing input): for the secret `a`, zero byte, `b` the release routine
stops at the embedded zero byte: of the five bytes of the block only the first
is overwritten, and the secret byte `b` and the newline remain in the released
memory. -/
theorem password_with_zero_byte_not_cleared :
    (realm_command_build_password_line (g_bytes_new [97, 0, 98])).buffer = [97, 0, 98, 10, 0] ∧
    released_password_line (realm_command_build_password_line (g_bytes_new [97, 0, 98]))
      = [0, 0, 98, 10, 0] ∧
    98 ∈ released_password_line (realm_command_build_password_line (g_bytes_new [97, 0, 98])) := by
  decide

/-- What one call of `on_process_source_input` adds to the bytes written to
the child: a run of the exposed bytes of the input that starts at the cursor. -/
theorem on_process_source_input_written (w : World) (fd : Int) (answer : WriteResult)
    (input : GBytes) (h : w.ps.command.input = some input) :
    ∃ k, (on_process_source_input w fd answer).1.written =
      w.written ++ (((g_bytes_get_data input).1.drop w.ps.command.input_offset).take k) := by
  unfold on_process_source_input on_process_source_input_tail drop_input
  rw [h]
  dsimp only
  split
  · cases answer with
    | fail errno =>
      dsimp only
      refine ⟨0, ?_⟩
      split
      · split <;> simp
      · split <;> simp
    | wrote count =>
      dsimp only
      refine ⟨min (min count ((g_bytes_get_data input).2 - w.ps.command.input_offset))
        ((g_bytes_get_data input).2 - w.ps.command.input_offset), ?_⟩
      split <;> simp [List.take_take, Nat.min_comm]
  · refine ⟨0, ?_⟩
    split <;> simp

/-- C4: the password line built from a secret `s` exposes exactly `s` followed
by one newline, `s.length + 1` bytes; its memory block is two bytes longer than
`s` and holds a zero byte at index `s.length + 1`, outside the exposed bytes;
and whatever `on_process_source_input` writes to the child from this input is a
run of `s` followed by the newline. -/
theorem password_line_payload (s : Bytes) :
    g_bytes_get_data (realm_command_build_password_line (g_bytes_new s))
      = (s ++ [10], s.length + 1) ∧
    (realm_command_build_password_line (g_bytes_new s)).buffer.length = s.length + 2 ∧
    (realm_command_build_password_line (g_bytes_new s)).buffer.get? (s.length + 1) = some 0 ∧
    (realm_command_build_password_line (g_bytes_new s)).size < s.length + 2 ∧
    (∀ (w : World) (fd : Int) (answer : WriteResult),
      w.ps.command.input = some (realm_command_build_password_line (g_bytes_new s)) →
      ∃ k, (on_process_source_input w fd answer).1.written =
        w.written ++ (((s ++ [10]).drop w.ps.command.input_offset).take k)) := by
  have hd : g_bytes_get_data (realm_command_build_password_line (g_bytes_new s))
      = (s ++ [10], s.length + 1) := by
    simp [realm_command_build_password_line, g_bytes_new, g_bytes_get_data,
      List.take_append_eq_append_take]
  refine ⟨hd, ?_, ?_, ?_, ?_⟩
  · simp [realm_command_build_password_line, g_bytes_new, g_bytes_get_data]
  · have hb : (realm_command_build_password_line (g_bytes_new s)).buffer = s ++ [10, 0] := by
      simp [realm_command_build_password_line, g_bytes_new, g_bytes_get_data]
    rw [hb, List.get?_eq_getElem?, List.getElem?_append_right (by omega)]
    simp
  · simp [realm_command_build_password_line, g_bytes_new, g_bytes_get_data]
  · intro w fd answer h
    have := on_process_source_input_written w fd answer _ h
    rw [hd] at this
    exact this

/-- The password line of the secret `hi` in the example invocation: a stdin
dispatch whose `write` takes everything sends `hi` and the newline, not the
terminator. -/
theorem password_line_payload_witness :
    ∃ k, (on_process_source_input
        (example_world (some (realm_command_build_password_line (g_bytes_new [104, 105])))
          Cancellable.absent) 3 (WriteResult.wrote 100)).1.written =
      (example_world (some (realm_command_build_password_line (g_bytes_new [104, 105])))
          Cancellable.absent).written ++
        ((([104, 105] ++ [10]).drop (example_world (some (realm_command_build_password_line
          (g_bytes_new [104, 105]))) Cancellable.absent).ps.command.input_offset).take k) :=
  (password_line_payload [104, 105]).2.2.2.2
    (example_world (some (realm_command_build_password_line (g_bytes_new [104, 105])))
      Cancellable.absent) 3 (WriteResult.wrote 100) rfl

/-- C5: `realm_command_run_known_async` forwards to `realm_command_runv_async`
(always without input) exactly when the name is configured with a line that is
not only whitespace and that parses; otherwise it completes a result of its own
without error, with exit code 127 for a missing name, 0 for a line of
whitespace only (the empty line included) and 127 for a line that does not
parse, and `realm_command_run_finish` returns that code. -/
theorem known_command_outcomes (realm_settings_value : Bytes → Option Bytes)
    (g_ascii_isspace : Nat → Bool) (g_shell_parse_argv : Bytes → Option (List Bytes))
    (known_command : Bytes) :
    ((∃ argv input, realm_command_run_known_async realm_settings_value g_ascii_isspace
        g_shell_parse_argv known_command = KnownRun.forwarded argv input) ↔
      ∃ line argv, realm_settings_value known_command = some line ∧
        is_only_whitespace g_ascii_isspace line = false ∧
        g_shell_parse_argv line = some argv) ∧
    (∀ argv input, realm_command_run_known_async realm_settings_value g_ascii_isspace
        g_shell_parse_argv known_command = KnownRun.forwarded argv input →
      input = none ∧ ∃ line, realm_settings_value known_command = some line ∧
        g_shell_parse_argv line = some argv) ∧
    (realm_settings_value known_command = none →
      ∃ command, realm_command_run_known_async realm_settings_value g_ascii_isspace
          g_shell_parse_argv known_command = KnownRun.synthetic { error := none } command ∧
        ∀ want_output, (realm_command_run_finish { error := none } command want_output).ret = 127 ∧
          (realm_command_run_finish { error := none } command want_output).error = none) ∧
    (∀ line, realm_settings_value known_command = some line →
      is_only_whitespace g_ascii_isspace line = true →
      ∃ command, realm_command_run_known_async realm_settings_value g_ascii_isspace
          g_shell_parse_argv known_command = KnownRun.synthetic { error := none } command ∧
        ∀ want_output, (realm_command_run_finish { error := none } command want_output).ret = 0 ∧
          (realm_command_run_finish { error := none } command want_output).error = none) ∧
    (∀ line, realm_settings_value known_command = some line →
      is_only_whitespace g_ascii_isspace line = false →
      g_shell_parse_argv line = none →
      ∃ command, realm_command_run_known_async realm_settings_value g_ascii_isspace
          g_shell_parse_argv known_command = KnownRun.synthetic { error := none } command ∧
        ∀ want_output, (realm_command_run_finish { error := none } command want_output).ret = 127 ∧
          (realm_command_run_finish { error := none } command want_output).error = none) ∧
    is_only_whitespace g_ascii_isspace [] = true := by
  refine ⟨?_, ?_, ?_, ?_, ?_, rfl⟩
  · unfold realm_command_run_known_async
    cases h1 : realm_settings_value known_command with
    | none => simp
    | some line =>
      cases h2 : is_only_whitespace g_ascii_isspace line with
      | true => simp [h2]
      | false =>
        cases h3 : g_shell_parse_argv line with
        | none => simp [h2, h3]
        | some argv => simp [h2, h3]
  · intro argv input
    unfold realm_command_run_known_async
    cases h1 : realm_settings_value known_command with
    | none => simp
    | some line =>
      cases h2 : is_only_whitespace g_ascii_isspace line with
      | true => simp [h2]
      | false =>
        cases h3 : g_shell_parse_argv line with
        | none => simp [h2, h3]
        | some argv2 =>
          simp only [h2, h3, Bool.false_eq_true, if_false, KnownRun.forwarded.injEq]
          intro h
          exact ⟨h.2.symm, line, rfl, by rw [h3, h.1]⟩
  · intro h1
    unfold realm_command_run_known_async
    simp [h1, realm_command_run_finish]
  · intro line h1 h2
    unfold realm_command_run_known_async
    simp [h1, h2, realm_command_run_finish]
  · intro line h1 h2 h3
    unfold realm_command_run_known_async
    simp [h1, h2, h3, realm_command_run_finish]

/-- The four outcomes of C5 on the example settings: `join` is forwarded, an
unknown name gives 127, `skip` gives 0 and `bad` gives 127. -/
theorem known_command_outcomes_witness :
    (∃ argv input, realm_command_run_known_async example_settings example_isspace
      example_parse (ascii "join") = KnownRun.forwarded argv input) ∧
    (∃ command, realm_command_run_known_async example_settings example_isspace
        example_parse (ascii "none") = KnownRun.synthetic { error := none } command ∧
      ∀ want_output, (realm_command_run_finish { error := none } command want_output).ret = 127 ∧
        (realm_command_run_finish { error := none } command want_output).error = none) ∧
    (∃ command, realm_command_run_known_async example_settings example_isspace
        example_parse (ascii "skip") = KnownRun.synthetic { error := none } command ∧
      ∀ want_output, (realm_command_run_finish { error := none } command want_output).ret = 0 ∧
        (realm_command_run_finish { error := none } command want_output).error = none) ∧
    (∃ command, realm_command_run_known_async example_settings example_isspace
        example_parse (ascii "bad") = KnownRun.synthetic { error := none } command ∧
      ∀ want_output, (realm_command_run_finish { error := none } command want_output).ret = 127 ∧
        (realm_command_run_finish { error := none } command want_output).error = none) :=
  ⟨(known_command_outcomes example_settings example_isspace example_parse (ascii "join")).1.mpr
      ⟨ascii "net ads join", [ascii "net ads join"], by decide, by decide, by decide⟩,
    (known_command_outcomes example_settings example_isspace example_parse (ascii "none")).2.2.1
      (by decide),
    (known_command_outcomes example_settings example_isspace example_parse (ascii "skip")).2.2.2.1
      (ascii "  ") (by decide) (by decide),
    (known_command_outcomes example_settings example_isspace example_parse (ascii "bad")).2.2.2.2.1
      (ascii "net \"ads") (by decide) (by decide) (by decide)⟩

/-- A reflexive and transitive relation that holds across the primitive steps
of the stream handlers holds across the three stream blocks of a dispatch. -/
theorem dispatch_streams_rel (R : World → World → Prop)
    (hrefl : ∀ w, R w w) (htrans : ∀ a b c, R a b → R b c → R a c)
    (hread : ∀ reads w, R w (read_output_loop reads w).1)
    (hinput : ∀ w fd a, R w (on_process_source_input w fd a).1)
    (hwarn : ∀ (w : World) ws, R w { w with warnings := ws })
    (hclosed : ∀ (w : World) cl, R w { w with closed := cl })
    (hpolls : ∀ (w : World) polls, R w { w with ps := { w.ps with polls := polls } })
    (w : World) (answer : WriteResult) (out_reads err_reads : List ReadResult) :
    R w (dispatch_error (dispatch_output (dispatch_input w answer) out_reads) err_reads) := by
  have hro : ∀ w fd reads, R w (read_output w fd reads).1 := by
    intro w fd reads
    unfold read_output
    split
    · exact hrefl w
    · exact hread reads w
  have hout : ∀ w fd reads, R w (on_process_source_output w fd reads).1 := by
    intro w fd reads
    unfold on_process_source_output
    dsimp only
    split
    · exact htrans _ _ _ (hro w fd reads) (hwarn _ _)
    · exact hro w fd reads
  have herr : ∀ w fd reads, R w (on_process_source_error w fd reads).1 := by
    intro w fd reads
    unfold on_process_source_error
    dsimp only
    split
    · exact htrans _ _ _ (hro w fd reads) (hwarn _ _)
    · exact hro w fd reads
  have hcp : ∀ w poll, R w (close_poll w poll).1 := by
    intro w poll
    unfold close_poll close_fd
    dsimp only
    split
    · exact hclosed _ _
    · exact hrefl w
  have h1 : ∀ w, R w (dispatch_input w answer) := by
    intro w
    unfold dispatch_input
    dsimp only
    split
    · refine htrans _ _ _ ?_ (hpolls _ _)
      split
      · split
        · split
          · exact htrans _ _ _ (hinput _ _ _) (hcp _ _)
          · exact hinput _ _ _
        · split
          · exact htrans _ _ _ (hinput _ _ _) (hcp _ _)
          · exact hinput _ _ _
      · split
        · exact hcp _ _
        · exact hrefl w
    · exact hrefl w
  have h2 : ∀ w, R w (dispatch_output w out_reads) := by
    intro w
    unfold dispatch_output
    dsimp only
    split
    · refine htrans _ _ _ ?_ (hpolls _ _)
      split
      · split
        · split
          · exact htrans _ _ _ (hout _ _ _) (hcp _ _)
          · exact hout _ _ _
        · split
          · exact htrans _ _ _ (hout _ _ _) (hcp _ _)
          · exact hout _ _ _
      · split
        · exact hcp _ _
        · exact hrefl w
    · exact hrefl w
  have h3 : ∀ w, R w (dispatch_error w err_reads) := by
    intro w
    unfold dispatch_error
    dsimp only
    split
    · refine htrans _ _ _ ?_ (hpolls _ _)
      split
      · split
        · split
          · exact htrans _ _ _ (herr _ _ _) (hcp _ _)
          · exact herr _ _ _
        · split
          · exact htrans _ _ _ (herr _ _ _) (hcp _ _)
          · exact herr _ _ _
      · split
        · exact hcp _ _
        · exact hrefl w
    · exact hrefl w
  exact htrans _ _ _ (htrans _ _ _ (h1 w) (h2 _)) (h3 _)

theorem read_output_loop_output_ok (reads : List ReadResult) (w : World) (h : OutputOk w) :
    OutputOk (read_output_loop reads w).1 := by
  induction reads generalizing w with
  | nil => exact h
  | cons r rest ih =>
    cases r with
    | fail errno =>
      simp only [read_output_loop]
      split <;> exact h
    | data bytes =>
      have hstep : OutputOk
          (if 0 < (List.take BLOCK_SIZE bytes).length then
            { w with
              received := w.received ++ [List.take BLOCK_SIZE bytes],
              diag := w.diag ++ [(w.ps.command.invocation, List.take BLOCK_SIZE bytes)],
              ps := { w.ps with command := { w.ps.command with
                output := w.ps.command.output ++ List.take BLOCK_SIZE bytes } } }
          else { w with received := w.received ++ [List.take BLOCK_SIZE bytes] }) := by
        unfold OutputOk at h ⊢
        split
        · simp [h]
        · rename_i hz
          have : List.take BLOCK_SIZE bytes = [] := by
            apply List.eq_nil_of_length_eq_zero
            omega
          simp [h, this]
      simp only [read_output_loop]
      split
      · exact ih _ hstep
      · exact hstep

theorem on_process_source_input_output_ok (w : World) (fd : Int) (answer : WriteResult)
    (h : OutputOk w) : OutputOk (on_process_source_input w fd answer).1 := by
  unfold OutputOk at h ⊢
  unfold on_process_source_input on_process_source_input_tail drop_input
  split
  · exact h
  · dsimp only
    split
    · split
      · split
        · split <;> exact h
        · split <;> exact h
      · split <;> exact h
    · split <;> exact h

theorem step_output_ok (w : World) (e : Event) (h : OutputOk w) : OutputOk (step w e) := by
  cases e with
  | dispatch a b c d f g =>
    simp only [step]
    split
    · exact h
    · unfold on_process_source_dispatch
      have hb := dispatch_streams_rel (fun x y => OutputOk x → OutputOk y)
        (fun _ hx => hx) (fun _ _ _ h1 h2 hx => h2 (h1 hx))
        (fun reads x hx => read_output_loop_output_ok reads x hx)
        (fun x fd a hx => on_process_source_input_output_ok x fd a hx)
        (fun _ _ hx => hx) (fun _ _ hx => hx) (fun _ _ hx => hx)
        (poll_ready w a b c) d f g h
      have hk := dispatch_finish_keeps (dispatch_error (dispatch_output (dispatch_input
        (poll_ready w a b c) d) f) g)
      unfold OutputOk at hb ⊢
      dsimp only
      rw [hk.2.2.2.1, hk.2.2.2.2.2.2]
      exact hb
  | child_exited status =>
    simp only [step]
    split
    · exact h
    · unfold OutputOk at h ⊢
      rw [(child_exited_effect _ status).2.2.1, (child_exited_effect _ status).2.2.2.1]
      exact h
  | cancel =>
    simp only [step]
    split
    · exact h
    · unfold OutputOk at h ⊢
      rw [(cancelled_effect w).2.2.2.1, (cancelled_effect w).2.2.2.2]
      exact h

theorem run_induction (P : World → Prop) (Q : Event → Prop)
    (hstep : ∀ w e, Inv w → P w → Q e → P (step w e)) :
    ∀ (events : List Event) (w : World), Inv w → P w → (∀ e ∈ events, Q e) →
      P (run w events) := by
  intro events
  induction events with
  | nil => intro w _ hp _; exact hp
  | cons e rest ih =>
    intro w hi hp hq
    exact ih (step w e) (inv_step hi e) (hstep w e hi hp (hq e (by simp)))
      (fun x hx => hq x (by simp [hx]))

theorem spawned_facts {w0 : World} (h : Spawned w0) :
    w0.ps.command.output = [] ∧ w0.received = [] ∧ w0.ps.child_pid ≠ 0 ∧
    (w0.ps.command.cancelled = false → w0.ps.res.error = none) := by
  obtain ⟨input, invocation, cancellable, pid, i, o, e, sid, wid, hpid, hfd, hid, hrun⟩ := h
  cases cancellable with
  | absent =>
    simp [realm_command_runv_async, process_source_new, new_command_closure] at hrun
    subst hrun
    simp [hpid]
  | pending id =>
    simp [realm_command_runv_async, process_source_new, new_command_closure] at hrun
    subst hrun
    simp [hpid]
  | cancelled =>
    simp [realm_command_runv_async, process_source_new, new_command_closure,
      on_cancellable_cancelled, g_simple_async_result_set_error, hpid] at hrun
    subst hrun
    simp [hpid]

theorem signaled_not_exited (status : Nat) (h : WIFSIGNALED status = true) :
    WIFEXITED status = false := by
  simp only [WIFSIGNALED, Bool.and_eq_true, decide_eq_true_eq] at h
  simp only [WIFEXITED, beq_eq_false_iff_ne, ne_eq]
  omega

/-- C7: when the cancelled flag is not set and the status says the child was
terminated by a signal, `on_unix_process_child_exited` stores the error naming
that signal and `realm_command_run_finish` returns -1 with it; when the flag is
set the error slot is left as it is; and in a run of a spawned invocation whose
child is terminated by signal `n`, a result delivered without the cancelled flag
makes `realm_command_run_finish` return -1 with the error naming `n`. -/
theorem signal_exit_is_failure (w0 : World) (h0 : Spawned w0) (events : List Event) (n : Nat)
    (hexit : ∀ status, Event.child_exited status ∈ events →
      WIFSIGNALED status = true ∧ WTERMSIG status = n) :
    (∀ (w : World) (status : Nat), w.ps.command.cancelled = false →
      WIFSIGNALED status = true →
      (on_unix_process_child_exited w status).ps.res.error =
        some (GError.terminated_with_signal (WTERMSIG status)) ∧
      ∀ want_output, realm_command_run_finish (on_unix_process_child_exited w status).ps.res
          (on_unix_process_child_exited w status).ps.command want_output =
        { ret := -1, output := none,
          error := some (GError.terminated_with_signal (WTERMSIG status)) }) ∧
    (∀ (w : World) (status : Nat), w.ps.command.cancelled = true →
      (on_unix_process_child_exited w status).ps.res = w.ps.res) ∧
    (∀ d ∈ (run w0 events).delivered, d.command.cancelled = false →
      ∀ want_output, finish_delivered d want_output =
        { ret := -1, output := none, error := some (GError.terminated_with_signal n) }) := by
  have hfun : ∀ (w : World) (status : Nat), w.ps.command.cancelled = false →
      WIFSIGNALED status = true →
      (on_unix_process_child_exited w status).ps.res.error =
        some (GError.terminated_with_signal (WTERMSIG status)) := by
    intro w status hc hs
    rw [(child_exited_effect w status).2.2.2.2.1]
    simp [signaled_not_exited status hs, hs, hc]
  refine ⟨?_, ?_, ?_⟩
  · intro w status hc hs
    refine ⟨hfun w status hc hs, fun want_output => ?_⟩
    simp [realm_command_run_finish, hfun w status hc hs]
  · intro w status hc
    rw [(child_exited_effect w status).2.2.2.2.1]
    simp [hc]
  · have hf := spawned_facts h0
    have hP := run_induction
      (fun w => w.ps.command.cancelled = false → w.ps.child_pid = 0 →
        w.ps.res.error = some (GError.terminated_with_signal n))
      (fun e => ∀ status, e = Event.child_exited status →
        WIFSIGNALED status = true ∧ WTERMSIG status = n)
      (by
        intro w e hi hp hq
        cases e with
        | dispatch a b c d f g =>
          rw [(step_dispatch_keeps w a b c d f g).1, (step_dispatch_keeps w a b c d f g).2.1,
            (step_dispatch_keeps w a b c d f g).2.2.2]
          exact hp
        | child_exited status =>
          simp only [step]
          split
          · exact hp
          · intro hc _
            rw [(child_exited_effect _ status).2.1] at hc
            have := hfun { w with child_watch := false } status hc (hq status rfl).1
            rw [this, (hq status rfl).2]
        | cancel =>
          simp only [step]
          split
          · exact hp
          · intro hc
            rw [(cancelled_effect w).2.1] at hc
            exact absurd hc (by decide))
      events w0 (inv_start h0) (fun _ hz => absurd hz hf.2.2.1)
      (fun e he status hs => hexit status (hs ▸ he))
    intro d hd hc want_output
    have hi : Inv (run w0 events) := inv_run (inv_start h0) events
    obtain ⟨hdeq, hfin⟩ := inv_delivered_eq hi d hd
    subst hdeq
    exact finish_of_error _ _ (hP hc hfin.2.2.2) want_output

/-- The example invocation whose child is killed by signal 9 after the streams
hung up: the one result makes `realm_command_run_finish` return -1 with the
error naming signal 9. -/
theorem signal_exit_is_failure_witness :
    (run (example_world none Cancellable.absent)
      [hangup_all, Event.child_exited 9]).delivered.length = 1 ∧
    ∀ d ∈ (run (example_world none Cancellable.absent)
      [hangup_all, Event.child_exited 9]).delivered,
      ∀ want_output, finish_delivered d want_output =
        { ret := -1, output := none, error := some (GError.terminated_with_signal 9) } :=
  ⟨by decide, fun d hd =>
    (signal_exit_is_failure (example_world none Cancellable.absent)
      ⟨none, none, Cancellable.absent, 7, 3, 4, 5, 1, 2, by decide, by decide,
        (by intro id h; cases h), rfl⟩
      [hangup_all, Event.child_exited 9] 9
      (by
        intro status hs
        simp [hangup_all] at hs
        subst hs
        decide)).2.2 d hd (by
        revert d
        decide)⟩

theorem hup_bit_set (r : Nat) : (r ||| G_IO_HUP) &&& G_IO_HUP ≠ 0 := by
  intro h
  have h2 := congrArg (fun x => Nat.testBit x 4) h
  have h16 : Nat.testBit 16 4 = true := by decide
  simp [G_IO_HUP, Nat.testBit_and, Nat.testBit_or, h16] at h2

theorem read_output_loop_result (reads : List ReadResult) (w : World) :
    (read_output_loop reads w).2 = !read_fails reads ∧
    (read_output_loop reads w).1.ps.polls = w.ps.polls := by
  induction reads generalizing w with
  | nil => simp [read_output_loop, read_fails]
  | cons r rest ih =>
    cases r with
    | fail errno =>
      simp only [read_output_loop, read_fails]
      split <;> simp_all
    | data bytes =>
      simp only [read_output_loop, read_fails]
      split
      · rename_i hfull
        rw [(ih _).1, (ih _).2]
        simp only [if_true]
        refine ⟨trivial, ?_⟩
        split <;> rfl
      · refine ⟨by simp, ?_⟩
        split <;> rfl

theorem on_process_source_input_polls (w : World) (fd : Int) (answer : WriteResult) :
    (on_process_source_input w fd answer).1.ps.polls = w.ps.polls := by
  unfold on_process_source_input on_process_source_input_tail drop_input
  split
  · rfl
  · dsimp only
    split
    · split
      · split
        · split <;> rfl
        · split <;> rfl
      · split <;> rfl
    · split <;> rfl

theorem read_output_open (w : World) (fd : Int) (reads : List ReadResult) (hfd : 0 ≤ fd) :
    read_output w fd reads = read_output_loop reads w := by
  unfold read_output
  rw [if_neg (not_lt.mpr hfd)]

theorem on_process_source_output_result (w : World) (fd : Int) (reads : List ReadResult)
    (hfd : 0 ≤ fd) :
    (on_process_source_output w fd reads).2 = !read_fails reads ∧
    (on_process_source_output w fd reads).1.ps.polls = w.ps.polls := by
  unfold on_process_source_output
  rw [read_output_open w fd reads hfd]
  have h := read_output_loop_result reads w
  dsimp only
  rw [h.1]
  cases read_fails reads
  · exact ⟨rfl, h.2⟩
  · exact ⟨rfl, h.2⟩

theorem on_process_source_error_result (w : World) (fd : Int) (reads : List ReadResult)
    (hfd : 0 ≤ fd) :
    (on_process_source_error w fd reads).2 = !read_fails reads ∧
    (on_process_source_error w fd reads).1.ps.polls = w.ps.polls := by
  unfold on_process_source_error
  rw [read_output_open w fd reads hfd]
  have h := read_output_loop_result reads w
  dsimp only
  rw [h.1]
  cases read_fails reads
  · exact ⟨rfl, h.2⟩
  · exact ⟨rfl, h.2⟩

theorem close_poll_result (w : World) (poll : GPollFD) :
    (close_poll w poll).1.ps.polls = w.ps.polls ∧ (close_poll w poll).2.fd = -1 := by
  unfold close_poll close_fd
  dsimp only
  refine ⟨?_, rfl⟩
  split <;> rfl

theorem dispatch_output_polls (w : World) (reads : List ReadResult) :
    (dispatch_output w reads).ps.polls.fd_input = w.ps.polls.fd_input ∧
    (dispatch_output w reads).ps.polls.fd_error = w.ps.polls.fd_error ∧
    (dispatch_output w reads).ps.polls.fd_output.fd =
      (if 0 ≤ w.ps.polls.fd_output.fd ∧
          (w.ps.polls.fd_output.revents &&& G_IO_HUP ≠ 0 ∨
            (w.ps.polls.fd_output.revents &&& G_IO_IN ≠ 0 ∧ read_fails reads = true))
       then -1 else w.ps.polls.fd_output.fd) := by
  unfold dispatch_output
  dsimp only
  by_cases hfd : 0 ≤ w.ps.polls.fd_output.fd
  · have hr := on_process_source_output_result w w.ps.polls.fd_output.fd reads hfd
    rw [if_pos hfd]
    by_cases hin : w.ps.polls.fd_output.revents &&& G_IO_IN ≠ 0
    · rw [if_pos hin, hr.1]
      cases hf : read_fails reads
      · by_cases hh : w.ps.polls.fd_output.revents &&& G_IO_HUP ≠ 0
        · simp [hfd, hh, (close_poll_result _ _).1, (close_poll_result _ _).2, hr.2]
        · simp [hfd, hh, hr.2]
      · have hb := hup_bit_set w.ps.polls.fd_output.revents
        simp [hfd, hb, hin, (close_poll_result _ _).1, (close_poll_result _ _).2, hr.2]
    · rw [if_neg hin]
      by_cases hh : w.ps.polls.fd_output.revents &&& G_IO_HUP ≠ 0
      · simp [hfd, hh, (close_poll_result _ _).1, (close_poll_result _ _).2]
      · simp [hfd, hh, hin]
  · simp [hfd]

theorem dispatch_error_polls (w : World) (reads : List ReadResult) :
    (dispatch_error w reads).ps.polls.fd_input = w.ps.polls.fd_input ∧
    (dispatch_error w reads).ps.polls.fd_output = w.ps.polls.fd_output ∧
    (dispatch_error w reads).ps.polls.fd_error.fd =
      (if 0 ≤ w.ps.polls.fd_error.fd ∧
          (w.ps.polls.fd_error.revents &&& G_IO_HUP ≠ 0 ∨
            (w.ps.polls.fd_error.revents &&& G_IO_IN ≠ 0 ∧ read_fails reads = true))
       then -1 else w.ps.polls.fd_error.fd) := by
  unfold dispatch_error
  dsimp only
  by_cases hfd : 0 ≤ w.ps.polls.fd_error.fd
  · have hr := on_process_source_error_result w w.ps.polls.fd_error.fd reads hfd
    rw [if_pos hfd]
    by_cases hin : w.ps.polls.fd_error.revents &&& G_IO_IN ≠ 0
    · rw [if_pos hin, hr.1]
      cases hf : read_fails reads
      · by_cases hh : w.ps.polls.fd_error.revents &&& G_IO_HUP ≠ 0
        · simp [hfd, hh, (close_poll_result _ _).1, (close_poll_result _ _).2, hr.2]
        · simp [hfd, hh, hr.2]
      · have hb := hup_bit_set w.ps.polls.fd_error.revents
        simp [hfd, hb, hin, (close_poll_result _ _).1, (close_poll_result _ _).2, hr.2]
    · rw [if_neg hin]
      by_cases hh : w.ps.polls.fd_error.revents &&& G_IO_HUP ≠ 0
      · simp [hfd, hh, (close_poll_result _ _).1, (close_poll_result _ _).2]
      · simp [hfd, hh, hin]
  · simp [hfd]

theorem dispatch_input_polls (w : World) (answer : WriteResult) :
    (dispatch_input w answer).ps.polls.fd_output = w.ps.polls.fd_output ∧
    (dispatch_input w answer).ps.polls.fd_error = w.ps.polls.fd_error ∧
    (dispatch_input w answer).ps.polls.fd_input.fd =
      (if 0 ≤ w.ps.polls.fd_input.fd ∧
          (w.ps.polls.fd_input.revents &&& G_IO_HUP ≠ 0 ∨
            (w.ps.polls.fd_input.revents &&& G_IO_OUT ≠ 0 ∧
              (on_process_source_input w w.ps.polls.fd_input.fd answer).2 = false))
       then -1 else w.ps.polls.fd_input.fd) := by
  unfold dispatch_input
  dsimp only
  have hp := on_process_source_input_polls w w.ps.polls.fd_input.fd answer
  by_cases hfd : 0 ≤ w.ps.polls.fd_input.fd
  · rw [if_pos hfd]
    by_cases hin : w.ps.polls.fd_input.revents &&& G_IO_OUT ≠ 0
    · rw [if_pos hin]
      cases hf : (on_process_source_input w w.ps.polls.fd_input.fd answer).2
      · have hb := hup_bit_set w.ps.polls.fd_input.revents
        simp [hfd, hb, hin, (close_poll_result _ _).1, (close_poll_result _ _).2, hp]
      · by_cases hh : w.ps.polls.fd_input.revents &&& G_IO_HUP ≠ 0
        · simp [hfd, hh, (close_poll_result _ _).1, (close_poll_result _ _).2, hp]
        · simp [hfd, hh, hp]
    · rw [if_neg hin]
      by_cases hh : w.ps.polls.fd_input.revents &&& G_IO_HUP ≠ 0
      · simp [hfd, hh, (close_poll_result _ _).1, (close_poll_result _ _).2]
      · simp [hfd, hh, hin]
  · simp [hfd]

/-- A `write` that fails with an `errno` other than `EINTR` and `EAGAIN` makes
`on_process_source_input` drop the input and return FALSE. -/
theorem on_process_source_input_fatal (w : World) (fd : Int) (input : GBytes) (errno : Nat)
    (hin : w.ps.command.input = some input) (hoff : w.ps.command.input_offset < input.size)
    (h1 : errno ≠ EINTR) (h2 : errno ≠ EAGAIN) :
    (on_process_source_input w fd (WriteResult.fail errno)).2 = false ∧
    (on_process_source_input w fd (WriteResult.fail errno)).1.ps.command.input = none ∧
    (on_process_source_input w fd (WriteResult.fail errno)).1.ps.res = w.ps.res := by
  unfold on_process_source_input
  rw [hin]
  simp only [g_bytes_get_data, hoff, if_true]
  rw [if_pos ⟨h1, h2⟩]
  unfold drop_input
  dsimp only
  split <;> exact ⟨rfl, rfl, rfl⟩

/-- C8: one call of `on_process_source_dispatch` never touches the error slot
of the result; a failed read on stdout or stderr and a fatal write error on
stdin close the descriptor of that stream; and a stream that reports no hangup
and whose handler does not run or returns TRUE (no read failure; for stdin:
input left to write and no fatal error) keeps its descriptor. -/
theorem stream_failure_closes_only_that_stream (w : World) (answer : WriteResult)
    (out_reads err_reads : List ReadResult) :
    (on_process_source_dispatch w answer out_reads err_reads).1.ps.res = w.ps.res ∧
    (0 ≤ w.ps.polls.fd_output.fd → w.ps.polls.fd_output.revents &&& G_IO_IN ≠ 0 →
      read_fails out_reads = true →
      (on_process_source_dispatch w answer out_reads err_reads).1.ps.polls.fd_output.fd = -1) ∧
    (0 ≤ w.ps.polls.fd_error.fd → w.ps.polls.fd_error.revents &&& G_IO_IN ≠ 0 →
      read_fails err_reads = true →
      (on_process_source_dispatch w answer out_reads err_reads).1.ps.polls.fd_error.fd = -1) ∧
    (∀ (input : GBytes) (errno : Nat), 0 ≤ w.ps.polls.fd_input.fd →
      w.ps.polls.fd_input.revents &&& G_IO_OUT ≠ 0 →
      w.ps.command.input = some input → w.ps.command.input_offset < input.size →
      answer = WriteResult.fail errno → errno ≠ EINTR → errno ≠ EAGAIN →
      (on_process_source_dispatch w answer out_reads err_reads).1.ps.polls.fd_input.fd = -1) ∧
    (w.ps.polls.fd_input.revents &&& G_IO_HUP = 0 →
      (w.ps.polls.fd_input.revents &&& G_IO_OUT = 0 ∨
        (on_process_source_input w w.ps.polls.fd_input.fd answer).2 = true) →
      (on_process_source_dispatch w answer out_reads err_reads).1.ps.polls.fd_input.fd
        = w.ps.polls.fd_input.fd) ∧
    (w.ps.polls.fd_output.revents &&& G_IO_HUP = 0 →
      (w.ps.polls.fd_output.revents &&& G_IO_IN = 0 ∨ read_fails out_reads = false) →
      (on_process_source_dispatch w answer out_reads err_reads).1.ps.polls.fd_output.fd
        = w.ps.polls.fd_output.fd) ∧
    (w.ps.polls.fd_error.revents &&& G_IO_HUP = 0 →
      (w.ps.polls.fd_error.revents &&& G_IO_IN = 0 ∨ read_fails err_reads = false) →
      (on_process_source_dispatch w answer out_reads err_reads).1.ps.polls.fd_error.fd
        = w.ps.polls.fd_error.fd) := by
  have hk := dispatch_finish_keeps
    (dispatch_error (dispatch_output (dispatch_input w answer) out_reads) err_reads)
  have hs := dispatch_streams_same w answer out_reads err_reads
  have h1 := dispatch_input_polls w answer
  have h2 := dispatch_output_polls (dispatch_input w answer) out_reads
  have h3 := dispatch_error_polls (dispatch_output (dispatch_input w answer) out_reads) err_reads
  have hin : (on_process_source_dispatch w answer out_reads err_reads).1.ps.polls.fd_input.fd =
      (if 0 ≤ w.ps.polls.fd_input.fd ∧
          (w.ps.polls.fd_input.revents &&& G_IO_HUP ≠ 0 ∨
            (w.ps.polls.fd_input.revents &&& G_IO_OUT ≠ 0 ∧
              (on_process_source_input w w.ps.polls.fd_input.fd answer).2 = false))
       then -1 else w.ps.polls.fd_input.fd) := by
    unfold on_process_source_dispatch
    rw [hk.2.2.2.2.1, h3.1, h2.1, h1.2.2]
  have hout : (on_process_source_dispatch w answer out_reads err_reads).1.ps.polls.fd_output.fd =
      (if 0 ≤ w.ps.polls.fd_output.fd ∧
          (w.ps.polls.fd_output.revents &&& G_IO_HUP ≠ 0 ∨
            (w.ps.polls.fd_output.revents &&& G_IO_IN ≠ 0 ∧ read_fails out_reads = true))
       then -1 else w.ps.polls.fd_output.fd) := by
    unfold on_process_source_dispatch
    rw [hk.2.2.2.2.1, h3.2.1, h2.2.2, h1.1]
  have herr : (on_process_source_dispatch w answer out_reads err_reads).1.ps.polls.fd_error.fd =
      (if 0 ≤ w.ps.polls.fd_error.fd ∧
          (w.ps.polls.fd_error.revents &&& G_IO_HUP ≠ 0 ∨
            (w.ps.polls.fd_error.revents &&& G_IO_IN ≠ 0 ∧ read_fails err_reads = true))
       then -1 else w.ps.polls.fd_error.fd) := by
    unfold on_process_source_dispatch
    rw [hk.2.2.2.2.1, h3.2.2, h2.2.1, h1.2.1]
  refine ⟨?_, ?_, ?_, ?_, ?_, ?_, ?_⟩
  · unfold on_process_source_dispatch
    rw [hk.1, hs.res]
  · intro hfd hr hf
    rw [hout, if_pos ⟨hfd, Or.inr ⟨hr, hf⟩⟩]
  · intro hfd hr hf
    rw [herr, if_pos ⟨hfd, Or.inr ⟨hr, hf⟩⟩]
  · intro input errno hfd hr hi ho ha e1 e2
    subst ha
    rw [hin, if_pos ⟨hfd, Or.inr ⟨hr, (on_process_source_input_fatal w _ input errno hi ho e1 e2).1⟩⟩]
  · intro hh hc
    rw [hin]
    rw [if_neg]
    rintro ⟨_, hx | ⟨hx1, hx2⟩⟩
    · exact hx hh
    · rcases hc with hc | hc
      · exact hx1 hc
      · rw [hc] at hx2
        exact absurd hx2 (by decide)
  · intro hh hc
    rw [hout]
    rw [if_neg]
    rintro ⟨_, hx | ⟨hx1, hx2⟩⟩
    · exact hx hh
    · rcases hc with hc | hc
      · exact hx1 hc
      · rw [hc] at hx2
        exact absurd hx2 (by decide)
  · intro hh hc
    rw [herr]
    rw [if_neg]
    rintro ⟨_, hx | ⟨hx1, hx2⟩⟩
    · exact hx hh
    · rcases hc with hc | hc
      · exact hx1 hc
      · rw [hc] at hx2
        exact absurd hx2 (by decide)

/-- The example invocation in a dispatch where stdout is readable and its
`read` fails with `EIO` (5) while stdin and stderr report nothing: stdout is
closed, stdin and stderr keep the descriptors 3 and 5. -/
theorem stream_failure_closes_only_that_stream_witness :
    (on_process_source_dispatch (poll_ready (example_world none Cancellable.absent) 0 G_IO_IN 0)
      (WriteResult.wrote 0) [ReadResult.fail 5] []).1.ps.polls.fd_output.fd = -1 ∧
    (on_process_source_dispatch (poll_ready (example_world none Cancellable.absent) 0 G_IO_IN 0)
      (WriteResult.wrote 0) [ReadResult.fail 5] []).1.ps.polls.fd_input.fd = 3 ∧
    (on_process_source_dispatch (poll_ready (example_world none Cancellable.absent) 0 G_IO_IN 0)
      (WriteResult.wrote 0) [ReadResult.fail 5] []).1.ps.polls.fd_error.fd = 5 :=
  ⟨(stream_failure_closes_only_that_stream
      (poll_ready (example_world none Cancellable.absent) 0 G_IO_IN 0)
      (WriteResult.wrote 0) [ReadResult.fail 5] []).2.1 (by decide) (by decide) (by decide),
    (stream_failure_closes_only_that_stream
      (poll_ready (example_world none Cancellable.absent) 0 G_IO_IN 0)
      (WriteResult.wrote 0) [ReadResult.fail 5] []).2.2.2.2.1 (by decide) (Or.inl (by decide)),
    (stream_failure_closes_only_that_stream
      (poll_ready (example_world none Cancellable.absent) 0 G_IO_IN 0)
      (WriteResult.wrote 0) [ReadResult.fail 5] []).2.2.2.2.2.2 (by decide) (Or.inl (by decide))⟩

theorem buffer_callback_flatten (len : Nat) (pieces : List Bytes) (st : Bytes × Nat) :
    pieces.foldl (buffer_callback len) st = buffer_callback len st pieces.flatten := by
  induction pieces generalizing st with
  | nil => rfl
  | cons p rest ih =>
    simp only [List.foldl_cons, List.flatten_cons]
    rw [ih]
    simp [buffer_callback, List.foldl_append]

theorem buffer_callback_full (len : Nat) (text : Bytes) (mem : Bytes) (i : Nat)
    (h : len ≤ i + 1) : buffer_callback len (mem, i) text = (mem, i + text.length) := by
  induction text generalizing i with
  | nil => rfl
  | cons b rest ih =>
    have hstep : buffer_callback len (mem, i) (b :: rest) = buffer_callback len (mem, i + 1) rest := by
      simp only [buffer_callback, List.foldl_cons]
      rw [if_neg (by omega)]
    rw [hstep, ih (i + 1) (by omega)]
    simp only [List.length_cons]
    congr 1
    omega

theorem buffer_callback_copy (len : Nat) (text : Bytes) (pre rest : Bytes)
    (h : len ≤ pre.length + rest.length) :
    buffer_callback len (pre ++ rest, pre.length) text =
      (pre ++ text.take (len - 1 - pre.length) ++
        rest.drop (min text.length (len - 1 - pre.length)), pre.length + text.length) := by
  induction text generalizing pre rest with
  | nil => simp [buffer_callback]
  | cons b t ih =>
    by_cases hroom : pre.length + 1 < len
    · cases rest with
      | nil => simp at h; omega
      | cons r rest2 =>
        have hstep : buffer_callback len (pre ++ r :: rest2, pre.length) (b :: t) =
            buffer_callback len ((pre ++ [b]) ++ rest2, (pre ++ [b]).length) t := by
          simp only [buffer_callback, List.foldl_cons]
          rw [if_pos hroom]
          simp
        rw [hstep, ih (pre ++ [b]) rest2 (by simp at h ⊢; omega)]
        have e1 : len - 1 - pre.length = (len - 1 - (pre ++ [b]).length) + 1 := by
          simp; omega
        rw [e1]
        simp only [List.take_succ_cons, List.length_cons, List.length_append,
          List.length_singleton, List.length_nil]
        rw [Nat.add_min_add_right]
        simp [Nat.add_assoc, Nat.add_comm 1]
    · rw [buffer_callback_full len (b :: t) _ _ (by omega)]
      have e0 : len - 1 - pre.length = 0 := by omega
      simp [e0]

theorem terminate_memory (str T : Bytes) (len : Nat) (hlen : 1 ≤ len) (hcap : len ≤ str.length) :
    (T.take (len - 1) ++ str.drop (min T.length (len - 1))).set (min T.length (len - 1)) 0 =
      T.take (min T.length (len - 1)) ++ 0 :: str.drop (min T.length (len - 1) + 1) := by
  have hk : min T.length (len - 1) < str.length := by
    have : min T.length (len - 1) ≤ len - 1 := Nat.min_le_right _ _
    omega
  have e : T.take (len - 1) = T.take (min T.length (len - 1)) := by
    rw [List.take_eq_take]
    omega
  have hl : (T.take (min T.length (len - 1))).length = min T.length (len - 1) := by
    rw [List.length_take]
    omega
  rw [e, List.set_append_right _ _ (by omega), hl, Nat.sub_self,
    List.drop_eq_getElem_cons hk, List.set_cons_zero]

/-- C10: when the streaming formatter succeeds with the pieces whose
concatenation is the text `T`, the bounded formatter with a capacity `len` of at
least 1 (within the memory `str`) returns the length of `T`, leaves the first
`min (length T) (len - 1)` bytes of `T` followed by a zero byte at the start of
the memory, and changes nothing at index `len` or beyond. -/
theorem bounded_format_truncates (str : Bytes) (len : Nat) (format : Bytes)
    (args pieces : List Bytes) (hlen : 1 ≤ len) (hcap : len ≤ str.length)
    (hok : safe_format_pieces format args = some pieces) :
    safe_format_string_cb format args = (pieces.flatten.length : Int) ∧
    (safe_format_string str len format args).1 = (pieces.flatten.length : Int) ∧
    (safe_format_string str len format args).2 =
      pieces.flatten.take (min pieces.flatten.length (len - 1)) ++
        0 :: str.drop (min pieces.flatten.length (len - 1) + 1) ∧
    (safe_format_string str len format args).2.length = str.length ∧
    (safe_format_string str len format args).2.drop len = str.drop len := by
  have hst : pieces.foldl (buffer_callback len) (str, 0) =
      (pieces.flatten.take (len - 1) ++ str.drop (min pieces.flatten.length (len - 1)),
        pieces.flatten.length) := by
    rw [buffer_callback_flatten]
    have := buffer_callback_copy len pieces.flatten [] str (by simpa using hcap)
    simpa using this
  have hk : min pieces.flatten.length (len - 1) < str.length := by
    have : min pieces.flatten.length (len - 1) ≤ len - 1 := Nat.min_le_right _ _
    omega
  have hmem : (safe_format_string str len format args).2 =
      pieces.flatten.take (min pieces.flatten.length (len - 1)) ++
        0 :: str.drop (min pieces.flatten.length (len - 1) + 1) := by
    unfold safe_format_string
    rw [hok]
    dsimp only
    rw [hst, if_pos (by omega)]
    exact terminate_memory str pieces.flatten len hlen hcap
  refine ⟨?_, ?_, hmem, ?_, ?_⟩
  · simp [safe_format_string_cb, hok]
  · unfold safe_format_string
    rw [hok]
    dsimp only
    rw [hst]
  · rw [hmem]
    simp only [List.length_append, List.length_take, List.length_cons, List.length_drop]
    omega
  · rw [hmem]
    rw [List.drop_append_eq_append_drop]
    have h1 : List.drop len (List.take (min pieces.flatten.length (len - 1)) pieces.flatten) = [] := by
      apply List.drop_eq_nil_of_le
      simp only [List.length_take]
      omega
    rw [h1, List.nil_append]
    have h2 : (List.take (min pieces.flatten.length (len - 1)) pieces.flatten).length =
        min pieces.flatten.length (len - 1) := by
      simp [List.length_take]
    rw [h2]
    have h3 : len - min pieces.flatten.length (len - 1) =
        (len - min pieces.flatten.length (len - 1) - 1) + 1 := by
      have : min pieces.flatten.length (len - 1) ≤ len - 1 := Nat.min_le_right _ _
      omega
    rw [h3, List.drop_succ_cons, List.drop_drop]
    congr 1
    have : min pieces.flatten.length (len - 1) ≤ len - 1 := Nat.min_le_right _ _
    omega

/-- The test of `test-safe-format.c`: capacity 8, the template
"the %s %s dances away" and the arguments "space" and "man" give the return
value 25 and the buffer "the spa" with its terminator. -/
theorem bounded_format_truncates_witness :
    (safe_format_string (List.replicate 8 255) 8 (ascii "the %s %s dances away")
      [ascii "space", ascii "man"]).1 = 25 ∧
    (safe_format_string (List.replicate 8 255) 8 (ascii "the %s %s dances away")
      [ascii "space", ascii "man"]).2 = ascii "the spa" ++ [0] :=
  ⟨(bounded_format_truncates (List.replicate 8 255) 8 (ascii "the %s %s dances away")
      [ascii "space", ascii "man"]
      [ascii "the ", ascii "space", ascii " ", ascii "man", ascii " dances away"]
      (by decide) (by decide) (by decide)).2.1,
    (bounded_format_truncates (List.replicate 8 255) 8 (ascii "the %s %s dances away")
      [ascii "space", ascii "man"]
      [ascii "the ", ascii "space", ascii " ", ascii "man", ascii " dances away"]
      (by decide) (by decide) (by decide)).2.2.1⟩

theorem span_snd_length_le (p : Nat → Bool) (l : Bytes) : (l.span p).2.length ≤ l.length := by
  rw [List.span_eq_take_drop]
  exact (List.dropWhile_suffix p).length_le

theorem span_append_stop (p : Nat → Bool) (l1 l2 : Bytes) (h1 : ∀ x ∈ l1, p x = true)
    (h2 : ∀ x ∈ l2.head?, p x = false) : (l1 ++ l2).span p = (l1, l2) := by
  rw [List.span_eq_take_drop]
  induction l1 with
  | nil =>
    cases l2 with
    | nil => simp
    | cons b t =>
      have := h2 b (by simp)
      simp [List.takeWhile_cons, List.dropWhile_cons, this]
  | cons a t ih =>
    have ha := h1 a (by simp)
    have := ih (fun x hx => h1 x (by simp [hx]))
    simp only [Prod.mk.injEq] at this
    simp [List.takeWhile_cons, List.dropWhile_cons, ha, this.1, this.2]


theorem parse_conversion_shorter (s : Bytes) (r : Conversion × Bytes)
    (h : parse_conversion s = some r) : r.2.length < s.length := by
  unfold parse_conversion at h
  dsimp only at h
  have hp : ∀ q : Option Nat × Bytes,
      q = (match (s.span is_digit).2 with
        | 36 :: r => if (s.span is_digit).1 ≠ [] then (some (digits_value (s.span is_digit).1), r)
            else (none, s)
        | _ => (none, s)) → q.2.length ≤ s.length := by
    intro q hq
    have h0 := span_snd_length_le is_digit s
    split at hq
    · rename_i r heq
      rw [heq] at h0
      split at hq
      · rw [hq]; simp at h0 ⊢; omega
      · rw [hq]
    · rw [hq]
  generalize hqdef : (match (s.span is_digit).2 with
        | 36 :: r => if (s.span is_digit).1 ≠ [] then (some (digits_value (s.span is_digit).1), r)
            else (none, s)
        | _ => (none, s)) = q at h
  have hq := hp q hqdef.symm
  have h1 := span_snd_length_le (fun c => c == 45 || c == 32) q.2
  have h2 := span_snd_length_le is_digit (q.2.span (fun c => c == 45 || c == 32)).2
  generalize ((q.2.span (fun c => c == 45 || c == 32)).2.span is_digit) = wd at h h2
  generalize (q.2.span (fun c => c == 45 || c == 32)) = fl at h h1 h2
  have h3 : ∀ pr : Option Nat × Bytes,
      pr = (match wd.2 with
        | 46 :: r => (some (digits_value (r.span is_digit).1), (r.span is_digit).2)
        | _ => (none, wd.2)) → pr.2.length ≤ wd.2.length := by
    intro pr hpr
    split at hpr
    · rename_i r heq
      have := span_snd_length_le is_digit r
      rw [hpr, heq]
      simp only [List.length_cons]
      omega
    · rw [hpr]
  generalize hprdef : (match wd.2 with
        | 46 :: r => (some (digits_value (r.span is_digit).1), (r.span is_digit).2)
        | _ => (none, wd.2)) = pr at h
  have hpr := h3 pr hprdef.symm
  split at h
  · rename_i rest heq
    simp only [Option.some.injEq] at h
    rw [← h]
    rw [heq] at hpr
    simp at hpr ⊢
    omega
  · exact absurd h (by simp)

theorem parse_template_fuel (n : Nat) : ∀ (s : Bytes) (m : Nat), s.length < n → s.length < m →
    parse_template n s = parse_template m s := by
  induction n with
  | zero => intro s m h; omega
  | succ n ih =>
    intro s m hn hm
    cases m with
    | zero => omega
    | succ m =>
      cases s with
      | nil => rw [parse_template.eq_2, parse_template.eq_2]
      | cons c rest =>
        by_cases hc37 : c = 37
        · subst hc37
          have hrest : ∀ r : Conversion × Bytes, parse_conversion rest = some r →
              parse_template n r.2 = parse_template m r.2 := by
            intro r hc
            have := parse_conversion_shorter _ _ hc
            exact ih r.2 m (by simp at hn; omega) (by simp at hm; omega)
          cases rest with
          | nil =>
            rw [parse_template.eq_4 _ _ (by intro r h; cases h),
              parse_template.eq_4 _ _ (by intro r h; cases h)]
            cases hc : parse_conversion [] with
            | none => rfl
            | some r => dsimp only; rw [hrest r hc]
          | cons d rest2 =>
            by_cases hd37 : d = 37
            · subst hd37
              rw [parse_template.eq_3, parse_template.eq_3]
              rw [ih rest2 m (by simp at hn; omega) (by simp at hm; omega)]
            · rw [parse_template.eq_4 _ _ (by intro r h; simp at h; exact hd37 h.1),
                parse_template.eq_4 _ _ (by intro r h; simp at h; exact hd37 h.1)]
              cases hc : parse_conversion (d :: rest2) with
              | none => rfl
              | some r => dsimp only; rw [hrest r hc]
        · have hne : (List.span (fun x => x != 37) (c :: rest)).2.length < (c :: rest).length := by
            rw [List.span_eq_take_drop]
            simp only [List.dropWhile_cons, bne_iff_ne, ne_eq, hc37, not_false_eq_true,
              decide_True, if_true, List.length_cons]
            have := (List.dropWhile_suffix (fun x => x != 37) (l := rest)).length_le
            omega
          rw [parse_template.eq_5 _ _ _ (by intro r h; exact absurd h hc37) hc37,
            parse_template.eq_5 _ _ _ (by intro r h; exact absurd h hc37) hc37]
          rw [ih _ m (by simp at hn hne ⊢; omega) (by simp at hm hne ⊢; omega)]


theorem specifier_tail_heads (wd : Bytes) (pd : Option Bytes) (c : Nat) (rest : Bytes)
    (hwd : ∀ x ∈ wd, is_digit x = true)
    (hc : is_digit c = false ∧ c ≠ 45 ∧ c ≠ 32 ∧ c ≠ 46 ∧ c ≠ 36) :
    (∀ x ∈ (precision_text pd ++ c :: rest).head?,
      is_digit x = false ∧ (x == 45 || x == 32) = false ∧ x ≠ 36) ∧
    (∀ x ∈ (wd ++ (precision_text pd ++ c :: rest)).head?,
      (x == 45 || x == 32) = false ∧ x ≠ 36) := by
  obtain ⟨hc1, hc2, hc3, hc4, hc5⟩ := hc
  have htail_head : ∀ x ∈ (precision_text pd ++ c :: rest).head?,
      is_digit x = false ∧ (x == 45 || x == 32) = false ∧ x ≠ 36 := by
    intro x hx
    cases pd with
    | none =>
      simp [precision_text] at hx
      subst hx
      exact ⟨hc1, by simp [hc2, hc3], hc5⟩
    | some d =>
      simp [precision_text] at hx
      subst hx
      exact ⟨by decide, by decide, by decide⟩
  refine ⟨htail_head, ?_⟩
  intro x hx
  cases wd with
  | nil => exact ⟨(htail_head x hx).2.1, (htail_head x hx).2.2⟩
  | cons y t =>
    simp at hx
    subst hx
    have hy := hwd y (by simp)
    simp only [is_digit, Bool.and_eq_true, decide_eq_true_eq] at hy
    refine ⟨?_, by omega⟩
    have h1 : y ≠ 45 := by omega
    have h2 : y ≠ 32 := by omega
    simp [h1, h2]

/-- A specifier without a position: the parser finds no position. -/
theorem position_part_none (flags wd : Bytes) (pd : Option Bytes) (c : Nat) (rest : Bytes)
    (hflags : ∀ x ∈ flags, x = 45 ∨ x = 32) (hwd : ∀ x ∈ wd, is_digit x = true)
    (hc : is_digit c = false ∧ c ≠ 45 ∧ c ≠ 32 ∧ c ≠ 46 ∧ c ≠ 36) :
    (match ((flags ++ (wd ++ (precision_text pd ++ c :: rest))).span is_digit).2 with
      | 36 :: r =>
        if ((flags ++ (wd ++ (precision_text pd ++ c :: rest))).span is_digit).1 ≠ [] then
          (some (digits_value ((flags ++ (wd ++ (precision_text pd ++ c :: rest))).span is_digit).1), r)
        else (none, flags ++ (wd ++ (precision_text pd ++ c :: rest)))
      | _ => ((none : Option Nat), flags ++ (wd ++ (precision_text pd ++ c :: rest)))) =
      (none, flags ++ (wd ++ (precision_text pd ++ c :: rest))) := by
  have htail_head := (specifier_tail_heads wd pd c rest hwd hc).1
  have hsnd : ∀ x ∈ ((flags ++ (wd ++ (precision_text pd ++ c :: rest))).span is_digit).2.head?,
      x ≠ 36 := by
    cases flags with
    | nil =>
      rw [List.nil_append, span_append_stop is_digit wd _ hwd (fun x hx => (htail_head x hx).1)]
      exact fun x hx => (htail_head x hx).2.2
    | cons y t =>
      have hy : is_digit y = false := by
        rcases hflags y (by simp) with h | h <;> subst h <;> decide
      have : ((y :: t ++ (wd ++ (precision_text pd ++ c :: rest))).span is_digit) =
          ([], y :: t ++ (wd ++ (precision_text pd ++ c :: rest))) := by
        rw [List.span_eq_take_drop]
        simp [List.takeWhile_cons, List.dropWhile_cons, hy]
      rw [this]
      intro x hx
      simp at hx
      subst hx
      rcases hflags y (by simp) with h | h <;> omega
  split
  · rename_i r heq
    rw [heq] at hsnd
    exact absurd rfl (hsnd 36 (by simp))
  · rfl

/-- A specifier with a position: the parser takes the digits before the dollar
sign as the position. -/
theorem position_part_some (ds tail : Bytes) (hne : ds ≠ [])
    (hds : ∀ x ∈ ds, is_digit x = true) :
    (match ((ds ++ 36 :: tail).span is_digit).2 with
      | 36 :: r =>
        if ((ds ++ 36 :: tail).span is_digit).1 ≠ [] then
          (some (digits_value ((ds ++ 36 :: tail).span is_digit).1), r)
        else (none, ds ++ 36 :: tail)
      | _ => ((none : Option Nat), ds ++ 36 :: tail)) =
      (some (digits_value ds), tail) := by
  have hspan : (ds ++ 36 :: tail).span is_digit = (ds, 36 :: tail) :=
    span_append_stop is_digit ds (36 :: tail) hds (by simp; decide)
  rw [hspan]
  dsimp only
  rw [if_pos hne]

theorem parse_conversion_after (S : Bytes) (pos : Option Nat) (flags wd : Bytes)
    (pd : Option Bytes) (c : Nat)
    (rest : Bytes) (hflags : ∀ x ∈ flags, x = 45 ∨ x = 32)
    (hwd : ∀ x ∈ wd, is_digit x = true)
    (hpd : ∀ d, pd = some d → ∀ x ∈ d, is_digit x = true)
    (hc : is_digit c = false ∧ c ≠ 45 ∧ c ≠ 32 ∧ c ≠ 46 ∧ c ≠ 36)
    (hpos : (match (S.span is_digit).2 with
      | 36 :: r =>
        if (S.span is_digit).1 ≠ [] then (some (digits_value (S.span is_digit).1), r)
        else (none, S)
      | _ => ((none : Option Nat), S)) =
      (pos, flags ++ (wd ++ (precision_text pd ++ c :: rest)))) :
    parse_conversion S =
      if c = 115 then
        some ({ position := pos, left := flags.contains 45,
                width := if wd = [] then none else some (digits_value wd),
                precision := pd.map digits_value }, rest)
      else none := by
  obtain ⟨hc1, hc2, hc3, hc4, hc5⟩ := hc
  have hflag_ok : ∀ x ∈ flags, (x == 45 || x == 32) = true := by
    intro x hx
    rcases hflags x hx with h | h <;> simp [h]
  -- the head of what follows the width digits
  have htail_head : ∀ x ∈ (precision_text pd ++ c :: rest).head?,
      is_digit x = false ∧ (x == 45 || x == 32) = false ∧ x ≠ 36 := by
    intro x hx
    cases pd with
    | none =>
      simp [precision_text] at hx
      subst hx
      exact ⟨hc1, by simp [hc2, hc3], hc5⟩
    | some d =>
      simp [precision_text] at hx
      subst hx
      exact ⟨by decide, by decide, by decide⟩
  have hwd_head : ∀ x ∈ (wd ++ (precision_text pd ++ c :: rest)).head?,
      (x == 45 || x == 32) = false ∧ x ≠ 36 := by
    intro x hx
    cases wd with
    | nil => exact ⟨(htail_head x hx).2.1, (htail_head x hx).2.2⟩
    | cons y t =>
      simp at hx
      subst hx
      have hy := hwd y (by simp)
      simp only [is_digit, Bool.and_eq_true, decide_eq_true_eq] at hy
      refine ⟨?_, by omega⟩
      have h1 : y ≠ 45 := by omega
      have h2 : y ≠ 32 := by omega
      simp [h1, h2]
  unfold parse_conversion
  dsimp only
  rw [hpos]
  dsimp only
  rw [span_append_stop _ flags _ hflag_ok (fun x hx => (hwd_head x hx).1)]
  dsimp only
  rw [span_append_stop is_digit wd _ hwd (fun x hx => (htail_head x hx).1)]
  dsimp only
  cases pd with
  | none =>
    simp only [precision_text, List.nil_append]
    have : (match c :: rest with
        | 46 :: r => (some (digits_value (r.span is_digit).1), (r.span is_digit).2)
        | _ => ((none : Option Nat), c :: rest)) = (none, c :: rest) := by
      split
      · rename_i r heq
        simp at heq
        exact absurd heq.1 hc4
      · rfl
    rw [this]
    dsimp only
    by_cases h115 : c = 115
    · subst h115
      simp
    · rw [if_neg h115]
      split
      · rename_i r heq
        simp at heq
        exact absurd heq.1 h115
      · rfl
  | some d =>
    simp only [precision_text, List.cons_append]
    rw [span_append_stop is_digit d (c :: rest) (hpd d rfl) (by simp [hc1])]
    dsimp only
    by_cases h115 : c = 115
    · subst h115
      simp
    · rw [if_neg h115]
      split
      · rename_i r heq
        simp at heq
        exact absurd heq.1 h115
      · rfl


/-- The formatter passes every fixture of `test-safe-format.c`. -/
theorem fixtures_pass : ∀ f ∈ fixtures, fixture_passes f = true := by
  decide

theorem render_segments_some_iff (args : List Bytes) (segments : List Segment) :
    ∀ at_arg : Nat, (render_segments args at_arg segments).isSome = true ↔
      ∀ p ∈ conversion_positions at_arg segments, 1 ≤ p ∧ p ≤ args.length := by
  induction segments with
  | nil => intro at_arg; simp [render_segments, conversion_positions]
  | cons seg rest ih =>
    intro at_arg
    cases seg with
    | literal text =>
      simp only [render_segments, conversion_positions, Option.isSome_map']
      exact ih at_arg
    | conversion c =>
      cases hp : c.position with
      | none =>
        simp only [render_segments, conversion_positions, hp]
        cases hg : args.get? at_arg with
        | none =>
          have hlen : args.length ≤ at_arg := by
            rw [List.get?_eq_getElem?] at hg
            exact List.getElem?_eq_none_iff.mp hg
          simp only [Option.isSome_none, Bool.false_eq_true, List.mem_cons, forall_eq_or_imp,
            false_iff, not_and]
          intro h
          omega
        | some arg =>
          have hlen : at_arg < args.length := by
            rw [List.get?_eq_getElem?] at hg
            exact (List.getElem?_eq_some_iff.mp hg).1
          simp only [Option.isSome_map', List.mem_cons, forall_eq_or_imp]
          rw [ih (at_arg + 1)]
          constructor
          · intro h
            exact ⟨⟨by omega, by omega⟩, h⟩
          · intro h
            exact h.2
      | some n =>
        simp only [render_segments, conversion_positions, hp]
        by_cases hn : n = 0
        · subst hn
          simp
        · simp only [hn, if_false]
          cases hg : args.get? (n - 1) with
          | none =>
            have hlen : args.length ≤ n - 1 := by
              rw [List.get?_eq_getElem?] at hg
              exact List.getElem?_eq_none_iff.mp hg
            simp only [Option.isSome_none, Bool.false_eq_true, List.mem_cons, forall_eq_or_imp,
              false_iff, not_and]
            intro h
            omega
          | some arg =>
            have hlen : n - 1 < args.length := by
              rw [List.get?_eq_getElem?] at hg
              exact (List.getElem?_eq_some_iff.mp hg).1
            simp only [Option.isSome_map', List.mem_cons, forall_eq_or_imp]
            rw [ih at_arg]
            constructor
            · intro h
              exact ⟨⟨by omega, by omega⟩, h⟩
            · intro h
              exact h.2

theorem format_pieces_some_of_positions (format : Bytes) (args : List Bytes)
    (segments : List Segment)
    (hparse : parse_template (format.length + 1) format = some segments)
    (hpos : ∀ p ∈ conversion_positions 0 segments, 1 ≤ p ∧ p ≤ args.length)
    (hdup : (conversion_positions 0 segments).Nodup) :
    ∃ pieces, safe_format_pieces format args = some pieces := by
  have h := (render_segments_some_iff args segments 0).mpr hpos
  unfold safe_format_pieces
  rw [hparse]
  dsimp only
  rw [if_pos hdup]
  exact Option.isSome_iff_exists.mp h

/-- A template in which two conversions have the same position is rejected,
whatever the arguments. -/
theorem format_pieces_none_of_duplicate (format : Bytes) (args : List Bytes)
    (segments : List Segment)
    (hparse : parse_template (format.length + 1) format = some segments)
    (hdup : ¬ (conversion_positions 0 segments).Nodup) :
    safe_format_pieces format args = none := by
  unfold safe_format_pieces
  rw [hparse]
  dsimp only
  rw [if_neg hdup]

/-- The pieces depend only on the arguments at the positions of the
conversions. -/
theorem render_segments_congr (args args' : List Bytes) (segments : List Segment) :
    ∀ at_arg : Nat,
      (∀ p ∈ conversion_positions at_arg segments, 1 ≤ p →
        args.get? (p - 1) = args'.get? (p - 1)) →
      render_segments args at_arg segments = render_segments args' at_arg segments := by
  induction segments with
  | nil => intro at_arg _; rfl
  | cons seg rest ih =>
    intro at_arg h
    cases seg with
    | literal text =>
      simp only [render_segments]
      rw [ih at_arg (fun p hp => h p (by simpa [conversion_positions] using hp))]
    | conversion c =>
      cases hp : c.position with
      | none =>
        have hget := h (at_arg + 1) (by simp [conversion_positions, hp]) (by omega)
        simp only [Nat.add_sub_cancel] at hget
        simp only [render_segments, hp]
        rw [hget, ih (at_arg + 1)
          (fun p hq => h p (by simp [conversion_positions, hp, hq]))]
      | some n =>
        simp only [render_segments, hp]
        by_cases hn : n = 0
        · simp [hn]
        · have hget := h n (by simp [conversion_positions, hp]) (by omega)
          simp only [hn, if_false]
          rw [hget, ih at_arg
            (fun p hq => h p (by simp [conversion_positions, hp, hq]))]

/-- C11 (counterexample): the fixture "Nothing to print" of
`test-safe-format.c`, the empty template with the one argument "blah", has an
argument that no conversion refers to, and the formatter returns 0, not a
negative value; so does the bounded formatter. -/
theorem unused_argument_is_accepted :
    ¬ (∀ (format : Bytes) (args : List Bytes) (segments : List Segment),
        parse_template (format.length + 1) format = some segments →
        (∃ i, i < args.length ∧ argument_unused segments i = true) →
        safe_format_string_cb format args < 0 ∧
          ∀ (str : Bytes) (len : Nat), (safe_format_string str len format args).1 < 0) := by
  intro h
  have h1 := (h (ascii "") [ascii "blah"] [] rfl ⟨0, by decide, by decide⟩).1
  revert h1
  decide

/-- C11 (amended): an argument that no conversion refers to has no influence on
the result of the formatter, so that no call fails on its account.  For a
template that parses: two argument lists that agree at the positions of the
conversions give the same pieces, the same return value and the same bounded
result; replacing an argument that no conversion refers to changes nothing; and
when every position lies within the arguments, further arguments appended to
the list change nothing. -/
theorem unused_arguments_do_not_matter (format : Bytes) (args : List Bytes)
    (segments : List Segment)
    (hparse : parse_template (format.length + 1) format = some segments) :
    (∀ args' : List Bytes,
      (∀ p ∈ conversion_positions 0 segments, 1 ≤ p →
        args.get? (p - 1) = args'.get? (p - 1)) →
      safe_format_pieces format args = safe_format_pieces format args' ∧
      safe_format_string_cb format args = safe_format_string_cb format args' ∧
      ∀ (str : Bytes) (len : Nat),
        safe_format_string str len format args = safe_format_string str len format args') ∧
    (∀ (i : Nat) (x : Bytes), argument_unused segments i = true →
      safe_format_pieces format (args.set i x) = safe_format_pieces format args ∧
      safe_format_string_cb format (args.set i x) = safe_format_string_cb format args ∧
      ∀ (str : Bytes) (len : Nat),
        safe_format_string str len format (args.set i x) =
          safe_format_string str len format args) ∧
    (∀ extra : List Bytes, (∀ p ∈ conversion_positions 0 segments, p ≤ args.length) →
      safe_format_pieces format (args ++ extra) = safe_format_pieces format args ∧
      safe_format_string_cb format (args ++ extra) = safe_format_string_cb format args ∧
      ∀ (str : Bytes) (len : Nat),
        safe_format_string str len format (args ++ extra) =
          safe_format_string str len format args) := by
  have hmain : ∀ a b : List Bytes,
      (∀ p ∈ conversion_positions 0 segments, 1 ≤ p → a.get? (p - 1) = b.get? (p - 1)) →
      safe_format_pieces format a = safe_format_pieces format b := by
    intro a b hsame
    unfold safe_format_pieces
    rw [hparse]
    dsimp only
    rw [render_segments_congr a b segments 0 hsame]
  refine ⟨?_, ?_, ?_⟩
  · intro args' hsame
    have hp := hmain args args' hsame
    refine ⟨hp, ?_, ?_⟩
    · unfold safe_format_string_cb
      rw [hp]
    · intro str len
      unfold safe_format_string
      rw [hp]
  · intro i x hunused
    have hp : safe_format_pieces format (args.set i x) = safe_format_pieces format args := by
      apply hmain
      intro p hp h1
      have hne : i ≠ p - 1 := by
        intro heq
        have hmem : (i + 1) ∈ conversion_positions 0 segments := by
          have : i + 1 = p := by omega
          rw [this]
          exact hp
        simp [argument_unused, hmem] at hunused
      simp only [List.get?_eq_getElem?]
      exact List.getElem?_set_ne hne
    refine ⟨hp, ?_, ?_⟩
    · unfold safe_format_string_cb
      rw [hp]
    · intro str len
      unfold safe_format_string
      rw [hp]
  · intro extra hle
    have hp : safe_format_pieces format (args ++ extra) = safe_format_pieces format args := by
      apply hmain
      intro p hp h1
      have := hle p hp
      simp only [List.get?_eq_getElem?]
      exact List.getElem?_append_left (by omega)
    refine ⟨hp, ?_, ?_⟩
    · unfold safe_format_string_cb
      rw [hp]
    · intro str len
      unfold safe_format_string
      rw [hp]

/-- The fixture "Skipping an argument": in "space %2$s dances" with the
arguments "dances" and "man" no conversion refers to the first argument; the
call gives the same pieces as with any other first argument, and the pieces are
"space ", "man" and " dances".  The call of `test_safe_format_string`: "%s" with
the arguments "space" and "man" returns 5, as it does with "space" alone. -/
theorem unused_arguments_do_not_matter_witness :
    argument_unused [Segment.literal (ascii "space "),
      Segment.conversion { position := some 2, left := false, width := none, precision := none },
      Segment.literal (ascii " dances")] 0 = true ∧
    safe_format_pieces (ascii "space %2$s dances") [ascii "skipped", ascii "man"] =
      some [ascii "space ", ascii "man", ascii " dances"] ∧
    safe_format_pieces (ascii "space %2$s dances")
        ([ascii "dances", ascii "man"].set 0 (ascii "skipped")) =
      safe_format_pieces (ascii "space %2$s dances") [ascii "dances", ascii "man"] ∧
    safe_format_string_cb (ascii "%s") [ascii "space"] = 5 ∧
    safe_format_string_cb (ascii "%s") ([ascii "space"] ++ [ascii "man"]) =
      safe_format_string_cb (ascii "%s") [ascii "space"] :=
  ⟨by decide, by decide,
    ((unused_arguments_do_not_matter (ascii "space %2$s dances")
      [ascii "dances", ascii "man"]
      [Segment.literal (ascii "space "),
        Segment.conversion { position := some 2, left := false, width := none, precision := none },
        Segment.literal (ascii " dances")]
      (by decide)).2.1 0 (ascii "skipped") (by decide)).1,
    by decide,
    ((unused_arguments_do_not_matter (ascii "%s") [ascii "space"]
      [Segment.conversion { position := none, left := false, width := none, precision := none }]
      (by decide)).2.2 [ascii "man"] (by decide)).2.1⟩

theorem specifier_ok_facts (s : Specifier) (h : specifier_ok s = true) :
    (∀ ds, s.position = some ds → ds ≠ [] ∧ ∀ x ∈ ds, is_digit x = true) ∧
    (∀ x ∈ s.flags, x = 45 ∨ x = 32) ∧ (∀ x ∈ s.wd, is_digit x = true) ∧
    (∀ d, s.pd = some d → ∀ x ∈ d, is_digit x = true) := by
  unfold specifier_ok at h
  simp only [Bool.and_eq_true, List.all_eq_true] at h
  obtain ⟨⟨⟨h1, h2⟩, h3⟩, h4⟩ := h
  refine ⟨?_, ?_, h3, ?_⟩
  · intro ds hds
    rw [hds] at h1
    simp only [Bool.and_eq_true, List.all_eq_true, Bool.not_eq_true', List.isEmpty_eq_false] at h1
    exact ⟨h1.1, h1.2⟩
  · intro x hx
    have := h2 x hx
    simpa using this
  · intro d hd
    rw [hd] at h4
    simpa using h4

theorem specifier_text_head (s : Specifier) (c : Nat) (rest : Bytes)
    (hs : specifier_ok s = true) (hc : c ≠ 37) :
    ∀ r, specifier_text s c rest = 37 :: r → False := by
  obtain ⟨hpos, hflags, hwd, _⟩ := specifier_ok_facts s hs
  intro r h
  unfold specifier_text at h
  cases hp : s.position with
  | some ds =>
    obtain ⟨hne, hds⟩ := hpos ds hp
    cases ds with
    | nil => exact hne rfl
    | cons y t =>
      rw [hp] at h
      simp [position_text] at h
      have hy := hds y (by simp)
      simp only [is_digit, Bool.and_eq_true, decide_eq_true_eq] at hy
      omega
  | none =>
    rw [hp] at h
    simp only [position_text, List.nil_append] at h
    cases hf : s.flags with
    | cons y t =>
      rw [hf] at h
      simp at h
      rcases hflags y (by simp [hf]) with h1 | h1 <;> omega
    | nil =>
      rw [hf] at h
      cases hw : s.wd with
      | cons y t =>
        rw [hw] at h
        simp at h
        have hy := hwd y (by simp [hw])
        simp only [is_digit, Bool.and_eq_true, decide_eq_true_eq] at hy
        omega
      | nil =>
        rw [hw] at h
        cases hd : s.pd with
        | none =>
          rw [hd] at h
          simp [precision_text] at h
          exact hc h.1
        | some d =>
          rw [hd] at h
          simp [precision_text] at h

/-- The parser of one conversion on the text of a well-formed specifier: with
the letter `s` it gives the conversion the specifier stands for, with another
letter it fails. -/
theorem parse_conversion_text (s : Specifier) (c : Nat) (rest : Bytes)
    (hs : specifier_ok s = true)
    (hc : is_digit c = false ∧ c ≠ 45 ∧ c ≠ 32 ∧ c ≠ 46 ∧ c ≠ 36) :
    parse_conversion (specifier_text s c rest) =
      if c = 115 then some (specifier_conversion s, rest) else none := by
  obtain ⟨hpos, hflags, hwd, hpd⟩ := specifier_ok_facts s hs
  unfold specifier_text specifier_conversion
  cases hp : s.position with
  | none =>
    simp only [position_text, List.nil_append, Option.map_none']
    exact parse_conversion_after _ none s.flags s.wd s.pd c rest hflags hwd hpd hc
      (position_part_none s.flags s.wd s.pd c rest hflags hwd hc)
  | some ds =>
    obtain ⟨hne, hds⟩ := hpos ds hp
    simp only [position_text, List.append_assoc, List.singleton_append, Option.map_some']
    exact parse_conversion_after _ (some (digits_value ds)) s.flags s.wd s.pd c rest
      hflags hwd hpd hc (position_part_some ds _ hne hds)

theorem render_conversion_padded (flags wd : Bytes) (pd : Option Bytes) (a : Bytes) :
    render_conversion (conversion_of flags wd pd) a = padded_text flags wd pd a := by
  have hw : (conversion_of flags wd pd).width.getD 0 = digits_value wd := by
    unfold conversion_of
    by_cases h : wd = []
    · subst h
      simp [digits_value]
    · simp [h]
  have ht : (match (conversion_of flags wd pd).precision with
      | none => a
      | some p => a.take p) = precision_cut pd a := by
    cases pd with
    | none => rfl
    | some d =>
      simp only [conversion_of, Option.map_some', precision_cut]
      rw [List.take_eq_take]
      omega
  unfold render_conversion padded_text
  dsimp only
  rw [ht, hw]
  have hpad : digits_value wd - (precision_cut pd a).length =
      max (digits_value wd) (precision_cut pd a).length - (precision_cut pd a).length := by
    omega
  rw [hpad]
  rfl

/-- The text substituted for the conversion of a specifier is the padded text
of the argument; the position plays no part in it. -/
theorem render_conversion_specifier (s : Specifier) (a : Bytes) :
    render_conversion (specifier_conversion s) a = padded_text s.flags s.wd s.pd a := by
  rw [← render_conversion_padded s.flags s.wd s.pd a]
  rfl

theorem template_text_head (items : List Item) (tail : Bytes)
    (hst : starts_with_text items = false) (htail : ∀ x ∈ tail.head?, x = 37) :
    ∀ x ∈ (template_text items ++ tail).head?, x = 37 := by
  cases items with
  | nil => simpa [template_text] using htail
  | cons i rest =>
    cases i with
    | text t => simp [starts_with_text] at hst
    | percent =>
      intro x hx
      simp [template_text] at hx
      exact hx.symm
    | conv s =>
      intro x hx
      simp [template_text] at hx
      exact hx.symm

theorem specifier_text_append (s : Specifier) (c : Nat) (rest tail : Bytes) :
    specifier_text s c rest ++ tail = specifier_text s c (rest ++ tail) := by
  simp [specifier_text]

theorem specifier_text_length (s : Specifier) (c : Nat) (rest : Bytes) :
    rest.length < (specifier_text s c rest).length := by
  simp only [specifier_text, List.length_append, List.length_cons]
  omega

/-- The template parser on the text of well-formed items, followed by a tail
that is empty or begins with a percent sign: it gives the segments the items
stand for, followed by what it makes of the tail. -/
theorem parse_template_items (items : List Item) :
    items_ok items = true → ∀ (tail : Bytes) (n : Nat), (∀ x ∈ tail.head?, x = 37) →
      (template_text items ++ tail).length < n →
      parse_template n (template_text items ++ tail) =
        (parse_template (tail.length + 1) tail).map (fun l => items.map item_segment ++ l) := by
  induction items with
  | nil =>
    intro _ tail n _ hn
    simp only [template_text, List.nil_append, List.map_nil] at hn ⊢
    rw [parse_template_fuel n tail (tail.length + 1) hn (by omega)]
    simp
  | cons i rest ih =>
    intro hok tail n htail hn
    cases n with
    | zero => omega
    | succ k =>
      cases i with
      | text t =>
        simp only [items_ok, Bool.and_eq_true, Bool.not_eq_true', List.all_eq_true,
          bne_iff_ne, ne_eq] at hok
        obtain ⟨⟨⟨ht1, ht2⟩, hst⟩, hrest⟩ := hok
        cases t with
        | nil => simp at ht1
        | cons x xs =>
          have hx : x ≠ 37 := ht2 x (by simp)
          have hhead := template_text_head rest tail hst htail
          have hspan : List.span (fun y => y != 37)
              (x :: (xs ++ (template_text rest ++ tail))) =
              (x :: xs, template_text rest ++ tail) := by
            have := span_append_stop (fun y => y != 37) (x :: xs) (template_text rest ++ tail)
              (by intro y hy; simpa using ht2 y hy) (by intro y hy; simp [hhead y hy])
            simpa using this
          have hlen : (template_text rest ++ tail).length < k := by
            simp only [template_text, List.length_append, List.length_cons] at hn ⊢
            omega
          simp only [template_text, List.cons_append, List.append_assoc, List.map_cons,
            item_segment]
          rw [parse_template.eq_5 _ _ _ (fun _ h _ => hx h) hx, hspan]
          dsimp only
          rw [ih hrest tail k htail hlen]
          simp [Option.map_map, Function.comp_def]
      | percent =>
        simp only [items_ok] at hok
        have hlen : (template_text rest ++ tail).length < k := by
          simp only [template_text, List.length_append, List.length_cons] at hn ⊢
          omega
        simp only [template_text, List.cons_append, List.map_cons, item_segment]
        rw [parse_template.eq_3, ih hok tail k htail hlen]
        simp [Option.map_map, Function.comp_def]
      | conv s =>
        simp only [items_ok, Bool.and_eq_true] at hok
        have hlen : (template_text rest ++ tail).length < k := by
          have h1 := specifier_text_length s 115 (template_text rest ++ tail)
          simp only [template_text, List.cons_append, specifier_text_append,
            List.length_cons] at hn
          omega
        simp only [template_text, List.cons_append, List.map_cons, item_segment,
          specifier_text_append]
        rw [parse_template.eq_4 _ _ (specifier_text_head s 115 _ hok.1 (by decide)),
          parse_conversion_text s 115 _ hok.1
            ⟨by decide, by decide, by decide, by decide, by decide⟩]
        simp only [if_true]
        rw [ih hok.2 tail k htail hlen]
        simp [Option.map_map, Function.comp_def]

/-- The text of well-formed items parses to the segments they stand for. -/
theorem parse_template_text (items : List Item) (hok : items_ok items = true) :
    parse_template ((template_text items).length + 1) (template_text items) =
      some (items.map item_segment) := by
  have h := parse_template_items items hok [] ((template_text items).length + 1)
    (by simp) (by simp)
  simp only [List.append_nil] at h
  rw [h]
  simp [parse_template]

/-- The pieces rendered for the segments of items are the pieces section 4.3
describes. -/
theorem render_items (args : List Bytes) (items : List Item) :
    ∀ (at_arg : Nat) (pieces : List Bytes),
      render_segments args at_arg (items.map item_segment) = some pieces →
      pieces = expected_pieces args at_arg items := by
  induction items with
  | nil =>
    intro at_arg pieces h
    simp [render_segments] at h
    simp [expected_pieces, h]
  | cons i rest ih =>
    intro at_arg pieces h
    cases i with
    | text t =>
      simp only [List.map_cons, item_segment, render_segments, Option.map_eq_some'] at h
      obtain ⟨l, hl, rfl⟩ := h
      simp only [expected_pieces]
      rw [ih at_arg l hl]
    | percent =>
      simp only [List.map_cons, item_segment, render_segments, Option.map_eq_some'] at h
      obtain ⟨l, hl, rfl⟩ := h
      simp only [expected_pieces]
      rw [ih at_arg l hl]
    | conv s =>
      simp only [List.map_cons, item_segment] at h
      cases hp : s.position with
      | none =>
        have hcp : (specifier_conversion s).position = none := by
          simp [specifier_conversion, hp]
        simp only [render_segments, hcp] at h
        cases hg : args.get? at_arg with
        | none =>
          rw [hg] at h
          exact absurd h (by simp)
        | some arg =>
          rw [hg] at h
          simp only [Option.map_eq_some'] at h
          obtain ⟨l, hl, rfl⟩ := h
          simp only [expected_pieces, hp, hg, Option.getD_some]
          rw [ih (at_arg + 1) l hl, render_conversion_specifier]
      | some ds =>
        have hcp : (specifier_conversion s).position = some (digits_value ds) := by
          simp [specifier_conversion, hp]
        simp only [render_segments, hcp] at h
        by_cases hn : digits_value ds = 0
        · simp [hn] at h
        · simp only [hn, if_false] at h
          cases hg : args.get? (digits_value ds - 1) with
          | none =>
            rw [hg] at h
            exact absurd h (by simp)
          | some arg =>
            rw [hg] at h
            simp only [Option.map_eq_some'] at h
            obtain ⟨l, hl, rfl⟩ := h
            simp only [expected_pieces, hp, hg, Option.getD_some]
            rw [ih at_arg l hl, render_conversion_specifier]

theorem span_facts (p : Nat → Bool) (l : Bytes) :
    (l.span p).1 ++ (l.span p).2 = l ∧ (∀ x ∈ (l.span p).1, p x = true) ∧
    ∀ x ∈ (l.span p).2.head?, p x = false := by
  rw [List.span_eq_take_drop]
  refine ⟨List.takeWhile_append_dropWhile p l, fun x hx => List.mem_takeWhile_imp hx, ?_⟩
  induction l with
  | nil => simp
  | cons a t ih =>
    by_cases ha : p a = true
    · simpa [List.dropWhile_cons, ha] using ih
    · simp [List.dropWhile_cons, ha]

theorem specifier_ok_of_facts (s : Specifier)
    (h1 : ∀ ds, s.position = some ds → ds ≠ [] ∧ ∀ x ∈ ds, is_digit x = true)
    (h2 : ∀ x ∈ s.flags, (x == 45 || x == 32) = true) (h3 : ∀ x ∈ s.wd, is_digit x = true)
    (h4 : ∀ d, s.pd = some d → ∀ x ∈ d, is_digit x = true) : specifier_ok s = true := by
  unfold specifier_ok
  simp only [Bool.and_eq_true, List.all_eq_true]
  refine ⟨⟨⟨?_, h2⟩, h3⟩, ?_⟩
  · cases hp : s.position with
    | none => rfl
    | some ds =>
      obtain ⟨hne, hds⟩ := h1 ds hp
      simp only [Bool.and_eq_true, List.all_eq_true, Bool.not_eq_true', List.isEmpty_eq_false]
      exact ⟨hne, hds⟩
  · cases hd : s.pd with
    | none => rfl
    | some d =>
      simp only [List.all_eq_true]
      exact h4 d hd

/-- What the parser of one conversion accepts is the text of a well-formed
specifier followed by the letter `s`. -/
theorem parse_conversion_inv (s : Bytes) (c : Conversion) (rest : Bytes)
    (h : parse_conversion s = some (c, rest)) :
    ∃ sp : Specifier, specifier_ok sp = true ∧ s = specifier_text sp 115 rest ∧
      c = specifier_conversion sp := by
  unfold parse_conversion at h
  dsimp only at h
  have hp : ∀ q : Option Nat × Bytes,
      q = (match (s.span is_digit).2 with
        | 36 :: r => if (s.span is_digit).1 ≠ [] then (some (digits_value (s.span is_digit).1), r)
            else (none, s)
        | _ => (none, s)) →
      ∃ pos : Option Bytes, (∀ ds, pos = some ds → ds ≠ [] ∧ ∀ x ∈ ds, is_digit x = true) ∧
        s = position_text pos ++ q.2 ∧ q.1 = pos.map digits_value := by
    intro q hq
    have h0 := span_facts is_digit s
    split at hq
    · rename_i r heq
      split at hq
      · rename_i hne
        refine ⟨some (s.span is_digit).1, ?_, ?_, ?_⟩
        · intro ds hds
          cases hds
          exact ⟨hne, h0.2.1⟩
        · rw [hq]
          simp only [position_text, List.append_assoc, List.singleton_append]
          have := h0.1
          rw [heq] at this
          exact this.symm
        · rw [hq]
          rfl
      · exact ⟨none, (by intro ds h; cases h), (by rw [hq]; rfl), (by rw [hq]; rfl)⟩
    · exact ⟨none, (by intro ds h; cases h), (by rw [hq]; rfl), (by rw [hq]; rfl)⟩
  generalize hqdef : (match (s.span is_digit).2 with
        | 36 :: r => if (s.span is_digit).1 ≠ [] then (some (digits_value (s.span is_digit).1), r)
            else (none, s)
        | _ => (none, s)) = q at h
  obtain ⟨pos, hposok, hs, hq1⟩ := hp q hqdef.symm
  have hfl := span_facts (fun c => c == 45 || c == 32) q.2
  have hwd := span_facts is_digit (q.2.span (fun c => c == 45 || c == 32)).2
  generalize ((q.2.span (fun c => c == 45 || c == 32)).2.span is_digit) = wd at h hwd
  generalize (q.2.span (fun c => c == 45 || c == 32)) = fl at h hfl hwd
  have h3 : ∀ pr : Option Nat × Bytes,
      pr = (match wd.2 with
        | 46 :: r => (some (digits_value (r.span is_digit).1), (r.span is_digit).2)
        | _ => (none, wd.2)) →
      ∃ pd : Option Bytes, (∀ d, pd = some d → ∀ x ∈ d, is_digit x = true) ∧
        wd.2 = precision_text pd ++ pr.2 ∧ pr.1 = pd.map digits_value := by
    intro pr hpr
    split at hpr
    · rename_i r heq
      have h0 := span_facts is_digit r
      refine ⟨some (r.span is_digit).1, ?_, ?_, ?_⟩
      · intro d hd
        cases hd
        exact h0.2.1
      · rw [hpr, heq]
        simp only [precision_text, List.cons_append]
        rw [h0.1]
      · rw [hpr]
        rfl
    · exact ⟨none, (by intro d h; cases h), (by rw [hpr]; rfl), (by rw [hpr]; rfl)⟩
  generalize hprdef : (match wd.2 with
        | 46 :: r => (some (digits_value (r.span is_digit).1), (r.span is_digit).2)
        | _ => (none, wd.2)) = pr at h
  obtain ⟨pd, hpdok, hw2, hpr1⟩ := h3 pr hprdef.symm
  split at h
  · rename_i rest1 heq
    simp only [Option.some.injEq, Prod.mk.injEq] at h
    obtain ⟨hc, hrest⟩ := h
    subst hrest
    refine ⟨{ position := pos, flags := fl.1, wd := wd.1, pd := pd }, ?_, ?_, ?_⟩
    · exact specifier_ok_of_facts _ hposok hfl.2.1 hwd.2.1 hpdok
    · unfold specifier_text
      dsimp only
      rw [← heq, ← hw2, hwd.1, hfl.1]
      exact hs
    · rw [← hc]
      simp [specifier_conversion, hq1, hpr1]
  · exact absurd h (by simp)

/-- What the template parser accepts is the text of well-formed items, and the
segments are those the items stand for: a template on which the parser succeeds
consists of literal text, escapes and conversions that end in the letter
`s`. -/
theorem parse_template_complete (n : Nat) : ∀ (format : Bytes) (segments : List Segment),
    parse_template n format = some segments →
    ∃ items : List Item, items_ok items = true ∧ template_text items = format ∧
      items.map item_segment = segments := by
  induction n with
  | zero =>
    intro format segments h
    simp [parse_template] at h
  | succ n ih =>
    intro format segments h
    cases format with
    | nil =>
      rw [parse_template.eq_2] at h
      cases h
      exact ⟨[], rfl, rfl, rfl⟩
    | cons c rest =>
      by_cases hc37 : c = 37
      · subst hc37
        have hconv : (match parse_conversion rest with
            | none => none
            | some r => (parse_template n r.2).map (fun l => Segment.conversion r.1 :: l)) =
            some segments →
            ∃ items : List Item, items_ok items = true ∧ template_text items = 37 :: rest ∧
              items.map item_segment = segments := by
          intro h
          cases hpc : parse_conversion rest with
          | none =>
            rw [hpc] at h
            exact absurd h (by simp)
          | some r =>
            rw [hpc] at h
            simp only [Option.map_eq_some'] at h
            obtain ⟨l, hl, rfl⟩ := h
            obtain ⟨sp, hsp, hrest, hcv⟩ := parse_conversion_inv rest r.1 r.2 hpc
            obtain ⟨items, hok, htext, hseg⟩ := ih r.2 l hl
            refine ⟨Item.conv sp :: items, ?_, ?_, ?_⟩
            · simp [items_ok, hsp, hok]
            · simp only [template_text, htext]
              rw [← hrest]
            · simp [item_segment, hseg, hcv]
        cases rest with
        | nil =>
          rw [parse_template.eq_4 _ _ (by intro r h; cases h)] at h
          exact hconv h
        | cons d rest2 =>
          by_cases hd37 : d = 37
          · subst hd37
            rw [parse_template.eq_3] at h
            simp only [Option.map_eq_some'] at h
            obtain ⟨l, hl, rfl⟩ := h
            obtain ⟨items, hok, htext, hseg⟩ := ih rest2 l hl
            exact ⟨Item.percent :: items, by simp [items_ok, hok],
              by simp [template_text, htext], by simp [item_segment, hseg]⟩
          · rw [parse_template.eq_4 _ _ (by intro r h; simp at h; exact hd37 h.1)] at h
            exact hconv h
      · rw [parse_template.eq_5 _ _ _ (by intro r h; exact absurd h hc37) hc37] at h
        simp only [Option.map_eq_some'] at h
        obtain ⟨l, hl, rfl⟩ := h
        obtain ⟨items, hok, htext, hseg⟩ := ih _ l hl
        have hsp := span_facts (fun x => x != 37) (c :: rest)
        have hne : ((c :: rest).span (fun x => x != 37)).1 ≠ [] := by
          rw [List.span_eq_take_drop]
          simp [List.takeWhile_cons, hc37]
        have hst : starts_with_text items = false := by
          cases items with
          | nil => rfl
          | cons i tl =>
            cases i with
            | text t =>
              exfalso
              simp only [items_ok, Bool.and_eq_true, Bool.not_eq_true', List.all_eq_true,
                bne_iff_ne, ne_eq] at hok
              obtain ⟨⟨⟨ht1, ht2⟩, _⟩, _⟩ := hok
              cases t with
              | nil => simp at ht1
              | cons x xs =>
                have hx := ht2 x (by simp)
                have hhead := hsp.2.2 x (by rw [← htext]; simp [template_text])
                simp at hhead
                exact hx hhead
            | percent => rfl
            | conv s => rfl
        refine ⟨Item.text ((c :: rest).span (fun x => x != 37)).1 :: items, ?_, ?_, ?_⟩
        · simp only [items_ok, Bool.and_eq_true, Bool.not_eq_true', List.all_eq_true,
            List.isEmpty_eq_false]
          exact ⟨⟨⟨hne, hsp.2.1⟩, hst⟩, hok⟩
        · simp only [template_text, htext]
          exact hsp.1
        · simp [item_segment, hseg]

/-- C12: in every template the pieces `safe_format_string_cb` emits are, for
each string conversion (with or without a position, anywhere in the template),
the padded text of its argument, and the literal text in between.  A template
made of literal text, escapes and well-formed string conversions parses to the
segments of its items; when the positions of its conversions lie within the
arguments and are pairwise different, the call succeeds with the pieces of
section 4.3; and whenever it succeeds, these are its pieces.  Every template on
which the call succeeds is made of such items, and its pieces are those of
section 4.3.  The padded text of an argument `a` is `t` padded with spaces to
the length `max W (length t)`, where `t` is the first `min P (length a)` bytes
of `a` (all of `a` without a precision, nothing for a precision of no digits or
of the digit 0); the padding is on the right exactly when the minus flag is
present, and without a width nothing is added. -/
theorem string_conversion_text (args : List Bytes) :
    (∀ items : List Item, items_ok items = true →
      parse_template ((template_text items).length + 1) (template_text items) =
        some (items.map item_segment) ∧
      ((∀ p ∈ conversion_positions 0 (items.map item_segment), 1 ≤ p ∧ p ≤ args.length) →
        (conversion_positions 0 (items.map item_segment)).Nodup →
        safe_format_pieces (template_text items) args = some (expected_pieces args 0 items)) ∧
      (∀ pieces, safe_format_pieces (template_text items) args = some pieces →
        pieces = expected_pieces args 0 items)) ∧
    (∀ (format : Bytes) (pieces : List Bytes),
      safe_format_pieces format args = some pieces →
      ∃ items : List Item, items_ok items = true ∧ template_text items = format ∧
        pieces = expected_pieces args 0 items) ∧
    (∀ (flags wd : Bytes) (pd : Option Bytes) (a : Bytes),
      (padded_text flags wd pd a).length = max (digits_value wd) (precision_cut pd a).length ∧
      (flags.contains 45 = true →
        padded_text flags wd pd a = precision_cut pd a ++
          List.replicate (digits_value wd - (precision_cut pd a).length) 32) ∧
      (flags.contains 45 = false →
        padded_text flags wd pd a =
          List.replicate (digits_value wd - (precision_cut pd a).length) 32 ++
            precision_cut pd a) ∧
      (pd = none → precision_cut pd a = a) ∧
      (pd = some [] ∨ pd = some [48] → precision_cut pd a = []) ∧
      (∀ d, pd = some d → precision_cut pd a = a.take (min (digits_value d) a.length)) ∧
      (wd = [] → padded_text flags wd pd a = precision_cut pd a)) := by
  refine ⟨?_, ?_, ?_⟩
  · intro items hok
    have hparse := parse_template_text items hok
    have hcond : ∀ pieces, safe_format_pieces (template_text items) args = some pieces →
        pieces = expected_pieces args 0 items := by
      intro pieces hp
      unfold safe_format_pieces at hp
      rw [hparse] at hp
      dsimp only at hp
      split at hp
      · exact render_items args items 0 pieces hp
      · exact absurd hp (by simp)
    refine ⟨hparse, ?_, hcond⟩
    intro hpos hdup
    obtain ⟨pieces, hp⟩ := format_pieces_some_of_positions (template_text items) args
      (items.map item_segment) hparse hpos hdup
    rw [hp, hcond pieces hp]
  · intro format pieces hp
    unfold safe_format_pieces at hp
    cases hparse : parse_template (format.length + 1) format with
    | none =>
      rw [hparse] at hp
      exact absurd hp (by simp)
    | some segments =>
      rw [hparse] at hp
      dsimp only at hp
      obtain ⟨items, hok, htext, hseg⟩ := parse_template_complete _ format segments hparse
      refine ⟨items, hok, htext, ?_⟩
      split at hp
      · rw [← hseg] at hp
        exact render_items args items 0 pieces hp
      · exact absurd hp (by simp)
  · intro flags wd pd a
    have hpad : max (digits_value wd) (precision_cut pd a).length -
        (precision_cut pd a).length = digits_value wd - (precision_cut pd a).length := by omega
    refine ⟨?_, ?_, ?_, ?_, ?_, ?_, ?_⟩
    · unfold padded_text
      dsimp only
      split <;> simp
    · intro h
      unfold padded_text
      dsimp only
      rw [if_pos h, hpad]
    · intro h
      unfold padded_text
      dsimp only
      rw [if_neg (by rw [h]; decide), hpad]
    · intro h
      subst h
      rfl
    · intro h
      rcases h with h | h <;> subst h <;> simp [precision_cut, digits_value]
    · intro d h
      subst h
      rfl
    · intro h
      subst h
      unfold padded_text
      simp [digits_value]

/-- Fixtures of `test-safe-format.c`: "whoop %-8s doo" with "dee" gives "dee"
followed by five spaces between the two literal runs; "whoop %.3s doo" cuts
"deedle-dee" to "dee"; "space %2$s %1$s" takes its arguments by position; and
in "%s|% 8.3s" the second conversion takes the second argument, cut to three
bytes and padded on the left. -/
theorem string_conversion_text_witness :
    safe_format_pieces (ascii "whoop %-8s doo") [ascii "dee"] =
      some [ascii "whoop ", ascii "dee     ", ascii " doo"] ∧
    safe_format_pieces (ascii "whoop %.3s doo") [ascii "deedle-dee"] =
      some [ascii "whoop ", ascii "dee", ascii " doo"] ∧
    safe_format_pieces (ascii "space %2$s %1$s") [ascii "dances", ascii "man"] =
      some [ascii "space ", ascii "man", ascii " ", ascii "dances"] ∧
    safe_format_pieces (ascii "%s|% 8.3s") [ascii "a", ascii "deedle-dee"] =
      some [ascii "a", ascii "|", ascii "     dee"] :=
  ⟨((string_conversion_text [ascii "dee"]).1
      [Item.text (ascii "whoop "),
        Item.conv { position := none, flags := [45], wd := [56], pd := none },
        Item.text (ascii " doo")]
      (by decide)).2.1 (by decide) (by decide),
    ((string_conversion_text [ascii "deedle-dee"]).1
      [Item.text (ascii "whoop "),
        Item.conv { position := none, flags := [], wd := [], pd := some [51] },
        Item.text (ascii " doo")]
      (by decide)).2.1 (by decide) (by decide),
    ((string_conversion_text [ascii "dances", ascii "man"]).1
      [Item.text (ascii "space "),
        Item.conv { position := some [50], flags := [], wd := [], pd := none },
        Item.text (ascii " "),
        Item.conv { position := some [49], flags := [], wd := [], pd := none }]
      (by decide)).2.1 (by decide) (by decide),
    ((string_conversion_text [ascii "a", ascii "deedle-dee"]).1
      [Item.conv { position := none, flags := [], wd := [], pd := none },
        Item.text (ascii "|"),
        Item.conv { position := none, flags := [32], wd := [56], pd := some [51] }]
      (by decide)).2.1 (by decide) (by decide)⟩

theorem letter_facts (c : Nat) (h : is_letter c = true) :
    is_digit c = false ∧ c ≠ 45 ∧ c ≠ 32 ∧ c ≠ 46 ∧ c ≠ 36 ∧ c ≠ 37 := by
  simp only [is_letter, Bool.or_eq_true, Bool.and_eq_true, decide_eq_true_eq] at h
  have hd : is_digit c = false := by
    simp only [is_digit, Bool.and_eq_false_iff, decide_eq_false_iff_not, not_le]
    omega
  exact ⟨hd, by omega, by omega, by omega, by omega, by omega⟩

/-- A well-formed specifier that ends in a letter other than `s`, after any
well-formed items, makes the template parser fail. -/
theorem parse_template_bad_letter (items : List Item) (s : Specifier) (c : Nat)
    (rest : Bytes) (hok : items_ok items = true) (hs : specifier_ok s = true)
    (hc : is_letter c = true) (h115 : c ≠ 115) :
    parse_template ((template_text items ++ 37 :: specifier_text s c rest).length + 1)
      (template_text items ++ 37 :: specifier_text s c rest) = none := by
  obtain ⟨l1, l2, l3, l4, l5, l6⟩ := letter_facts c hc
  rw [parse_template_items items hok (37 :: specifier_text s c rest) _ (by simp) (by omega)]
  have hlen : (37 :: specifier_text s c rest).length + 1 =
      ((specifier_text s c rest).length + 1) + 1 := by simp
  rw [hlen, parse_template.eq_4 _ _ (specifier_text_head s c rest hs l6),
    parse_conversion_text s c rest hs ⟨l1, l2, l3, l4, l5⟩, if_neg h115]
  rfl

/-- C13: the formatter returns a negative value when the position of some
conversion of the parsed template is 0 or beyond the number of arguments, be
the position written in the conversion or assigned in left-to-right order
starting at 1, and when a conversion anywhere in the template, after any
literal text, escapes and string conversions, with or without a position of
its own, ends in a letter other than `s`; so does the bounded formatter.  A
template on which the formatter does not fail consists of literal text, escapes
and conversions that end in the letter `s`, and of nothing else. -/
theorem bad_position_or_letter_fails (args : List Bytes) :
    (∀ (format : Bytes) (segments : List Segment),
      parse_template (format.length + 1) format = some segments →
      (∃ p ∈ conversion_positions 0 segments, p = 0 ∨ args.length < p) →
      safe_format_string_cb format args < 0 ∧
        ∀ (str : Bytes) (len : Nat), (safe_format_string str len format args).1 < 0) ∧
    (∀ (items : List Item) (s : Specifier) (c : Nat) (rest : Bytes),
      items_ok items = true → specifier_ok s = true → is_letter c = true → c ≠ 115 →
      safe_format_string_cb (template_text items ++ 37 :: specifier_text s c rest) args < 0 ∧
      ∀ (str : Bytes) (len : Nat), (safe_format_string str len
        (template_text items ++ 37 :: specifier_text s c rest) args).1 < 0) ∧
    (∀ format : Bytes, 0 ≤ safe_format_string_cb format args →
      ∃ items : List Item, items_ok items = true ∧ template_text items = format) := by
  refine ⟨?_, ?_, ?_⟩
  · intro format segments hparse hbad
    have hnone : safe_format_pieces format args = none := by
      unfold safe_format_pieces
      rw [hparse]
      dsimp only
      cases hr : render_segments args 0 segments with
      | none => simp
      | some pieces =>
        have hall := (render_segments_some_iff args segments 0).mp (by rw [hr]; rfl)
        obtain ⟨p, hp, hp0⟩ := hbad
        have := hall p hp
        omega
    refine ⟨by simp [safe_format_string_cb, hnone], fun str len => ?_⟩
    simp [safe_format_string, hnone]
  · intro items s c rest hok hs hc h115
    have hnone : safe_format_pieces
        (template_text items ++ 37 :: specifier_text s c rest) args = none := by
      unfold safe_format_pieces
      rw [parse_template_bad_letter items s c rest hok hs hc h115]
    refine ⟨by simp [safe_format_string_cb, hnone], fun str len => ?_⟩
    simp [safe_format_string, hnone]
  · intro format h
    cases hparse : parse_template (format.length + 1) format with
    | none =>
      exfalso
      simp [safe_format_string_cb, safe_format_pieces, hparse] at h
    | some segments =>
      obtain ⟨items, hok, htext, _⟩ := parse_template_complete _ format segments hparse
      exact ⟨items, hok, htext⟩

/-- The failing calls of `test-safe-format.c`: "space %0$s dances" and
"space %55$s dances" with two arguments, "%5$s" with none, "%s %s dances" with
one argument, and "%x"; and two more with a conversion letter other than `s`:
"%s %x", where the conversion follows another one, and "%1$x", where it has a
position. -/
theorem bad_position_or_letter_fails_witness :
    safe_format_string_cb (ascii "space %0$s dances") [ascii "dances", ascii "man"] < 0 ∧
    safe_format_string_cb (ascii "space %55$s dances") [ascii "dances", ascii "man"] < 0 ∧
    (safe_format_string (List.replicate 8 0) 8 (ascii "%5$s") []).1 < 0 ∧
    safe_format_string_cb (ascii "%s %s dances") [ascii "space"] < 0 ∧
    safe_format_string_cb (ascii "%x") [ascii "blah"] < 0 ∧
    safe_format_string_cb (ascii "%s %x") [ascii "blah", ascii "blah"] < 0 ∧
    safe_format_string_cb (ascii "%1$x") [ascii "blah"] < 0 :=
  ⟨((bad_position_or_letter_fails [ascii "dances", ascii "man"]).1 (ascii "space %0$s dances")
      [Segment.literal (ascii "space "),
        Segment.conversion { position := some 0, left := false, width := none, precision := none },
        Segment.literal (ascii " dances")]
      (by decide) ⟨0, by decide, by decide⟩).1,
    ((bad_position_or_letter_fails [ascii "dances", ascii "man"]).1 (ascii "space %55$s dances")
      [Segment.literal (ascii "space "),
        Segment.conversion { position := some 55, left := false, width := none, precision := none },
        Segment.literal (ascii " dances")]
      (by decide) ⟨55, by decide, by decide⟩).1,
    ((bad_position_or_letter_fails []).1 (ascii "%5$s")
      [Segment.conversion { position := some 5, left := false, width := none, precision := none }]
      (by decide) ⟨5, by decide, by decide⟩).2 (List.replicate 8 0) 8,
    ((bad_position_or_letter_fails [ascii "space"]).1 (ascii "%s %s dances")
      [Segment.conversion { position := none, left := false, width := none, precision := none },
        Segment.literal (ascii " "),
        Segment.conversion { position := none, left := false, width := none, precision := none },
        Segment.literal (ascii " dances")]
      (by decide) ⟨2, by decide, by decide⟩).1,
    ((bad_position_or_letter_fails [ascii "blah"]).2.1 []
      { position := none, flags := [], wd := [], pd := none } 120 []
      (by decide) (by decide) (by decide) (by decide)).1,
    ((bad_position_or_letter_fails [ascii "blah", ascii "blah"]).2.1
      [Item.conv { position := none, flags := [], wd := [], pd := none }, Item.text (ascii " ")]
      { position := none, flags := [], wd := [], pd := none } 120 []
      (by decide) (by decide) (by decide) (by decide)).1,
    ((bad_position_or_letter_fails [ascii "blah"]).2.1 []
      { position := some [49], flags := [], wd := [], pd := none } 120 []
      (by decide) (by decide) (by decide) (by decide)).1⟩

theorem emit_foldl (σ : Type) (cb : σ → Bytes → σ) (pieces : List Bytes) :
    ∀ (n : Int) (d : σ),
      (pieces.foldl (fun st piece => (st.1 + (piece.length : Int), cb st.2 piece)) (n, d)).1 =
        n + (pieces.flatten.length : Int) := by
  induction pieces with
  | nil => intro n d; simp
  | cons x rest ih =>
    intro n d
    simp only [List.foldl_cons, List.flatten_cons, List.length_append, Nat.cast_add]
    rw [ih]
    omega

theorem emit_foldl_callback (pieces : List Bytes) :
    ∀ (n : Int) (d : Bytes),
      (pieces.foldl (fun st piece => (st.1 + (piece.length : Int), callback st.2 piece)) (n, d)).2 =
        d ++ pieces.flatten := by
  induction pieces with
  | nil => intro n d; simp
  | cons x rest ih =>
    intro n d
    simp only [List.foldl_cons, List.flatten_cons]
    rw [ih]
    simp [callback]

theorem parse_template_percent (pre rest : Bytes) (hpre : ∀ x ∈ pre, x ≠ 37) :
    parse_template ((pre ++ 37 :: 37 :: rest).length + 1) (pre ++ 37 :: 37 :: rest) =
      (parse_template (rest.length + 1) rest).map
        (fun l => (if pre = [] then [] else [Segment.literal pre]) ++ Segment.literal [37] :: l) := by
  have hpp : ∀ k, rest.length < k → parse_template (k + 1) (37 :: 37 :: rest) =
      (parse_template (rest.length + 1) rest).map (fun l => Segment.literal [37] :: l) := by
    intro k hk
    rw [parse_template.eq_3, parse_template_fuel k rest (rest.length + 1) hk (by omega)]
  cases pre with
  | nil =>
    rw [List.nil_append, hpp _ (by simp only [List.length_cons]; omega)]
    simp
  | cons x xs =>
    have hx : x ≠ 37 := hpre x (by simp)
    have hspan : List.span (fun y => y != 37) (x :: (xs ++ 37 :: 37 :: rest)) =
        (x :: xs, 37 :: 37 :: rest) := by
      have := span_append_stop (fun y => y != 37) (x :: xs) (37 :: 37 :: rest)
        (by intro y hy; simpa using hpre y hy) (by simp)
      simpa using this
    rw [List.cons_append, parse_template.eq_5 _ _ _ (fun _ h _ => hx h) hx, hspan]
    dsimp only
    have hlen : (x :: (xs ++ 37 :: 37 :: rest)).length = (xs.length + rest.length + 2) + 1 := by
      simp
      omega
    rw [hlen, hpp _ (by omega)]
    simp [Option.map_map, Function.comp_def]

theorem render_segments_literal (args : List Bytes) (text : Bytes) (rest : List Segment)
    (at_arg : Nat) :
    render_segments args at_arg (Segment.literal text :: rest) =
      (render_segments args at_arg rest).map (fun l => text :: l) := by
  simp [render_segments]

theorem format_pieces_percent (pre rest : Bytes) (args : List Bytes)
    (hpre : ∀ x ∈ pre, x ≠ 37) :
    (safe_format_pieces (pre ++ 37 :: 37 :: rest) args).map List.flatten =
      (safe_format_pieces rest args).map (fun l => pre ++ 37 :: l.flatten) := by
  unfold safe_format_pieces
  rw [parse_template_percent pre rest hpre]
  cases hparse : parse_template (rest.length + 1) rest with
  | none => rfl
  | some segments =>
    simp only [Option.map_some']
    by_cases hp : pre = []
    · subst hp
      simp only [if_true, List.nil_append, render_segments_literal, conversion_positions]
      by_cases hdup : (conversion_positions 0 segments).Nodup
      · simp only [hdup, if_true]
        cases render_segments args 0 segments <;> simp
      · simp [hdup]
    · simp only [hp, if_false, List.singleton_append, render_segments_literal,
        conversion_positions]
      by_cases hdup : (conversion_positions 0 segments).Nodup
      · simp only [hdup, if_true]
        cases render_segments args 0 segments <;> simp
      · simp [hdup]

/-- C14: with the callback of the test, which appends each piece to a string,
a successful `safe_format_string_cb` returns a non-negative value equal to the
length of what the callback received, the concatenation of the pieces; a
failing call returns a negative value and hands nothing to the callback; and
the escape of two percent signs after literal text adds to the output exactly
one percent byte. -/
theorem format_return_counts_bytes (format : Bytes) (args : List Bytes) (data : Bytes) :
    (safe_format_string_cb_with callback data format args).1 =
      safe_format_string_cb format args ∧
    (∀ pieces, safe_format_pieces format args = some pieces →
      0 ≤ (safe_format_string_cb_with callback data format args).1 ∧
      (safe_format_string_cb_with callback data format args).2 = data ++ pieces.flatten ∧
      ((safe_format_string_cb_with callback data format args).1 : Int) + (data.length : Int) =
        ((safe_format_string_cb_with callback data format args).2.length : Int)) ∧
    (safe_format_pieces format args = none →
      (safe_format_string_cb_with callback data format args).1 < 0 ∧
      (safe_format_string_cb_with callback data format args).2 = data) ∧
    (∀ pre : Bytes, (∀ x ∈ pre, x ≠ 37) →
      (safe_format_pieces (pre ++ 37 :: 37 :: format) args).map List.flatten =
        (safe_format_pieces format args).map (fun l => pre ++ 37 :: l.flatten)) := by
  refine ⟨?_, ?_, ?_, ?_⟩
  · unfold safe_format_string_cb_with safe_format_string_cb
    cases safe_format_pieces format args with
    | none => rfl
    | some pieces =>
      dsimp only
      rw [emit_foldl]
      simp
  · intro pieces hp
    unfold safe_format_string_cb_with
    rw [hp]
    dsimp only
    rw [emit_foldl, emit_foldl_callback]
    refine ⟨by omega, rfl, ?_⟩
    simp only [List.length_append, Nat.cast_add]
    omega
  · intro hp
    unfold safe_format_string_cb_with
    rw [hp]
    exact ⟨by show (-1 : Int) < 0; decide, rfl⟩
  · intro pre hpre
    exact format_pieces_percent pre format args hpre

/-- The fixture "Literal percent": "100%% of space folk dance" without
arguments gives "100% of space folk dance", 24 bytes, and the return value
24. -/
theorem format_return_counts_bytes_witness :
    (safe_format_string_cb_with callback [] (ascii "100%% of space folk dance") []).2 =
      ascii "100% of space folk dance" ∧
    (safe_format_string_cb_with callback [] (ascii "100%% of space folk dance") []).1 = 24 :=
  ⟨((format_return_counts_bytes (ascii "100%% of space folk dance") [] []).2.1
      [ascii "100", ascii "%", ascii " of space folk dance"] (by decide)).2.1,
    by
      have h := ((format_return_counts_bytes (ascii "100%% of space folk dance") [] []).2.1
        [ascii "100", ascii "%", ascii " of space folk dance"] (by decide)).2.2
      revert h
      decide⟩

theorem sink_calls_append (invocation : Option Nat) (a b : List Bytes) :
    sink_calls invocation (a ++ b) = sink_calls invocation a ++ sink_calls invocation b := by
  simp [sink_calls]

theorem sink_calls_singleton (invocation : Option Nat) (b : Bytes) (h : 0 < b.length) :
    sink_calls invocation [b] = [(invocation, b)] := by
  unfold sink_calls
  have hd : decide (0 < b.length) = true := decide_eq_true h
  simp only [List.filter, hd, List.map]

theorem sink_calls_empty_chunk (invocation : Option Nat) :
    sink_calls invocation [[]] = [] := by
  rfl

theorem chunks_read_full (bytes : Bytes) (rest : List ReadResult)
    (hfull : (List.take BLOCK_SIZE bytes).length = BLOCK_SIZE) :
    chunks_read (ReadResult.data bytes :: rest) = List.take BLOCK_SIZE bytes :: chunks_read rest := by
  have h : is_full_block (ReadResult.data bytes) = true := by
    simp only [is_full_block, hfull, decide_True]
  unfold chunks_read
  rw [List.takeWhile_cons_of_pos h, List.dropWhile_cons_of_pos h]
  rfl

theorem chunks_read_short (bytes : Bytes) (rest : List ReadResult)
    (hfull : ¬ (List.take BLOCK_SIZE bytes).length = BLOCK_SIZE) :
    chunks_read (ReadResult.data bytes :: rest) = [List.take BLOCK_SIZE bytes] := by
  have h : ¬ is_full_block (ReadResult.data bytes) = true := by
    simp only [is_full_block, hfull, decide_False, Bool.false_eq_true, not_false_eq_true]
  unfold chunks_read
  rw [List.takeWhile_cons_of_neg h, List.dropWhile_cons_of_neg h]
  rfl

theorem chunks_read_fail (errno : Nat) (rest : List ReadResult) :
    chunks_read (ReadResult.fail errno :: rest) = [] := by
  have h : ¬ is_full_block (ReadResult.fail errno) = true := by
    simp only [is_full_block, Bool.false_eq_true, not_false_eq_true]
  unfold chunks_read
  rw [List.takeWhile_cons_of_neg h, List.dropWhile_cons_of_neg h]
  rfl

/-- What one run of the loop of `read_output` does to the traces and to the
accumulator. -/
theorem read_output_loop_trace (reads : List ReadResult) :
    ∀ w : World,
      (read_output_loop reads w).1.received = w.received ++ chunks_read reads ∧
      (read_output_loop reads w).1.ps.command.output =
        w.ps.command.output ++ (chunks_read reads).flatten ∧
      (read_output_loop reads w).1.diag =
        w.diag ++ sink_calls w.ps.command.invocation (chunks_read reads) ∧
      (read_output_loop reads w).1.ps.command.invocation = w.ps.command.invocation := by
  induction reads with
  | nil => intro w; simp [read_output_loop, chunks_read, sink_calls]
  | cons r rest ih =>
    intro w
    cases r with
    | fail errno =>
      rw [chunks_read_fail]
      simp only [read_output_loop]
      split <;> simp [sink_calls]
    | data bytes =>
      simp only [read_output_loop]
      by_cases hfull : (List.take BLOCK_SIZE bytes).length = BLOCK_SIZE
      · have hpos : 0 < (List.take BLOCK_SIZE bytes).length := by
          rw [hfull]; decide
        rw [if_pos hfull, if_pos hpos, chunks_read_full bytes rest hfull]
        obtain ⟨i1, i2, i3, i4⟩ := ih
          { w with
            received := w.received ++ [List.take BLOCK_SIZE bytes],
            diag := w.diag ++ [(w.ps.command.invocation, List.take BLOCK_SIZE bytes)],
            ps := { w.ps with command := { w.ps.command with
              output := w.ps.command.output ++ List.take BLOCK_SIZE bytes } } }
        refine ⟨?_, ?_, ?_, ?_⟩
        · rw [i1]
          exact List.append_assoc _ _ _
        · rw [i2, List.flatten_cons]
          exact List.append_assoc _ _ _
        · rw [i3, show List.take BLOCK_SIZE bytes :: chunks_read rest =
            [List.take BLOCK_SIZE bytes] ++ chunks_read rest from rfl, sink_calls_append,
            sink_calls_singleton _ _ hpos]
          exact List.append_assoc _ _ _
        · rw [i4]
      · rw [if_neg hfull, chunks_read_short bytes rest hfull]
        by_cases hpos : 0 < (List.take BLOCK_SIZE bytes).length
        · rw [if_pos hpos, sink_calls_singleton _ _ hpos]
          exact ⟨rfl, by rw [List.flatten_cons, List.flatten_nil, List.append_nil], rfl, rfl⟩
        · rw [if_neg hpos]
          have hnil : List.take BLOCK_SIZE bytes = [] :=
            List.eq_nil_of_length_eq_zero (by omega)
          rw [hnil, sink_calls_empty_chunk]
          exact ⟨rfl, by simp, by simp, rfl⟩

theorem read_fails_iff (reads : List ReadResult) :
    read_fails reads = true ↔
      ∃ errno, (reads.dropWhile is_full_block).head? = some (ReadResult.fail errno) ∧
        errno ≠ EINTR ∧ errno ≠ EAGAIN := by
  induction reads with
  | nil => simp [read_fails]
  | cons r rest ih =>
    cases r with
    | fail errno =>
      have h : ¬ is_full_block (ReadResult.fail errno) = true := by
        simp only [is_full_block, Bool.false_eq_true, not_false_eq_true]
      rw [List.dropWhile_cons_of_neg h]
      simp [read_fails]
    | data bytes =>
      by_cases hfull : (List.take BLOCK_SIZE bytes).length = BLOCK_SIZE
      · have h : is_full_block (ReadResult.data bytes) = true := by
          simp only [is_full_block, hfull, decide_True]
        rw [List.dropWhile_cons_of_pos h]
        simp only [read_fails, hfull, if_true]
        exact ih
      · have h : ¬ is_full_block (ReadResult.data bytes) = true := by
          simp only [is_full_block, hfull, decide_False, Bool.false_eq_true, not_false_eq_true]
        rw [List.dropWhile_cons_of_neg h]
        simp only [read_fails, hfull, if_false]
        simp

theorem sink_calls_bytes (invocation : Option Nat) (chunks : List Bytes) :
    ((sink_calls invocation chunks).map Prod.snd).flatten = chunks.flatten := by
  induction chunks with
  | nil => rfl
  | cons b rest ih =>
    rw [show b :: rest = [b] ++ rest from rfl, sink_calls_append, List.map_append,
      List.flatten_append, ih, List.flatten_append]
    congr 1
    by_cases h : 0 < b.length
    · rw [sink_calls_singleton _ _ h]
      rfl
    · have hnil : b = [] := List.eq_nil_of_length_eq_zero (by omega)
      subst hnil
      rfl

theorem handlers_same_sink_calls (w : World) (fd_out fd_err : Int) (reads : List ReadResult)
    (h1 : 0 ≤ fd_out) (h2 : 0 ≤ fd_err) :
    (on_process_source_output w fd_out reads).1.diag =
      w.diag ++ sink_calls w.ps.command.invocation (chunks_read reads) ∧
    (on_process_source_error w fd_err reads).1.diag =
      w.diag ++ sink_calls w.ps.command.invocation (chunks_read reads) := by
  have ht := (read_output_loop_trace reads w).2.2.1
  unfold on_process_source_output on_process_source_error
  rw [read_output_open w fd_out reads h1, read_output_open w fd_err reads h2]
  dsimp only
  refine ⟨?_, ?_⟩
  · split
    · exact ht
    · exact ht
  · split
    · exact ht
    · exact ht

/-- C15 (counterexample): in the example invocation the byte `x` read from
stdout (descriptor 4) and the same byte read from stderr (descriptor 5) lead to
the same call of the diagnostics sink, the invocation and the byte, so the two
calls cannot be told apart. -/
theorem sink_call_carries_no_stream_identity :
    ¬ (∀ (w : World) (fd_out fd_err : Int) (reads : List ReadResult),
        0 ≤ fd_out → 0 ≤ fd_err →
        sink_calls w.ps.command.invocation (chunks_read reads) ≠ [] →
        (on_process_source_output w fd_out reads).1.diag ≠
          (on_process_source_error w fd_err reads).1.diag) := by
  intro h
  exact h (example_world none Cancellable.absent) 4 5 [ReadResult.data (ascii "x")]
    (by decide) (by decide) (by decide) (by decide)

/-- C15 (amended): every chunk read is forwarded to the diagnostics sink with
the invocation and the bytes only: the calls made for a sequence of reads on
stdout are the same as the calls made for the same reads on stderr, one call
for each chunk read that is not empty. -/
theorem sink_calls_untagged (w : World) (fd_out fd_err : Int) (reads : List ReadResult)
    (h1 : 0 ≤ fd_out) (h2 : 0 ≤ fd_err) :
    (on_process_source_output w fd_out reads).1.diag =
      (on_process_source_error w fd_err reads).1.diag ∧
    (on_process_source_output w fd_out reads).1.diag =
      w.diag ++ sink_calls w.ps.command.invocation (chunks_read reads) := by
  have h := handlers_same_sink_calls w fd_out fd_err reads h1 h2
  exact ⟨h.1.trans h.2.symm, h.1⟩

/-- The example invocation reading `x` on stdout (descriptor 4) and on stderr
(descriptor 5): the sink is called with the same arguments. -/
theorem sink_calls_untagged_witness :
    (on_process_source_output (example_world none Cancellable.absent) 4
      [ReadResult.data (ascii "x")]).1.diag = [(none, ascii "x")] ∧
    (on_process_source_error (example_world none Cancellable.absent) 5
      [ReadResult.data (ascii "x")]).1.diag = [(none, ascii "x")] :=
  ⟨(sink_calls_untagged (example_world none Cancellable.absent) 4 5
      [ReadResult.data (ascii "x")] (by decide) (by decide)).2,
    ((sink_calls_untagged (example_world none Cancellable.absent) 4 5
      [ReadResult.data (ascii "x")] (by decide) (by decide)).1.symm.trans
     (sink_calls_untagged (example_world none Cancellable.absent) 4 5
      [ReadResult.data (ascii "x")] (by decide) (by decide)).2)⟩

theorem read_output_loop_stops (pre : List ReadResult) (x : ReadResult)
    (post : List ReadResult) (hx : is_full_block x = false)
    (hpre : ∀ y ∈ pre, is_full_block y = true) :
    ∀ w : World, read_output_loop (pre ++ x :: post) w = read_output_loop (pre ++ [x]) w := by
  induction pre with
  | nil =>
    intro w
    cases x with
    | fail errno => simp [read_output_loop]
    | data bytes =>
      have hn : ¬ (List.take BLOCK_SIZE bytes).length = BLOCK_SIZE := by
        intro h
        simp only [is_full_block, h, decide_True] at hx
        exact absurd hx (by decide)
      simp only [List.nil_append, read_output_loop, if_neg hn]
  | cons y rest ih =>
    intro w
    have hy := hpre y (by simp)
    cases y with
    | fail errno => simp [is_full_block] at hy
    | data bytes =>
      have hf : (List.take BLOCK_SIZE bytes).length = BLOCK_SIZE := by
        simpa only [is_full_block, decide_eq_true_eq] using hy
      simp only [List.cons_append, read_output_loop, if_pos hf]
      exact ih (fun z hz => hpre z (by simp [hz])) _

/-- C18: one call of `read_output` on an open descriptor reads the leading
full blocks and the first answer that is not a full block, and nothing after
it; what it appends to the accumulator is the concatenation of the chunks read,
in order, and equals the bytes of its calls of the diagnostics sink; it returns
FALSE exactly when the answer that ends the reading is a failure with an
`errno` other than `EINTR` and `EAGAIN`, and the chunks appended before stay. -/
theorem read_output_drains (w : World) (fd : Int) (reads : List ReadResult) (hfd : 0 ≤ fd) :
    (read_output w fd reads).1.received = w.received ++ chunks_read reads ∧
    (read_output w fd reads).1.ps.command.output =
      w.ps.command.output ++ (chunks_read reads).flatten ∧
    (read_output w fd reads).1.diag =
      w.diag ++ sink_calls w.ps.command.invocation (chunks_read reads) ∧
    ((sink_calls w.ps.command.invocation (chunks_read reads)).map Prod.snd).flatten =
      (chunks_read reads).flatten ∧
    ((read_output w fd reads).2 = false ↔
      ∃ errno, (reads.dropWhile is_full_block).head? = some (ReadResult.fail errno) ∧
        errno ≠ EINTR ∧ errno ≠ EAGAIN) ∧
    (∀ (pre : List ReadResult) (x : ReadResult) (post : List ReadResult),
      reads = pre ++ x :: post → is_full_block x = false →
      (∀ y ∈ pre, is_full_block y = true) →
      read_output w fd reads = read_output w fd (pre ++ [x]) ∧
      chunks_read reads = pre.map block_of ++ chunks_read [x]) := by
  have ht := read_output_loop_trace reads w
  rw [read_output_open w fd reads hfd]
  refine ⟨ht.1, ht.2.1, ht.2.2.1, sink_calls_bytes _ _, ?_, ?_⟩
  · rw [(read_output_loop_result reads w).1, ← read_fails_iff]
    cases read_fails reads <;> simp
  · intro pre x post hr hx hpre
    subst hr
    refine ⟨?_, ?_⟩
    · rw [read_output_open w fd _ hfd]
      exact read_output_loop_stops pre x post hx hpre w
    · unfold chunks_read
      have hxn : ¬ is_full_block x = true := by rw [hx]; decide
      rw [List.takeWhile_append_of_pos hpre, List.dropWhile_append_of_pos hpre,
        List.takeWhile_cons_of_neg hxn, List.dropWhile_cons_of_neg hxn,
        List.takeWhile_cons_of_neg hxn, List.dropWhile_cons_of_neg hxn]
      simp

/-- The example invocation reading on stdout `ab`, with `zz` still waiting, and
then a failure with `EIO` (5): `ab` is read and appended, the short read ends
the call, which returns TRUE, and `zz` is left for the next call. -/
theorem read_output_drains_witness :
    (read_output (example_world none Cancellable.absent) 4
      [ReadResult.data (ascii "ab"), ReadResult.data (ascii "zz"),
        ReadResult.fail 5]).1.received = [ascii "ab"] ∧
    (read_output (example_world none Cancellable.absent) 4
      [ReadResult.data (ascii "ab"), ReadResult.data (ascii "zz"),
        ReadResult.fail 5]).1.ps.command.output = ascii "ab" ∧
    (read_output (example_world none Cancellable.absent) 4
      [ReadResult.data (ascii "ab"), ReadResult.data (ascii "zz"),
        ReadResult.fail 5]).2 = true :=
  ⟨(read_output_drains (example_world none Cancellable.absent) 4
      [ReadResult.data (ascii "ab"), ReadResult.data (ascii "zz"), ReadResult.fail 5]
      (by decide)).1,
    (read_output_drains (example_world none Cancellable.absent) 4
      [ReadResult.data (ascii "ab"), ReadResult.data (ascii "zz"), ReadResult.fail 5]
      (by decide)).2.1,
    by decide⟩

theorem fatal_write_warnings (w : World) (fd : Int) (input : GBytes) (errno : Nat)
    (hin : w.ps.command.input = some input) (hoff : w.ps.command.input_offset < input.size)
    (h1 : errno ≠ EINTR) (h2 : errno ≠ EAGAIN) :
    (on_process_source_input w fd (WriteResult.fail errno)).1.warnings =
      (if w.ps.command.cancelled = true ∧ errno = EPIPE then w.warnings
       else w.warnings ++ [Warning.write_failed errno]) := by
  unfold on_process_source_input
  rw [hin]
  simp only [g_bytes_get_data, hoff, if_true]
  rw [if_pos ⟨h1, h2⟩]
  unfold drop_input
  dsimp only
  by_cases hc : w.ps.command.cancelled = true
  · by_cases he : errno = EPIPE
    · simp [hc, he]
    · simp [hc, he]
  · simp [hc]

/-- C16: a `write` on stdin that fails with an `errno` other than `EINTR` and
`EAGAIN` logs the warning exactly when it is not the case that the invocation
is cancelled and the `errno` is `EPIPE`; in every case the input is dropped and
the function returns FALSE, so that the dispatch closes the stdin descriptor
and leaves the polls of stdout and stderr as they are. -/
theorem fatal_write_warning (w : World) (fd : Int) (input : GBytes) (errno : Nat)
    (hin : w.ps.command.input = some input) (hoff : w.ps.command.input_offset < input.size)
    (h1 : errno ≠ EINTR) (h2 : errno ≠ EAGAIN) :
    ((on_process_source_input w fd (WriteResult.fail errno)).1.warnings =
        w.warnings ++ [Warning.write_failed errno] ↔
      ¬ (w.ps.command.cancelled = true ∧ errno = EPIPE)) ∧
    (w.ps.command.cancelled = true ∧ errno = EPIPE →
      (on_process_source_input w fd (WriteResult.fail errno)).1.warnings = w.warnings) ∧
    (on_process_source_input w fd (WriteResult.fail errno)).1.ps.command.input = none ∧
    (on_process_source_input w fd (WriteResult.fail errno)).2 = false ∧
    (0 ≤ w.ps.polls.fd_input.fd → w.ps.polls.fd_input.revents &&& G_IO_OUT ≠ 0 →
      (dispatch_input w (WriteResult.fail errno)).ps.polls.fd_input.fd = -1 ∧
      (dispatch_input w (WriteResult.fail errno)).ps.polls.fd_output = w.ps.polls.fd_output ∧
      (dispatch_input w (WriteResult.fail errno)).ps.polls.fd_error = w.ps.polls.fd_error) := by
  have hw := fatal_write_warnings w fd input errno hin hoff h1 h2
  have hf := on_process_source_input_fatal w fd input errno hin hoff h1 h2
  refine ⟨?_, ?_, hf.2.1, hf.1, ?_⟩
  · rw [hw]
    by_cases hc : w.ps.command.cancelled = true ∧ errno = EPIPE
    · rw [if_pos hc]
      simp [hc]
    · rw [if_neg hc]
      simp [hc]
  · intro hc
    rw [hw, if_pos hc]
  · intro hfd hrev
    have hp := dispatch_input_polls w (WriteResult.fail errno)
    refine ⟨?_, hp.1, hp.2.1⟩
    rw [hp.2.2, if_pos ⟨hfd, Or.inr ⟨hrev,
      (on_process_source_input_fatal w _ input errno hin hoff h1 h2).1⟩⟩]

/-- The example invocation with the input `hi`: a broken pipe before
cancellation is logged, a broken pipe after cancellation is not, and another
error (`EIO`, 5) after cancellation is logged. -/
theorem fatal_write_warning_witness :
    (on_process_source_input (example_world (some (g_bytes_new [104, 105])) Cancellable.absent)
      3 (WriteResult.fail EPIPE)).1.warnings = [Warning.write_failed EPIPE] ∧
    (on_process_source_input
      (example_world (some (g_bytes_new [104, 105])) Cancellable.cancelled)
      3 (WriteResult.fail EPIPE)).1.warnings = [] ∧
    (on_process_source_input
      (example_world (some (g_bytes_new [104, 105])) Cancellable.cancelled)
      3 (WriteResult.fail 5)).1.warnings = [Warning.write_failed 5] :=
  ⟨(fatal_write_warning (example_world (some (g_bytes_new [104, 105])) Cancellable.absent)
      3 (g_bytes_new [104, 105]) EPIPE rfl (by decide) (by decide) (by decide)).1.mpr
      (by decide),
    (fatal_write_warning (example_world (some (g_bytes_new [104, 105])) Cancellable.cancelled)
      3 (g_bytes_new [104, 105]) EPIPE rfl (by decide) (by decide) (by decide)).2.1
      (by decide),
    (fatal_write_warning (example_world (some (g_bytes_new [104, 105])) Cancellable.cancelled)
      3 (g_bytes_new [104, 105]) 5 rfl (by decide) (by decide) (by decide)).1.mpr
      (by decide)⟩

theorem on_process_source_input_ok (payload : Bytes) (w : World) (fd : Int)
    (answer : WriteResult) (h : InputOk payload w) :
    InputOk payload (on_process_source_input w fd answer).1 := by
  obtain ⟨h1, h2, h3⟩ := h
  unfold on_process_source_input on_process_source_input_tail drop_input
  cases hin : w.ps.command.input with
  | none => exact ⟨h1, h2, h3⟩
  | some input =>
    have hd := h3 input hin
    dsimp only
    rw [hd]
    dsimp only
    by_cases hoff : w.ps.command.input_offset < payload.length
    · rw [if_pos hoff]
      cases answer with
      | fail errno =>
        dsimp only
        split
        · split
          · exact ⟨h1, h2, by intro i hi; cases hi⟩
          · exact ⟨h1, h2, by intro i hi; cases hi⟩
        · split
          · exact ⟨h1, h2, by intro i hi; cases hi⟩
          · exact ⟨h1, h2, h3⟩
      | wrote count =>
        dsimp only
        have hle : min count (payload.length - w.ps.command.input_offset) ≤
            payload.length - w.ps.command.input_offset := Nat.min_le_right _ _
        have hw : w.written ++ List.take (min count (payload.length - w.ps.command.input_offset))
            (List.take (payload.length - w.ps.command.input_offset)
              (List.drop w.ps.command.input_offset payload)) =
            payload.take (w.ps.command.input_offset +
              min count (payload.length - w.ps.command.input_offset)) := by
          rw [h2, List.take_take, Nat.min_eq_left hle, List.take_add]
        split
        · exact ⟨by dsimp only; omega, hw, by intro i hi; cases hi⟩
        · refine ⟨by dsimp only; omega, hw, ?_⟩
          intro i hi
          exact h3 i hi
    · rw [if_neg hoff]
      split
      · exact ⟨h1, h2, by intro i hi; cases hi⟩
      · exact ⟨h1, h2, h3⟩

theorem read_output_loop_input_ok (payload : Bytes) (reads : List ReadResult) :
    ∀ w : World, InputOk payload w → InputOk payload (read_output_loop reads w).1 := by
  induction reads with
  | nil => intro w h; exact h
  | cons r rest ih =>
    intro w h
    cases r with
    | fail errno =>
      simp only [read_output_loop]
      split <;> exact h
    | data bytes =>
      simp only [read_output_loop]
      split
      · apply ih
        split <;> exact h
      · split <;> exact h

theorem complete_written (w : World) : (complete_source_is_done w).written = w.written := by
  unfold complete_source_is_done
  split
  · rfl
  · dsimp only
    split <;> rfl

theorem complete_input_ok (payload : Bytes) (w : World) (h : InputOk payload w) :
    InputOk payload (complete_source_is_done w) := by
  unfold InputOk at h ⊢
  rw [complete_command, complete_written]
  exact h

theorem step_input_ok (payload : Bytes) (w : World) (e : Event) (h : InputOk payload w) :
    InputOk payload (step w e) := by
  cases e with
  | dispatch a b c d f g =>
    simp only [step]
    split
    · exact h
    · unfold on_process_source_dispatch
      have hb := dispatch_streams_rel (fun x y => InputOk payload x → InputOk payload y)
        (fun _ hx => hx) (fun _ _ _ h1 h2 hx => h2 (h1 hx))
        (fun reads x hx => read_output_loop_input_ok payload reads x hx)
        (fun x fd a hx => on_process_source_input_ok payload x fd a hx)
        (fun _ _ hx => hx) (fun _ _ hx => hx) (fun _ _ hx => hx)
        (poll_ready w a b c) d f g h
      generalize dispatch_error (dispatch_output (dispatch_input (poll_ready w a b c) d) f) g = v
        at hb ⊢
      unfold dispatch_finish
      split
      · exact hb
      · dsimp only
        split
        · exact complete_input_ok payload _ hb
        · exact hb
  | child_exited status =>
    simp only [step]
    split
    · exact h
    · unfold on_unix_process_child_exited
      dsimp only
      split
      · split
        · exact h
        · exact complete_input_ok payload _ h
      · split
        · split
          · split
            · exact h
            · exact complete_input_ok payload _ h
          · split
            · exact h
            · exact complete_input_ok payload _ h
        · split
          · exact h
          · exact complete_input_ok payload _ h
  | cancel =>
    simp only [step]
    split
    · exact h
    · unfold on_cancellable_cancelled g_simple_async_result_set_error
      dsimp only
      split <;> exact h

theorem run_input_ok (payload : Bytes) (events : List Event) :
    ∀ w : World, InputOk payload w → InputOk payload (run w events) := by
  induction events with
  | nil => intro w h; exact h
  | cons e rest ih => intro w h; exact ih (step w e) (step_input_ok payload w e h)

theorem input_ok_at_start (input : GBytes) (invocation : Option Nat)
    (cancellable : Cancellable) (pid input_fd output_fd error_fd : Int)
    (source_id watch_id : Nat) (hwf : input.size ≤ input.buffer.length) :
    InputOk (g_bytes_get_data input).1
      (process_source_new (new_command_closure (some input) invocation) cancellable pid
        input_fd output_fd error_fd source_id watch_id) := by
  have hlen : (g_bytes_get_data input).1.length = input.size := by
    simp [g_bytes_get_data, List.length_take, hwf]
  have hdata : g_bytes_get_data input =
      ((g_bytes_get_data input).1, (g_bytes_get_data input).1.length) := by
    rw [hlen]
    rfl
  unfold InputOk process_source_new new_command_closure
  cases cancellable with
  | absent =>
    refine ⟨by simp, by simp, ?_⟩
    intro i hi
    simp at hi
    rw [← hi]
    exact hdata
  | pending id =>
    refine ⟨by simp, by simp, ?_⟩
    intro i hi
    simp at hi
    rw [← hi]
    exact hdata
  | cancelled =>
    by_cases hp : pid = 0
    · refine ⟨by simp [on_cancellable_cancelled, g_simple_async_result_set_error, hp],
        by simp [on_cancellable_cancelled, g_simple_async_result_set_error, hp], ?_⟩
      intro i hi
      simp [on_cancellable_cancelled, g_simple_async_result_set_error, hp] at hi
      rw [← hi]
      exact hdata
    · refine ⟨by simp [on_cancellable_cancelled, g_simple_async_result_set_error, hp],
        by simp [on_cancellable_cancelled, g_simple_async_result_set_error, hp], ?_⟩
      intro i hi
      simp [on_cancellable_cancelled, g_simple_async_result_set_error, hp] at hi
      rw [← hi]
      exact hdata

theorem input_write_step (payload : Bytes) (w : World) (fd : Int) (input : GBytes)
    (hok : InputOk payload w) (hin : w.ps.command.input = some input) (r : Nat)
    (hoff : w.ps.command.input_offset < payload.length)
    (hr : r ≤ payload.length - w.ps.command.input_offset) :
    (on_process_source_input w fd (WriteResult.wrote r)).1.ps.command.input_offset =
      w.ps.command.input_offset + r ∧
    (on_process_source_input w fd (WriteResult.wrote r)).2 =
      decide (w.ps.command.input_offset + r < payload.length) := by
  have hd := hok.2.2 input hin
  unfold on_process_source_input on_process_source_input_tail drop_input
  rw [hin]
  dsimp only
  rw [hd]
  dsimp only
  rw [if_pos hoff, Nat.min_eq_left hr]
  split
  · rename_i hx
    exact ⟨rfl, by simp; omega⟩
  · rename_i hx
    exact ⟨rfl, by simp; omega⟩

theorem input_retry_step (payload : Bytes) (w : World) (fd : Int) (input : GBytes)
    (hok : InputOk payload w) (hin : w.ps.command.input = some input) (errno : Nat)
    (hoff : w.ps.command.input_offset < payload.length)
    (he : errno = EINTR ∨ errno = EAGAIN) :
    on_process_source_input w fd (WriteResult.fail errno) = (w, true) := by
  have hd := hok.2.2 input hin
  unfold on_process_source_input on_process_source_input_tail
  rw [hin]
  dsimp only
  rw [hd]
  dsimp only
  rw [if_pos hoff, if_neg (by omega), if_neg (by omega)]

theorem input_returns_false_iff (payload : Bytes) (w : World) (fd : Int) (input : GBytes)
    (hok : InputOk payload w) (hin : w.ps.command.input = some input)
    (answer : WriteResult) :
    (on_process_source_input w fd answer).2 = false ↔
      ((∃ errno, answer = WriteResult.fail errno ∧ errno ≠ EINTR ∧ errno ≠ EAGAIN ∧
          w.ps.command.input_offset < payload.length) ∨
        payload.length ≤ (on_process_source_input w fd answer).1.ps.command.input_offset) := by
  have hd := hok.2.2 input hin
  unfold on_process_source_input on_process_source_input_tail drop_input
  rw [hin]
  dsimp only
  rw [hd]
  dsimp only
  by_cases hoff : w.ps.command.input_offset < payload.length
  · rw [if_pos hoff]
    cases answer with
    | fail errno =>
      dsimp only
      by_cases hf : errno ≠ EINTR ∧ errno ≠ EAGAIN
      · rw [if_pos hf]
        simp only [true_iff]
        exact Or.inl ⟨errno, rfl, hf.1, hf.2, hoff⟩
      · rw [if_neg hf, if_neg (by omega)]
        simp only [Bool.true_eq_false, false_iff, not_or, not_exists, not_and]
        refine ⟨?_, by omega⟩
        intro e he h1 h2
        cases he
        exact absurd ⟨h1, h2⟩ hf
    | wrote count =>
      dsimp only
      split
      · rename_i hx
        simp only [true_iff]
        exact Or.inr hx
      · rename_i hx
        simp only [Bool.true_eq_false, false_iff, not_or, not_exists, not_and]
        simpa using hx
  · rw [if_neg hoff]
    split
    · rename_i hx
      simp only [true_iff]
      exact Or.inr hx
    · rename_i hx
      exact absurd (show payload.length ≤ w.ps.command.input_offset by omega) hx

/-- C17: while the stdin writer is at a cursor within the payload and the bytes
accepted so far are the first `cursor` bytes of the payload, every call of
`on_process_source_input` keeps these two facts, also along any sequence of
events; a `write` that accepts `r` bytes, `r` at most the bytes left, advances
the cursor by `r`; `EINTR` and `EAGAIN` change nothing and return TRUE; what a
call adds to the bytes written is a run of the payload that starts at the
cursor; and the call returns FALSE exactly when a fatal write error occurred or
the cursor has reached the length of the payload, and always when there is no
payload. -/
theorem stdin_cursor_invariant (payload : Bytes) (w : World) (fd : Int) (input : GBytes)
    (hok : InputOk payload w) (hin : w.ps.command.input = some input) :
    (∀ answer, InputOk payload (on_process_source_input w fd answer).1) ∧
    (∀ events, InputOk payload (run w events)) ∧
    (∀ r, w.ps.command.input_offset < payload.length →
      r ≤ payload.length - w.ps.command.input_offset →
      (on_process_source_input w fd (WriteResult.wrote r)).1.ps.command.input_offset =
        w.ps.command.input_offset + r ∧
      (on_process_source_input w fd (WriteResult.wrote r)).1.written =
        payload.take (w.ps.command.input_offset + r) ∧
      (on_process_source_input w fd (WriteResult.wrote r)).2 =
        decide (w.ps.command.input_offset + r < payload.length)) ∧
    (∀ errno, w.ps.command.input_offset < payload.length →
      errno = EINTR ∨ errno = EAGAIN →
      on_process_source_input w fd (WriteResult.fail errno) = (w, true)) ∧
    (∀ answer, ∃ k, (on_process_source_input w fd answer).1.written =
      w.written ++ ((payload.drop w.ps.command.input_offset).take k)) ∧
    (∀ answer, (on_process_source_input w fd answer).2 = false ↔
      ((∃ errno, answer = WriteResult.fail errno ∧ errno ≠ EINTR ∧ errno ≠ EAGAIN ∧
          w.ps.command.input_offset < payload.length) ∨
        payload.length ≤ (on_process_source_input w fd answer).1.ps.command.input_offset)) ∧
    (∀ (v : World) (answer : WriteResult), v.ps.command.input = none →
      on_process_source_input v fd answer = (v, false)) := by
  refine ⟨fun answer => on_process_source_input_ok payload w fd answer hok,
    fun events => run_input_ok payload events w hok, ?_, ?_, ?_, ?_, ?_⟩
  · intro r hoff hr
    have h1 := input_write_step payload w fd input hok hin r hoff hr
    have h2 := (on_process_source_input_ok payload w fd (WriteResult.wrote r) hok).2.1
    rw [h1.1] at h2
    exact ⟨h1.1, h2, h1.2⟩
  · intro errno hoff he
    exact input_retry_step payload w fd input hok hin errno hoff he
  · intro answer
    have h := on_process_source_input_written w fd answer input hin
    rw [hok.2.2 input hin] at h
    exact h
  · intro answer
    exact input_returns_false_iff payload w fd input hok hin answer
  · intro v answer hv
    unfold on_process_source_input
    rw [hv]

/-- The example invocation with the input `hey`: a first `write` accepts two
bytes (cursor 2, `he` written, TRUE), then `EAGAIN` changes nothing, then a
`write` accepts the last byte (cursor 3, `hey` written, FALSE). -/
theorem stdin_cursor_invariant_witness :
    (on_process_source_input (example_world (some (g_bytes_new (ascii "hey"))) Cancellable.absent)
      3 (WriteResult.wrote 2)).1.ps.command.input_offset = 0 + 2 ∧
    (on_process_source_input (example_world (some (g_bytes_new (ascii "hey"))) Cancellable.absent)
      3 (WriteResult.wrote 2)).1.written = (ascii "hey").take (0 + 2) ∧
    (run (example_world (some (g_bytes_new (ascii "hey"))) Cancellable.absent)
      [Event.dispatch G_IO_OUT 0 0 (WriteResult.wrote 2) [] [],
       Event.dispatch G_IO_OUT 0 0 (WriteResult.fail EAGAIN) [] [],
       Event.dispatch G_IO_OUT 0 0 (WriteResult.wrote 1) [] []]).written = ascii "hey" ∧
    InputOk (ascii "hey")
      (run (example_world (some (g_bytes_new (ascii "hey"))) Cancellable.absent)
        [Event.dispatch G_IO_OUT 0 0 (WriteResult.wrote 2) [] [],
         Event.dispatch G_IO_OUT 0 0 (WriteResult.fail EAGAIN) [] [],
         Event.dispatch G_IO_OUT 0 0 (WriteResult.wrote 1) [] []]) :=
  ⟨((stdin_cursor_invariant (ascii "hey")
      (example_world (some (g_bytes_new (ascii "hey"))) Cancellable.absent) 3
      (g_bytes_new (ascii "hey"))
      ⟨by decide, by decide, by intro i hi; cases hi; rfl⟩ rfl).2.2.1 2
      (by decide) (by decide)).1,
    ((stdin_cursor_invariant (ascii "hey")
      (example_world (some (g_bytes_new (ascii "hey"))) Cancellable.absent) 3
      (g_bytes_new (ascii "hey"))
      ⟨by decide, by decide, by intro i hi; cases hi; rfl⟩ rfl).2.2.1 2
      (by decide) (by decide)).2.1,
    by decide,
    (stdin_cursor_invariant (ascii "hey")
      (example_world (some (g_bytes_new (ascii "hey"))) Cancellable.absent) 3
      (g_bytes_new (ascii "hey"))
      ⟨by decide, by decide, by intro i hi; cases hi; rfl⟩ rfl).2.1 _⟩

theorem complete_kills (w : World) : (complete_source_is_done w).kills = w.kills := by
  unfold complete_source_is_done
  split
  · rfl
  · dsimp only
    split <;> rfl

theorem child_exited_kills (w : World) (status : Nat) :
    (on_unix_process_child_exited w status).kills = w.kills := by
  unfold on_unix_process_child_exited
  dsimp only
  split
  · split
    · rfl
    · rw [complete_kills]
  · split
    · split
      · split
        · rfl
        · rw [complete_kills]; rfl
      · split
        · rfl
        · rw [complete_kills]
    · split
      · rfl
      · rw [complete_kills]

/-- C19: `on_cancellable_cancelled` calls `kill (child_pid, SIGTERM)` exactly
when `child_pid` is not 0; after `on_unix_process_child_exited`, which sends no
signal and resets `child_pid` to 0, a cancellation sends no signal, while it
still sets the cancelled flag and records the Cancelled error; and no event
resets the cancelled flag. -/
theorem cancel_signals_only_live_child (w : World) :
    (w.ps.child_pid ≠ 0 →
      (on_cancellable_cancelled w).kills = w.kills ++ [(w.ps.child_pid, SIGTERM)]) ∧
    (w.ps.child_pid = 0 → (on_cancellable_cancelled w).kills = w.kills) ∧
    (w.ps.child_pid = 0 → (step w Event.cancel).kills = w.kills) ∧
    (∀ status : Nat,
      (on_unix_process_child_exited w status).ps.child_pid = 0 ∧
      (on_unix_process_child_exited w status).kills = w.kills ∧
      (on_cancellable_cancelled (on_unix_process_child_exited w status)).kills = w.kills ∧
      (on_cancellable_cancelled (on_unix_process_child_exited w status)).ps.command.cancelled
        = true ∧
      (on_cancellable_cancelled (on_unix_process_child_exited w status)).ps.res.error
        = some GError.io_cancelled) ∧
    ((on_cancellable_cancelled w).ps.command.cancelled = true ∧
      (on_cancellable_cancelled w).ps.res.error = some GError.io_cancelled) ∧
    (∀ events : List Event, w.ps.command.cancelled = true →
      (run w events).ps.command.cancelled = true) := by
  have hk0 : ∀ v : World, v.ps.child_pid = 0 → (on_cancellable_cancelled v).kills = v.kills := by
    intro v hv
    unfold on_cancellable_cancelled g_simple_async_result_set_error
    dsimp only
    rw [if_neg (by simp [hv])]
  refine ⟨?_, hk0 w, ?_, ?_, ⟨(cancelled_effect w).2.1, (cancelled_effect w).1⟩,
    fun events h => run_keeps_cancelled w events h⟩
  · intro hp
    unfold on_cancellable_cancelled g_simple_async_result_set_error
    dsimp only
    rw [if_pos hp]
  · intro hp
    simp only [step]
    split
    · rfl
    · exact hk0 w hp
  · intro status
    have hpid := (child_exited_effect w status).1
    refine ⟨hpid, child_exited_kills w status, ?_, (cancelled_effect _).2.1, (cancelled_effect _).1⟩
    rw [hk0 _ hpid, child_exited_kills]

/-- The example invocation with a connected handler: a cancel event while the
child runs sends one SIGTERM to pid 7; a second cancel event after the child
exit sends nothing more, and the flag stays set. -/
theorem cancel_signals_only_live_child_witness :
    (on_cancellable_cancelled (example_world none (Cancellable.pending 9))).kills =
      (example_world none (Cancellable.pending 9)).kills ++ [(7, SIGTERM)] ∧
    (run (example_world none (Cancellable.pending 9))
      [Event.cancel, Event.child_exited SIGTERM, Event.cancel]).kills = [(7, SIGTERM)] ∧
    (run (example_world none (Cancellable.pending 9))
      [Event.cancel, Event.child_exited SIGTERM, Event.cancel]).ps.command.cancelled = true :=
  ⟨(cancel_signals_only_live_child (example_world none (Cancellable.pending 9))).1 (by decide),
    by decide,
    (cancel_signals_only_live_child (run (example_world none (Cancellable.pending 9))
      [Event.cancel])).2.2.2.2.2 [Event.child_exited SIGTERM, Event.cancel] (by decide)⟩

theorem discover_configured_foldl (m : RealmKerberos → Bytes → Bool) (string : Bytes)
    (realms : List RealmKerberos) :
    ∀ (acc : List RealmKerberos) (l : RealmKerberos),
      l ∈ realms.foldl
        (fun matched x => if x.configured && m x string then x :: matched else matched) acc ↔
      l ∈ acc ∨ (l ∈ realms ∧ l.configured = true ∧ m l string = true) := by
  induction realms with
  | nil => intro acc l; simp
  | cons x rest ih =>
    intro acc l
    rw [List.foldl_cons, ih]
    by_cases hx : (x.configured && m x string) = true
    · rw [if_pos hx]
      simp only [Bool.and_eq_true] at hx
      simp only [List.mem_cons]
      constructor
      · rintro ((h | h) | h)
        · subst h
          exact Or.inr ⟨Or.inl rfl, hx.1, hx.2⟩
        · exact Or.inl h
        · exact Or.inr ⟨Or.inr h.1, h.2⟩
      · rintro (h | ⟨h | h, h2⟩)
        · exact Or.inl (Or.inr h)
        · exact Or.inl (Or.inl h)
        · exact Or.inr ⟨h, h2⟩
    · rw [if_neg hx]
      simp only [List.mem_cons]
      constructor
      · rintro (h | h)
        · exact Or.inl h
        · exact Or.inr ⟨Or.inr h.1, h.2⟩
      · rintro (h | ⟨h | h, h2⟩)
        · exact Or.inl h
        · subst h
          exact absurd (by simp [h2.1, h2.2]) hx
        · exact Or.inr ⟨h, h2⟩

/-- C20: in `return_discover_result`, with the timeout fired
(`timeout_id == 0`) a Cancelled error is cleared and the one reply is a result:
the discovered realms with their relevance, or, when none were discovered and
there is a request string, the configured realms that match it with relevance
20; with the timeout not fired the timer is removed and `timeout_id` reset,
and when no error was given and the cancellable of the invocation is cancelled
the one reply is the "Operation was cancelled." error; every call sends exactly
one reply, so never a result together with an error. -/
theorem discover_reply (realm_kerberos_matches : RealmKerberos → Bytes → Bool)
    (closure : MethodClosure) (realms : List RealmKerberos) (relevance : Int)
    (error : Option DiscoverError) :
    (closure.timeout_id = 0 →
      g_error_matches error ErrorDomain.g_io_error G_IO_ERROR_CANCELLED = true →
      (realms ≠ [] →
        (return_discover_result realm_kerberos_matches closure realms relevance error).replies =
          [Reply.return_value relevance
            ((g_list_sort_configured_first realms).map (fun l => l.object_path))]) ∧
      (∀ string, realms = [] → closure.string = some string →
        (return_discover_result realm_kerberos_matches closure realms relevance error).replies =
          [Reply.return_value 20
            ((g_list_sort_configured_first
              (discover_configured realm_kerberos_matches closure.realms string)).map
                (fun l => l.object_path))]) ∧
      (realms = [] → closure.string = none →
        (return_discover_result realm_kerberos_matches closure realms relevance error).replies =
          [Reply.return_value relevance []])) ∧
    (∀ (string : Bytes) (l : RealmKerberos),
      l ∈ discover_configured realm_kerberos_matches closure.realms string ↔
        l ∈ closure.realms ∧ l.configured = true ∧ realm_kerberos_matches l string = true) ∧
    (closure.timeout_id ≠ 0 →
      (return_discover_result realm_kerberos_matches closure realms relevance error).removed =
        [closure.timeout_id] ∧
      (error = none → closure.cancellable = some true →
        (return_discover_result realm_kerberos_matches closure realms relevance error).replies =
          [Reply.return_error_cancelled])) ∧
    (return_discover_result realm_kerberos_matches closure realms relevance error).replies.length
      = 1 ∧
    (return_discover_result realm_kerberos_matches closure realms relevance error).timeout_id = 0 ∧
    (return_discover_result realm_kerberos_matches closure realms relevance error).assert_failed
      = false ∧
    (on_discover_timeout closure).timeout_id = 0 := by
  refine ⟨?_, ?_, ?_, ?_, ?_, ?_, rfl⟩
  · intro ht hm
    unfold return_discover_result
    simp only [ht, hm, if_true]
    refine ⟨?_, ?_, ?_⟩
    · intro hr
      cases realms with
      | nil => exact absurd rfl hr
      | cons x xs => rfl
    · intro string hr hs
      subst hr
      rw [hs]
    · intro hr hs
      subst hr
      rw [hs]
      rfl
  · intro string l
    unfold discover_configured
    rw [discover_configured_foldl]
    simp
  · intro ht
    unfold return_discover_result
    simp only [ht, if_false]
    refine ⟨trivial, ?_⟩
    intro he hc
    subst he
    simp only [hc, if_true]
    rfl
  · unfold return_discover_result
    dsimp only
    split
    · rfl
    · split
      · rfl
      · split <;> rfl
  · unfold return_discover_result
    dsimp only
    split
    · rename_i h
      exact h
    · rfl
  · unfold return_discover_result
    dsimp only
    split
    · rename_i h
      simp [h]
    · rfl

/-- Two calls on a provider with the configured realm `/r1`: after the timeout
a Cancelled error with nothing discovered gives the configured realm with
relevance 20; before the timeout, without an error but with a cancelled
cancellable, the reply is the cancelled error and timer 5 is removed. -/
theorem discover_reply_witness :
    (return_discover_result (fun _ _ => true) (on_discover_timeout (example_closure false))
      [] 0 (some cancelled_error)).replies = [Reply.return_value 20 [ascii "/r1"]] ∧
    (return_discover_result (fun _ _ => true) (example_closure true) [] 0 none).replies =
      [Reply.return_error_cancelled] ∧
    (return_discover_result (fun _ _ => true) (example_closure true) [] 0 none).removed = [5] :=
  ⟨((discover_reply (fun _ _ => true) (on_discover_timeout (example_closure false))
      [] 0 (some cancelled_error)).1 rfl (by decide)).2.1 (ascii "example.com") rfl rfl,
    ((discover_reply (fun _ _ => true) (example_closure true) [] 0 none).2.2.1
      (by decide)).2 rfl rfl,
    ((discover_reply (fun _ _ => true) (example_closure true) [] 0 none).2.2.1
      (by decide)).1⟩

theorem on_process_source_input_received (w : World) (fd : Int) (answer : WriteResult) :
    (on_process_source_input w fd answer).1.received = w.received := by
  unfold on_process_source_input on_process_source_input_tail drop_input
  split
  · rfl
  · dsimp only
    split
    · split
      · split
        · split <;> rfl
        · split <;> rfl
      · split <;> rfl
    · split <;> rfl

theorem close_poll_received (w : World) (poll : GPollFD) :
    (close_poll w poll).1.received = w.received := by
  unfold close_poll close_fd
  dsimp only
  split <;> rfl

theorem dispatch_input_received (w : World) (answer : WriteResult) :
    (dispatch_input w answer).received = w.received := by
  unfold dispatch_input
  dsimp only
  split
  · split
    · split
      · split
        · simp [close_poll_received, on_process_source_input_received]
        · simp [on_process_source_input_received]
      · split
        · simp [close_poll_received, on_process_source_input_received]
        · simp [on_process_source_input_received]
    · split
      · simp [close_poll_received]
      · rfl
  · rfl

theorem on_process_source_output_received (w : World) (fd : Int) (reads : List ReadResult)
    (hfd : 0 ≤ fd) :
    (on_process_source_output w fd reads).1.received = w.received ++ chunks_read reads := by
  unfold on_process_source_output
  rw [read_output_open w fd reads hfd]
  dsimp only
  split
  · exact (read_output_loop_trace reads w).1
  · exact (read_output_loop_trace reads w).1

theorem on_process_source_error_received (w : World) (fd : Int) (reads : List ReadResult)
    (hfd : 0 ≤ fd) :
    (on_process_source_error w fd reads).1.received = w.received ++ chunks_read reads := by
  unfold on_process_source_error
  rw [read_output_open w fd reads hfd]
  dsimp only
  split
  · exact (read_output_loop_trace reads w).1
  · exact (read_output_loop_trace reads w).1

theorem dispatch_output_received (w : World) (reads : List ReadResult) :
    (dispatch_output w reads).received = w.received ++
      (if 0 ≤ w.ps.polls.fd_output.fd ∧ w.ps.polls.fd_output.revents &&& G_IO_IN ≠ 0 then
        chunks_read reads else []) := by
  unfold dispatch_output
  dsimp only
  by_cases hfd : 0 ≤ w.ps.polls.fd_output.fd
  · have hr := on_process_source_output_received w w.ps.polls.fd_output.fd reads hfd
    by_cases hin : w.ps.polls.fd_output.revents &&& G_IO_IN ≠ 0
    · rw [if_pos (show 0 ≤ w.ps.polls.fd_output.fd ∧
        w.ps.polls.fd_output.revents &&& G_IO_IN ≠ 0 from ⟨hfd, hin⟩)]
      rw [if_pos hfd, if_pos hin]
      cases hb : (on_process_source_output w w.ps.polls.fd_output.fd reads).2
      · have hup := hup_bit_set w.ps.polls.fd_output.revents
        simp [hup, close_poll_received, hr]
      · by_cases hh : w.ps.polls.fd_output.revents &&& G_IO_HUP ≠ 0
        · simp [hh, close_poll_received, hr]
        · simp [hh, hr]
    · rw [if_neg (show ¬ (0 ≤ w.ps.polls.fd_output.fd ∧
        w.ps.polls.fd_output.revents &&& G_IO_IN ≠ 0) from fun h => hin h.2)]
      rw [if_pos hfd, if_neg hin]
      by_cases hh : w.ps.polls.fd_output.revents &&& G_IO_HUP ≠ 0
      · simp [hh, close_poll_received]
      · simp [hh]
  · rw [if_neg (show ¬ (0 ≤ w.ps.polls.fd_output.fd ∧
      w.ps.polls.fd_output.revents &&& G_IO_IN ≠ 0) from fun h => hfd h.1)]
    rw [if_neg hfd]
    simp

theorem dispatch_error_received (w : World) (reads : List ReadResult) :
    (dispatch_error w reads).received = w.received ++
      (if 0 ≤ w.ps.polls.fd_error.fd ∧ w.ps.polls.fd_error.revents &&& G_IO_IN ≠ 0 then
        chunks_read reads else []) := by
  unfold dispatch_error
  dsimp only
  by_cases hfd : 0 ≤ w.ps.polls.fd_error.fd
  · have hr := on_process_source_error_received w w.ps.polls.fd_error.fd reads hfd
    by_cases hin : w.ps.polls.fd_error.revents &&& G_IO_IN ≠ 0
    · rw [if_pos (show 0 ≤ w.ps.polls.fd_error.fd ∧
        w.ps.polls.fd_error.revents &&& G_IO_IN ≠ 0 from ⟨hfd, hin⟩)]
      rw [if_pos hfd, if_pos hin]
      cases hb : (on_process_source_error w w.ps.polls.fd_error.fd reads).2
      · have hup := hup_bit_set w.ps.polls.fd_error.revents
        simp [hup, close_poll_received, hr]
      · by_cases hh : w.ps.polls.fd_error.revents &&& G_IO_HUP ≠ 0
        · simp [hh, close_poll_received, hr]
        · simp [hh, hr]
    · rw [if_neg (show ¬ (0 ≤ w.ps.polls.fd_error.fd ∧
        w.ps.polls.fd_error.revents &&& G_IO_IN ≠ 0) from fun h => hin h.2)]
      rw [if_pos hfd, if_neg hin]
      by_cases hh : w.ps.polls.fd_error.revents &&& G_IO_HUP ≠ 0
      · simp [hh, close_poll_received]
      · simp [hh]
  · rw [if_neg (show ¬ (0 ≤ w.ps.polls.fd_error.fd ∧
      w.ps.polls.fd_error.revents &&& G_IO_IN ≠ 0) from fun h => hfd h.1)]
    rw [if_neg hfd]
    simp

/-- What one event adds to the trace of the chunks read: the chunks its read
answers determine. -/
theorem step_received (w : World) (e : Event) :
    (step w e).received = w.received ++ event_chunks w e := by
  cases e with
  | dispatch a b c d f g =>
    simp only [step, event_chunks]
    split
    · simp
    · unfold on_process_source_dispatch
      dsimp only
      rw [(dispatch_finish_keeps _).2.2.2.2.2.2, dispatch_error_received,
        dispatch_output_received, dispatch_input_received,
        (dispatch_output_polls _ _).2.1, (dispatch_input_polls _ _).2.1,
        (dispatch_input_polls _ _).1]
      have ho : (0 ≤ (poll_ready w a b c).ps.polls.fd_output.fd ∧
          (poll_ready w a b c).ps.polls.fd_output.revents &&& G_IO_IN ≠ 0) ↔
          (0 ≤ w.ps.polls.fd_output.fd ∧ b &&& G_IO_IN ≠ 0) := by
        unfold poll_ready set_revents
        dsimp only
        by_cases h : 0 ≤ w.ps.polls.fd_output.fd
        · simp [h]
        · simp [h]
      have he : (0 ≤ (poll_ready w a b c).ps.polls.fd_error.fd ∧
          (poll_ready w a b c).ps.polls.fd_error.revents &&& G_IO_IN ≠ 0) ↔
          (0 ≤ w.ps.polls.fd_error.fd ∧ c &&& G_IO_IN ≠ 0) := by
        unfold poll_ready set_revents
        dsimp only
        by_cases h : 0 ≤ w.ps.polls.fd_error.fd
        · simp [h]
        · simp [h]
      simp only [ho, he]
      have hrec : (poll_ready w a b c).received = w.received := rfl
      rw [hrec, List.append_assoc]
  | child_exited status =>
    simp only [step, event_chunks, List.append_nil]
    split
    · rfl
    · rw [(child_exited_effect _ status).2.2.2.1]
  | cancel =>
    simp only [step, event_chunks, List.append_nil]
    split
    · rfl
    · rw [(cancelled_effect w).2.2.2.2]

/-- The trace of the chunks read in a run is what the read answers of its
events determine. -/
theorem run_received (events : List Event) :
    ∀ w : World, (run w events).received = w.received ++ run_chunks w events := by
  induction events with
  | nil => intro w; simp [run, run_chunks]
  | cons e rest ih =>
    intro w
    have h := ih (step w e)
    unfold run at h ⊢
    rw [List.foldl_cons, h, step_received, run_chunks, List.append_assoc]

theorem child_exited_polls (w : World) (status : Nat) :
    (on_unix_process_child_exited w status).ps.polls = w.ps.polls := by
  unfold on_unix_process_child_exited g_simple_async_result_set_error
  dsimp only
  split
  · split
    · rfl
    · rw [complete_polls]
  · split
    · split
      · split
        · rfl
        · rw [complete_polls]
      · split
        · rfl
        · rw [complete_polls]
    · split
      · rfl
      · rw [complete_polls]

theorem cancelled_polls (w : World) :
    (on_cancellable_cancelled w).ps.polls = w.ps.polls := by
  unfold on_cancellable_cancelled g_simple_async_result_set_error
  dsimp only
  split <;> rfl

/-- Which of stdout and stderr are open after an event, and the chunks the
event reads, in terms of the event alone. -/
theorem step_streams (w : World) (hi : Inv w) (e : Event) :
    match e with
    | Event.dispatch _ rev_out rev_err _ out_reads err_reads =>
      decide (0 ≤ (step w e).ps.polls.fd_output.fd) =
        stream_open_after (decide (0 ≤ w.ps.polls.fd_output.fd)) rev_out out_reads ∧
      decide (0 ≤ (step w e).ps.polls.fd_error.fd) =
        stream_open_after (decide (0 ≤ w.ps.polls.fd_error.fd)) rev_err err_reads ∧
      event_chunks w e =
        stream_chunks (decide (0 ≤ w.ps.polls.fd_output.fd)) rev_out out_reads ++
          stream_chunks (decide (0 ≤ w.ps.polls.fd_error.fd)) rev_err err_reads
    | _ =>
      (step w e).ps.polls = w.ps.polls ∧ event_chunks w e = [] := by
  cases e with
  | dispatch a b c d f g =>
    dsimp only
    have hab := hi.not_aborted
    by_cases hat : w.source_attached = true
    · have hfo : (step w (Event.dispatch a b c d f g)).ps.polls.fd_output.fd =
          (if 0 ≤ w.ps.polls.fd_output.fd ∧ (b &&& G_IO_HUP ≠ 0 ∨
              (b &&& G_IO_IN ≠ 0 ∧ read_fails f = true))
            then -1 else w.ps.polls.fd_output.fd) := by
        simp only [step, hab, hat, Bool.not_true, Bool.or_self, Bool.false_eq_true, if_false]
        unfold on_process_source_dispatch
        rw [(dispatch_finish_keeps _).2.2.2.2.1, (dispatch_error_polls _ _).2.1,
          (dispatch_output_polls _ _).2.2, (dispatch_input_polls _ _).1]
        unfold poll_ready set_revents
        dsimp only
        by_cases h : 0 ≤ w.ps.polls.fd_output.fd
        · simp [h]
        · simp [h]
      have hfe : (step w (Event.dispatch a b c d f g)).ps.polls.fd_error.fd =
          (if 0 ≤ w.ps.polls.fd_error.fd ∧ (c &&& G_IO_HUP ≠ 0 ∨
              (c &&& G_IO_IN ≠ 0 ∧ read_fails g = true))
            then -1 else w.ps.polls.fd_error.fd) := by
        simp only [step, hab, hat, Bool.not_true, Bool.or_self, Bool.false_eq_true, if_false]
        unfold on_process_source_dispatch
        rw [(dispatch_finish_keeps _).2.2.2.2.1, (dispatch_error_polls _ _).2.2,
          (dispatch_output_polls _ _).2.1, (dispatch_input_polls _ _).2.1]
        unfold poll_ready set_revents
        dsimp only
        by_cases h : 0 ≤ w.ps.polls.fd_error.fd
        · simp [h]
        · simp [h]
      refine ⟨?_, ?_, ?_⟩
      · rw [hfo]
        unfold stream_open_after
        by_cases h : 0 ≤ w.ps.polls.fd_output.fd
        · by_cases h2 : b &&& G_IO_HUP ≠ 0 ∨ (b &&& G_IO_IN ≠ 0 ∧ read_fails f = true)
          · rw [if_pos ⟨h, h2⟩]
            rcases h2 with h2 | h2
            · simp [h, h2]
            · simp [h, h2.1, h2.2]
          · rw [if_neg (fun hh => h2 hh.2)]
            simp only [not_or, not_and, Decidable.not_not] at h2
            cases hr : read_fails f
            · simp [h, h2.1]
            · have := h2.2
              simp [hr] at this
              simp [h, h2.1, this]
        · simp [h]
      · rw [hfe]
        unfold stream_open_after
        by_cases h : 0 ≤ w.ps.polls.fd_error.fd
        · by_cases h2 : c &&& G_IO_HUP ≠ 0 ∨ (c &&& G_IO_IN ≠ 0 ∧ read_fails g = true)
          · rw [if_pos ⟨h, h2⟩]
            rcases h2 with h2 | h2
            · simp [h, h2]
            · simp [h, h2.1, h2.2]
          · rw [if_neg (fun hh => h2 hh.2)]
            simp only [not_or, not_and, Decidable.not_not] at h2
            cases hr : read_fails g
            · simp [h, h2.1]
            · have := h2.2
              simp [hr] at this
              simp [h, h2.1, this]
        · simp [h]
      · simp [event_chunks, stream_chunks, hab, hat]
    · have hat2 : w.source_attached = false := by simpa using hat
      have hclosed := any_fd_open_false (hi.attached ▸ hat2)
      have ho : ¬ 0 ≤ w.ps.polls.fd_output.fd := by omega
      have he : ¬ 0 ≤ w.ps.polls.fd_error.fd := by omega
      simp [step, event_chunks, stream_chunks, stream_open_after, hat2, ho, he]
  | child_exited status =>
    dsimp only
    refine ⟨?_, rfl⟩
    simp only [step]
    split
    · rfl
    · rw [child_exited_polls]
  | cancel =>
    dsimp only
    refine ⟨?_, rfl⟩
    simp only [step]
    split
    · rfl
    · rw [cancelled_polls]

/-- The chunks read in a run are those the events determine, given which of
stdout and stderr are open at the start. -/
theorem run_chunks_of_events (events : List Event) :
    ∀ w : World, Inv w →
      run_chunks w events = chunks_of_events (decide (0 ≤ w.ps.polls.fd_output.fd))
        (decide (0 ≤ w.ps.polls.fd_error.fd)) events := by
  induction events with
  | nil => intro w _; rfl
  | cons e rest ih =>
    intro w hi
    have hs := step_streams w hi e
    have hrest := ih (step w e) (inv_step hi e)
    cases e with
    | dispatch a b c d f g =>
      dsimp only at hs
      rw [run_chunks, chunks_of_events, hrest, hs.1, hs.2.1, hs.2.2, List.append_assoc]
    | child_exited status =>
      dsimp only at hs
      rw [run_chunks, chunks_of_events, hrest, hs.1, hs.2, List.nil_append]
    | cancel =>
      dsimp only at hs
      rw [run_chunks, chunks_of_events, hrest, hs.1, hs.2, List.nil_append]

/-- C6: in a run of a spawned invocation whose child exits normally with exit
status `c`, the chunks read are those that the read answers of the events
determine: for each dispatch, in order, the chunks of the stdout answers when
stdout is open and readable, then those of the stderr answers when stderr is
open and readable, a stream being closed by a hangup or a failed read.  A
result delivered without the cancelled flag makes `realm_command_run_finish`
report no error, return `c`, and hand back as output the concatenation of these
chunks in the order in which they were read.  In particular, when stdout is
read in one dispatch and then hangs up and the child exits, the chunks read are
those of the stdout answers; and when the bytes the child wrote arrive as full
blocks followed by a shorter block, the chunks read are exactly those bytes. -/
theorem normal_exit_result (w0 : World) (h0 : Spawned w0) (events : List Event) (c : Nat)
    (hexit : ∀ status, Event.child_exited status ∈ events →
      WIFEXITED status = true ∧ WEXITSTATUS status = c) :
    (run w0 events).received =
      chunks_of_events (decide (0 ≤ w0.ps.polls.fd_output.fd))
        (decide (0 ≤ w0.ps.polls.fd_error.fd)) events ∧
    (∀ d ∈ (run w0 events).delivered, d.command.cancelled = false →
      finish_delivered d true =
        { ret := (c : Int),
          output := some (chunks_of_events (decide (0 ≤ w0.ps.polls.fd_output.fd))
            (decide (0 ≤ w0.ps.polls.fd_error.fd)) events).flatten,
          error := none }) ∧
    (∀ (err_open : Bool) (reads : List ReadResult) (rev_in : Nat) (answer : WriteResult)
        (status : Nat),
      chunks_of_events true err_open [Event.dispatch rev_in G_IO_IN 0 answer reads [],
        hangup_all, Event.child_exited status] = chunks_read reads) ∧
    (∀ (blocks : List Bytes) (last : Bytes),
      (∀ b ∈ blocks, b.length = BLOCK_SIZE) → last.length < BLOCK_SIZE →
      (chunks_read (blocks.map ReadResult.data ++ [ReadResult.data last])).flatten =
        blocks.flatten ++ last) := by
  have hf := spawned_facts h0
  have hrec : (run w0 events).received =
      chunks_of_events (decide (0 ≤ w0.ps.polls.fd_output.fd))
        (decide (0 ≤ w0.ps.polls.fd_error.fd)) events := by
    rw [run_received, hf.2.1, List.nil_append, run_chunks_of_events events w0 (inv_start h0)]
  have hP := run_induction
    (fun w => OutputOk w ∧ (w.ps.command.cancelled = false → w.ps.res.error = none) ∧
      (w.ps.child_pid = 0 → w.ps.command.exit_code = (c : Int)))
    (fun e => ∀ status, e = Event.child_exited status →
      WIFEXITED status = true ∧ WEXITSTATUS status = c)
    (by
      intro w e hi hp hq
      refine ⟨step_output_ok w e hp.1, ?_, ?_⟩
      · cases e with
        | dispatch a b c d f g =>
          rw [(step_dispatch_keeps w a b c d f g).1, (step_dispatch_keeps w a b c d f g).2.1]
          exact hp.2.1
        | child_exited status =>
          simp only [step]
          split
          · exact hp.2.1
          · rw [(child_exited_effect _ status).2.1, (child_exited_effect _ status).2.2.2.2.1]
            simp only [(hq status rfl).1, if_true]
            exact hp.2.1
        | cancel =>
          simp only [step]
          split
          · exact hp.2.1
          · intro hc
            rw [(cancelled_effect w).2.1] at hc
            exact absurd hc (by decide)
      · cases e with
        | dispatch a b c d f g =>
          rw [(step_dispatch_keeps w a b c d f g).2.2.1, (step_dispatch_keeps w a b c d f g).2.2.2]
          exact hp.2.2
        | child_exited status =>
          simp only [step]
          split
          · exact hp.2.2
          · intro _
            rw [(child_exited_effect _ status).2.2.2.2.2]
            simp [(hq status rfl).1, (hq status rfl).2]
        | cancel =>
          simp only [step]
          split
          · exact hp.2.2
          · rw [(cancelled_effect w).2.2.1]
            unfold on_cancellable_cancelled g_simple_async_result_set_error
            dsimp only
            split <;> exact hp.2.2)
    events w0 (inv_start h0)
    ⟨by unfold OutputOk; rw [hf.1, hf.2.1]; rfl, hf.2.2.2, fun hz => absurd hz hf.2.2.1⟩
    (fun e he status hs => hexit status (hs ▸ he))
  refine ⟨hrec, ?_, ?_, ?_⟩
  intro d hd hc
  have hi : Inv (run w0 events) := inv_run (inv_start h0) events
  obtain ⟨hdeq, hfin⟩ := inv_delivered_eq hi d hd
  subst hdeq
  have herr := hP.2.1 hc
  have hcode := hP.2.2 hfin.2.2.2
  have hout : (run w0 events).ps.command.output =
      (chunks_of_events (decide (0 ≤ w0.ps.polls.fd_output.fd))
        (decide (0 ≤ w0.ps.polls.fd_error.fd)) events).flatten := by
    rw [← hrec]
    exact hP.1
  simp [finish_delivered, realm_command_run_finish, herr, hcode, hout]
  · intro err_open reads rev_in answer status
    have hhup : G_IO_HUP &&& G_IO_IN = 0 := by decide
    have hzero : 0 &&& G_IO_IN = 0 := by decide
    simp only [chunks_of_events, stream_chunks, hangup_all, hhup, hzero]
    simp [show ¬ G_IO_IN = 0 by decide]
  · intro blocks last hfull hlast
    have htake : List.take BLOCK_SIZE last = last := List.take_of_length_le (by omega)
    induction blocks with
    | nil =>
      have hshort : ¬ (List.take BLOCK_SIZE last).length = BLOCK_SIZE := by
        rw [htake]
        omega
      simp only [List.map_nil, List.nil_append, List.flatten_nil]
      rw [chunks_read_short last [] hshort, htake]
      simp
    | cons b rest ih =>
      have hb : b.length = BLOCK_SIZE := hfull b (by simp)
      have htb : List.take BLOCK_SIZE b = b := List.take_of_length_le (by omega)
      have hfb : (List.take BLOCK_SIZE b).length = BLOCK_SIZE := by
        rw [htb]
        exact hb
      simp only [List.map_cons, List.cons_append, List.flatten_cons]
      rw [chunks_read_full b _ hfb, htb, List.flatten_cons,
        ih (fun x hx => hfull x (by simp [hx])), List.append_assoc]

/-- The example invocation: the child writes `he` to stdout and `oops` to
stderr, then `y` to stdout, the streams hang up and the child exits with status
1 (wait status 256): the result is exit code 1 with the output `heoopsy`, the
chunks of both streams in the order read, and no error. -/
theorem normal_exit_result_witness :
    (run (example_world none Cancellable.absent)
      [Event.dispatch 0 G_IO_IN G_IO_IN (WriteResult.wrote 0) [ReadResult.data (ascii "he")]
         [ReadResult.data (ascii "oops")],
       Event.dispatch 0 G_IO_IN 0 (WriteResult.wrote 0) [ReadResult.data (ascii "y")] [],
       hangup_all, Event.child_exited 256]).delivered.length = 1 ∧
    ∀ d ∈ (run (example_world none Cancellable.absent)
      [Event.dispatch 0 G_IO_IN G_IO_IN (WriteResult.wrote 0) [ReadResult.data (ascii "he")]
         [ReadResult.data (ascii "oops")],
       Event.dispatch 0 G_IO_IN 0 (WriteResult.wrote 0) [ReadResult.data (ascii "y")] [],
       hangup_all, Event.child_exited 256]).delivered,
      finish_delivered d true =
        { ret := ((1 : Nat) : Int), output := some (ascii "heoopsy"), error := none } :=
  ⟨by decide, fun d hd =>
    (normal_exit_result (example_world none Cancellable.absent)
      ⟨none, none, Cancellable.absent, 7, 3, 4, 5, 1, 2, by decide, by decide,
        (by intro id h; cases h), rfl⟩
      [Event.dispatch 0 G_IO_IN G_IO_IN (WriteResult.wrote 0) [ReadResult.data (ascii "he")]
         [ReadResult.data (ascii "oops")],
       Event.dispatch 0 G_IO_IN 0 (WriteResult.wrote 0) [ReadResult.data (ascii "y")] [],
       hangup_all, Event.child_exited 256] 1
      (by
        intro status hs
        simp [hangup_all] at hs
        subst hs
        decide)).2.1
      d hd (by
        revert d
        decide)⟩

end Realm
